import Mathlib

/-!
Verification development for the FR-Ocean engine.

This file gives a shallow embedding, in Lean 4, of the engine subsystems that
the specification talks about, and proves or refutes the specified properties
over that embedding.

Embedded source units:
- the scene/component scheduler: SceneDB.cpp (ProcessSceneOnStart,
  ProcessSceneUpdate, ProcessSceneLateUpdate, RemoveActorComponents,
  addComponentToCaches, removeComponentFromCaches, rebuildComponentCaches,
  InstantiateActor, DestroyActor, ActorsPendingDestruction, loadScene,
  UpdateScene) together with the frame driver Engine.cpp
  (Engine::Update / Engine::Render / the game loop);
- the deferred render queue interface of ImageDB.hpp (the .cpp body is not in
  the sources, so the flush is modelled from the header documentation and the
  spec, see below);
- the pub/sub event bus EventSystem.cpp;
- the match-3 grid logic of resources.puzzle/component_types/PuzzleGrid.lua.

Modelling conventions, used throughout:
- std::unordered_map is modelled as an association list; its iteration order is
  unspecified in C++ and no proved property depends on the model order.
- std::set<std::string> (actor component keys) is modelled as a list; the code
  re-sorts keys explicitly wherever order matters, and the model mirrors those
  explicit sorts.
- A Lua component instance is a record of the bookkeeping fields the scheduler
  reads and writes (enabled, on_start, frame_added, new_addition) plus flags
  recording which callback slots the prototype defines.  Reading a field of a
  userdata (Rigidbody) component through LuaBridge yields nil; the Comp.lua*
  accessors reproduce that.
- A scripted callback body is a list of engine API commands (Cmd); the command
  list and whether the body raises are functions of the environment (the
  prototype is immutable in the source, so behavior is per component type, not
  per mutable state).  A raising callback executes a prefix of its commands and
  the error is caught at the dispatch boundary, mirroring the try/catch blocks
  around every scripted invocation in SceneDB.cpp.
- OnDestroy callbacks are modelled as observable invocations without engine
  API side effects (the claims under study concern their order and
  multiplicity, which the code fixes by an explicit key sort).
- The ghost fields trace and assignedIds record, respectively, the observable
  events (callback invocations, error log lines, phase markers) and every
  actor id the registry ever assigns; they exist only for specification.
-/

namespace FrOcean

/-- The four scripted lifecycle callback kinds dispatched by SceneDB. -/
inductive CbKind where
  | start
  | update
  | lateUpdate
  | destroy
deriving DecidableEq, Repr

/-- Engine API commands a scripted callback can perform (the Lua-facing
    surface used by the claims: Actor.Destroy, Actor.Instantiate, writing a
    component's enabled flag, Scene.DontDestroy, Scene.Load). -/
inductive Cmd where
  | destroyActor (aid : Nat)
  | instantiateActor (tmpl : String)
  | setEnabled (aid : Nat) (key : String) (b : Bool)
  | dontDestroy (aid : Nat)
  | sceneLoad (name : String)
  | nop
deriving DecidableEq, Repr

/-- A component instance: the scheduler-visible bookkeeping state of one entry
    of Actor::components.  isRigidbody marks a native userdata instance. -/
structure Comp where
  isRigidbody : Bool
  enabled : Bool
  on_start : Bool
  frame_added : Option Nat
  new_addition : Bool
  hasOnStart : Bool
  hasOnUpdate : Bool
  hasOnLateUpdate : Bool
  hasOnDestroy : Bool
deriving DecidableEq, Repr

/-- comp["enabled"]: nil on a userdata instance (Rigidbody registers no such
    property), the stored flag on a Lua table. -/
def Comp.luaEnabled (c : Comp) : Bool := !c.isRigidbody && c.enabled

/-- comp["on_start"]: nil on a userdata instance. -/
def Comp.luaOnStart (c : Comp) : Bool := !c.isRigidbody && c.on_start

/-- comp["frame_added"]: nil on a userdata instance. -/
def Comp.luaFrameAdded (c : Comp) : Option Nat :=
  if c.isRigidbody then none else c.frame_added

/-- comp["new_addition"]: nil on a userdata instance. -/
def Comp.luaNewAddition (c : Comp) : Bool := !c.isRigidbody && c.new_addition

/-- One Actor: name, destroyed/persist flags, component storage
    (Actor.hpp: components map, component_keys set, deferred removal list). -/
structure ActorSt where
  name : String
  destroyed : Bool
  dont_destroy : Bool
  components : List (String × Comp)
  component_keys : List String
  components_to_remove : List String
deriving DecidableEq, Repr

/-- SceneDB::ComponentKey: (actor id, component key). -/
structure CompKey where
  actorId : Nat
  key : String
deriving DecidableEq, Repr

/-- Observable events (ghost): callback invocations tagged with the frame
    number, error log lines (SceneDB::ReportError), and markers for the
    physics step (RigidbodyWorld::UpdateWorld, which runs the Box2D step and
    dispatches the collision callbacks synchronously inside it), the
    destroy-reconciliation point and the render flush. -/
inductive Ev where
  | callback (k : CbKind) (aid : Nat) (key : String) (frame : Nat)
  | errorLogged (actorName : String) (frame : Nat)
  | physicsStep (frame : Nat)
  | reconcile (frame : Nat)
  | renderFlush (frame : Nat)
deriving DecidableEq, Repr

/-- An entry of SceneDB::rigidbodies_to_init. -/
structure RbInitEntry where
  actorId : Nat
  componentKey : String
  isNew : Bool
  frameAdded : Nat
deriving DecidableEq, Repr

/-- The whole mutable engine state visible to the scheduler claims: the
    SceneDB statics plus the frame counter, and the two ghost fields. -/
structure EngineState where
  frameNumber : Nat
  actors : List (Nat × ActorSt)
  actor_id_vec : List Nat
  actors_to_add : List Nat
  actors_to_destroy : List Nat
  rigidbodies_to_init : List RbInitEntry
  on_start_cache : List CompKey
  on_update_cache : List CompKey
  on_late_update_cache : List CompKey
  onstart_new : Bool
  id_ctr : Nat
  next_scene_to_load : String
  current_scene_name : String
  assignedIds : List Nat
  trace : List Ev
deriving DecidableEq, Repr

/-- An actor description in a template or a scene document, after the JSON /
    template merging done by ComponentDB::loadComponents (config parsing is
    out of modelled scope; the environment provides the merged result). -/
structure ActorDef where
  name : String
  comps : List (String × Comp)
deriving DecidableEq, Repr

/-- A parsed .scene document. -/
structure SceneDef where
  actors : List ActorDef
deriving DecidableEq, Repr

/-- The static environment: scene and template databases (total: the fatal
    ResourceNotFound path for a missing asset is outside the modelled claims),
    plus the scripted behavior of each component prototype, resolved per
    (callback kind, actor id, component key).  raisesOf gives, when the body
    raises a Lua error, the number of API commands it completes first. -/
structure Env where
  initialScene : String
  scenes : String → SceneDef
  templates : String → ActorDef
  cmdsOf : CbKind → Nat → String → List Cmd
  raisesOf : CbKind → Nat → String → Option Nat

/-- Byte-lexicographic character-list comparison (std::string operator<=,
    executable). -/
def charListLe : List Char → List Char → Bool
  | [], _ => true
  | _ :: _, [] => false
  | c :: cs, d :: ds =>
    if c.toNat < d.toNat then true
    else if d.toNat < c.toNat then false
    else charListLe cs ds

/-- Lexicographic string comparison (the order std::sort uses on
    std::vector<std::string> keys). -/
def strLe (a b : String) : Bool := charListLe a.data b.data

/-- Association list update with std::map operator[] semantics: overwrite the
    existing binding, else append. -/
def assocSet {β : Type} (l : List (Nat × β)) (k : Nat) (v : β) : List (Nat × β) :=
  if l.any (fun p => p.1 == k) then
    l.map (fun p => if p.1 == k then (k, v) else p)
  else l ++ [(k, v)]

/-- Association list update for string keys. -/
def assocSetS {β : Type} (l : List (String × β)) (k : String) (v : β) : List (String × β) :=
  if l.any (fun p => p.1 == k) then
    l.map (fun p => if p.1 == k then (k, v) else p)
  else l ++ [(k, v)]

/-- Cache insert (map operator[]: membership-idempotent). -/
def cacheInsert (c : List CompKey) (k : CompKey) : List CompKey :=
  if c.contains k then c else c ++ [k]

/-- Cache erase. -/
def cacheErase (c : List CompKey) (k : CompKey) : List CompKey :=
  c.filter (fun x => !(x == k))

/-- actors.find(aid). -/
def lookupActor (s : EngineState) (aid : Nat) : Option ActorSt :=
  s.actors.lookup aid

/-- The component stored at (actor id, key), if any. -/
def compAt (s : EngineState) (ck : CompKey) : Option Comp :=
  (lookupActor s ck.actorId).bind (fun a => a.components.lookup ck.key)

/-- Overwrite one actor entry. -/
def setActor (s : EngineState) (aid : Nat) (a : ActorSt) : EngineState :=
  { s with actors := assocSet s.actors aid a }

/-- Write through a component reference: updates the component record stored
    at (actor id, key) — the model of mutating a shared LuaRef. -/
def setComp (s : EngineState) (ck : CompKey) (c : Comp) : EngineState :=
  match lookupActor s ck.actorId with
  | none => s
  | some a => setActor s ck.actorId { a with components := assocSetS a.components ck.key c }

/-- Append one ghost event. -/
def emitEv (s : EngineState) (e : Ev) : EngineState :=
  { s with trace := s.trace ++ [e] }

/-- SceneDB::addComponentToCaches, verbatim from the source: userdata
    Rigidbody instances always enter the update and late-update caches;
    disabled Lua components enter no cache; otherwise each cache gains the key
    when the matching callback slot exists (start additionally requires the
    instance not to have started yet). -/
def addComponentToCaches (s : EngineState) (aid : Nat) (key : String) (c : Comp) : EngineState :=
  let ck : CompKey := ⟨aid, key⟩
  if c.isRigidbody then
    { s with on_update_cache := cacheInsert s.on_update_cache ck,
             on_late_update_cache := cacheInsert s.on_late_update_cache ck }
  else if !c.enabled then s
  else
    let s1 := if c.hasOnStart && !c.on_start then
      { s with on_start_cache := cacheInsert s.on_start_cache ck } else s
    let s2 := if c.hasOnUpdate then
      { s1 with on_update_cache := cacheInsert s1.on_update_cache ck } else s1
    if c.hasOnLateUpdate then
      { s2 with on_late_update_cache := cacheInsert s2.on_late_update_cache ck } else s2

/-- SceneDB::removeComponentFromCaches. -/
def removeComponentFromCaches (s : EngineState) (aid : Nat) (key : String) : EngineState :=
  let ck : CompKey := ⟨aid, key⟩
  { s with on_start_cache := cacheErase s.on_start_cache ck,
           on_update_cache := cacheErase s.on_update_cache ck,
           on_late_update_cache := cacheErase s.on_late_update_cache ck }

/-- One key of the DestroyActor loop: look the component up, fire OnDestroy
    (scripted slot, try/catch with ReportError; the native Rigidbody
    OnDestroy has no scripted observable), force enabled to false and drop the
    key from all dispatch caches. -/
def destroyKeyStep (env : Env) (aid : Nat) (aname : String) (s : EngineState) (key : String) :
    EngineState :=
  match compAt s ⟨aid, key⟩ with
  | none => s
  | some c =>
    let s1 :=
      if !c.isRigidbody && c.hasOnDestroy then
        let s0 := emitEv s (.callback .destroy aid key s.frameNumber)
        match env.raisesOf .destroy aid key with
        | some _ => emitEv s0 (.errorLogged aname s0.frameNumber)
        | none => s0
      else s
    let s2 := setComp s1 ⟨aid, key⟩ { c with enabled := false }
    removeComponentFromCaches s2 aid key

/-- SceneDB::DestroyActor: mark destroyed, queue the id for reconciliation,
    then fire OnDestroy over a sorted copy of the component keys. -/
def DestroyActor (env : Env) (s : EngineState) (aid : Nat) : EngineState :=
  match lookupActor s aid with
  | none => s
  | some actor =>
    let s1 := setActor s aid { actor with destroyed := true }
    let s2 := { s1 with actors_to_destroy := s1.actors_to_destroy ++ [aid] }
    let keys := List.insertionSort (fun x y => strLe x y = true) actor.component_keys
    keys.foldl (destroyKeyStep env aid actor.name) s2

/-- Mark a scripted component as added this frame
    (InstantiateActor: frame_added / new_addition bookkeeping). -/
def instComp (frame : Nat) (c : Comp) : Comp :=
  if c.isRigidbody then c
  else { c with frame_added := some frame, new_addition := true }

/-- SceneDB::InstantiateActor: assign the next id from the monotone counter,
    build the actor from its template, stamp creation-frame bookkeeping on
    scripted components, queue Rigidbody init entries, register the dispatch
    caches, defer the id-vector insertion, and request a start pass. -/
def InstantiateActor (env : Env) (s : EngineState) (tmpl : String) : EngineState :=
  let newId := s.id_ctr
  let td := env.templates tmpl
  let comps := td.comps.map (fun p => (p.1, instComp s.frameNumber p.2))
  let rbs := (td.comps.filter (fun p => p.2.isRigidbody)).map
    (fun p => RbInitEntry.mk newId p.1 true s.frameNumber)
  let actor : ActorSt :=
    ⟨td.name, false, false, comps, td.comps.map (fun p => p.1), []⟩
  let s1 := { s with
    id_ctr := newId + 1,
    actors := assocSet s.actors newId actor,
    rigidbodies_to_init := s.rigidbodies_to_init ++ rbs,
    actors_to_add := s.actors_to_add ++ [newId],
    onstart_new := true,
    assignedIds := s.assignedIds ++ [newId] }
  comps.foldl (fun t p => addComponentToCaches t newId p.1 p.2) s1

/-- One engine API command. -/
def execCmd (env : Env) (s : EngineState) (c : Cmd) : EngineState :=
  match c with
  | .destroyActor aid => DestroyActor env s aid
  | .instantiateActor t => InstantiateActor env s t
  | .setEnabled aid key b =>
    match compAt s ⟨aid, key⟩ with
    | some c2 => if c2.isRigidbody then s else setComp s ⟨aid, key⟩ { c2 with enabled := b }
    | none => s
  | .dontDestroy aid =>
    match lookupActor s aid with
    | some a => setActor s aid { a with dont_destroy := true }
    | none => s
  | .sceneLoad name => { s with next_scene_to_load := name }
  | .nop => s

/-- Invoke a scripted callback: record the invocation, run the body's API
    commands (all of them, or the completed prefix when the body raises, in
    which case the dispatch boundary catches the LuaException and
    ReportError logs the owning actor's name). -/
def invoke (env : Env) (k : CbKind) (s : EngineState) (aid : Nat) (key : String)
    (aname : String) : EngineState :=
  let s0 := emitEv s (.callback k aid key s.frameNumber)
  let cmds := env.cmdsOf k aid key
  match env.raisesOf k aid key with
  | none => cmds.foldl (execCmd env) s0
  | some n =>
    emitEv ((cmds.take n).foldl (execCmd env) s0) (.errorLogged aname s.frameNumber)

/-- One entry of the ProcessSceneOnStart loop: skip when the actor is missing
    or destroyed, when the instance is disabled or already started, or when it
    was created this exact frame (creation-frame suppression); otherwise
    invoke OnStart and mark on_start (also after a caught error). -/
def startEntryStep (env : Env) (s : EngineState) (ck : CompKey) : EngineState :=
  match lookupActor s ck.actorId with
  | none => s
  | some actor =>
    if actor.destroyed then s
    else
      match actor.components.lookup ck.key with
      | none => s
      | some c =>
        if !c.luaEnabled || c.luaOnStart then s
        else if (c.luaFrameAdded == some s.frameNumber) && c.luaNewAddition then s
        else
          let s1 := invoke env .start s ck.actorId ck.key actor.name
          match compAt s1 ck with
          | none => s1
          | some c2 => setComp s1 ck { c2 with on_start := true }

/-- SceneDB::ProcessSceneOnStart: move the start cache out (clearing it) and
    process the snapshot; entries registered re-entrantly go to the fresh
    cache for a later pass. -/
def ProcessSceneOnStart (env : Env) (s : EngineState) : EngineState :=
  if s.on_start_cache.isEmpty then s
  else
    let snapshot := s.on_start_cache
    let s1 := { s with on_start_cache := [] }
    snapshot.foldl (startEntryStep env) s1

/-- One entry of the ProcessSceneUpdate loop: re-check live cache membership,
    then actor existence / destroyed flag, skip userdata instances, re-check
    enabled and creation-frame suppression, and invoke OnUpdate. -/
def updateEntryStep (env : Env) (s : EngineState) (ck : CompKey) : EngineState :=
  if !(s.on_update_cache.contains ck) then s
  else
    match lookupActor s ck.actorId with
    | none => s
    | some actor =>
      if actor.destroyed then s
      else
        match actor.components.lookup ck.key with
        | none => s
        | some c =>
          if c.isRigidbody then s
          else if !c.luaEnabled then s
          else if (c.luaFrameAdded == some s.frameNumber) && c.luaNewAddition then s
          else invoke env .update s ck.actorId ck.key actor.name

/-- SceneDB::ProcessSceneUpdate: iterate a snapshot of the cache keys taken
    before dispatch. -/
def ProcessSceneUpdate (env : Env) (s : EngineState) : EngineState :=
  if s.on_update_cache.isEmpty then s
  else s.on_update_cache.foldl (updateEntryStep env) s

/-- One entry of the ProcessSceneLateUpdate loop (no userdata special case in
    the source: a Rigidbody entry is skipped because comp["enabled"] reads
    nil, which Comp.luaEnabled reproduces). -/
def lateEntryStep (env : Env) (s : EngineState) (ck : CompKey) : EngineState :=
  if !(s.on_late_update_cache.contains ck) then s
  else
    match lookupActor s ck.actorId with
    | none => s
    | some actor =>
      if actor.destroyed then s
      else
        match actor.components.lookup ck.key with
        | none => s
        | some c =>
          if !c.luaEnabled then s
          else if (c.luaFrameAdded == some s.frameNumber) && c.luaNewAddition then s
          else invoke env .lateUpdate s ck.actorId ck.key actor.name

/-- SceneDB::ProcessSceneLateUpdate. -/
def ProcessSceneLateUpdate (env : Env) (s : EngineState) : EngineState :=
  if s.on_late_update_cache.isEmpty then s
  else s.on_late_update_cache.foldl (lateEntryStep env) s

/-- One key of the RemoveActorComponents inner loop: fire OnDestroy on the
    component being removed, then erase it from the owning actor (the source
    does not touch the dispatch caches here). -/
def removeCompKeyStep (env : Env) (aid : Nat) (aname : String) (s : EngineState)
    (key : String) : EngineState :=
  let s1 :=
    match compAt s ⟨aid, key⟩ with
    | none => s
    | some c =>
      if !c.isRigidbody && c.hasOnDestroy then
        let s0 := emitEv s (.callback .destroy aid key s.frameNumber)
        match env.raisesOf .destroy aid key with
        | some _ => emitEv s0 (.errorLogged aname s0.frameNumber)
        | none => s0
      else s
  match lookupActor s1 aid with
  | none => s1
  | some a =>
    setActor s1 aid { a with
      component_keys := a.component_keys.filter (fun k => !(k == key)),
      components := a.components.filter (fun p => !(p.1 == key)) }

/-- SceneDB::RemoveActorComponents: for every actor, process its deferred
    component-removal list in sorted order, then clear the list. -/
def RemoveActorComponents (env : Env) (s : EngineState) : EngineState :=
  (s.actors.map (fun p => p.1)).foldl (fun t aid =>
    match lookupActor t aid with
    | none => t
    | some a =>
      if a.components_to_remove.isEmpty then t
      else
        let keys := List.insertionSort (fun x y => strLe x y = true) a.components_to_remove
        let t1 := keys.foldl (removeCompKeyStep env aid a.name) t
        match lookupActor t1 aid with
        | none => t1
        | some a1 => setActor t1 aid { a1 with components_to_remove := [] }) s

/-- SceneDB::ActorsPendingDestruction: erase every queued id from the actors
    map and from the id vector in one pass, then clear the queue. -/
def ActorsPendingDestruction (s : EngineState) : EngineState :=
  if s.actors_to_destroy.isEmpty then s
  else
    { s with
      actors := s.actors.filter (fun p => !(s.actors_to_destroy.contains p.1)),
      actor_id_vec := s.actor_id_vec.filter (fun i => !(s.actors_to_destroy.contains i)),
      actors_to_destroy := [] }

/-- The rigidbodies_to_init loop of SceneDB::UpdateScene: an entry added this
    frame is kept (marked not-new); every other entry is erased after the
    native Rigidbody::Init call (no scripted observable), or dropped when its
    actor or component vanished. -/
def UpdateRigidbodyInits (s : EngineState) : EngineState :=
  { s with rigidbodies_to_init := s.rigidbodies_to_init.filterMap (fun e =>
      if e.isNew && (e.frameAdded == s.frameNumber) then some { e with isNew := false }
      else none) }

/-- SceneDB::rebuildComponentCaches: clear all three caches and re-register
    every component of every non-destroyed actor. -/
def rebuildComponentCaches (s : EngineState) : EngineState :=
  let s0 := { s with on_start_cache := [], on_update_cache := [],
                     on_late_update_cache := [] }
  s.actors.foldl (fun t p =>
    if p.2.destroyed then t
    else p.2.component_keys.foldl (fun u k =>
      match p.2.components.lookup k with
      | none => u
      | some c => addComponentToCaches u p.1 k c) t) s0

/-- The OnDestroy sweep loadScene performs over one non-persistent actor:
    keys sorted, scripted OnDestroy fired under try/catch (the native
    Rigidbody branch has no scripted observable). -/
def sceneDestroyActorStep (env : Env) (s : EngineState) (aid : Nat) : EngineState :=
  match lookupActor s aid with
  | none => s
  | some a =>
    let keys := List.insertionSort (fun x y => strLe x y = true) a.component_keys
    keys.foldl (fun t k =>
      match compAt t ⟨aid, k⟩ with
      | none => t
      | some c =>
        if !c.isRigidbody && c.hasOnDestroy then
          let t0 := emitEv t (.callback .destroy aid k t.frameNumber)
          match env.raisesOf .destroy aid k with
          | some _ => emitEv t0 (.errorLogged a.name t0.frameNumber)
          | none => t0
        else t) s

/-- SceneDB::loadScene: resolve the pending scene name (falling back to the
    configured initial scene), fire the OnDestroy sweep for every
    non-persistent actor, keep persistent actors (ids preserved), create the
    scene's actors with fresh monotone ids, rebuild the dispatch caches and
    request a start pass. -/
def loadScene (env : Env) (s : EngineState) : EngineState :=
  let scene_to_load := if s.next_scene_to_load ≠ "" then s.next_scene_to_load
                       else env.initialScene
  let s0 := { s with next_scene_to_load := "", current_scene_name := scene_to_load }
  let nonPersistent := (s0.actors.filter
    (fun p => !(p.2.dont_destroy && !p.2.destroyed))).map (fun p => p.1)
  let s1 := nonPersistent.foldl (sceneDestroyActorStep env) s0
  let persisted := s1.actors.filter (fun p => p.2.dont_destroy && !p.2.destroyed)
  let s2 := { s1 with actors := persisted, actor_id_vec := persisted.map (fun p => p.1) }
  let sd := env.scenes scene_to_load
  let s3 := sd.actors.foldl (fun t ad =>
    let i := t.id_ctr
    let actor : ActorSt := ⟨ad.name, false, false, ad.comps, ad.comps.map (fun p => p.1), []⟩
    { t with actors := assocSet t.actors i actor,
             actor_id_vec := t.actor_id_vec ++ [i],
             id_ctr := i + 1,
             assignedIds := t.assignedIds ++ [i] }) s2
  { rebuildComponentCaches s3 with onstart_new := true }

/-- SceneDB::UpdateScene: the per-frame scheduler sequence exactly as the
    source orders it — start pass (when requested), Rigidbody init loop,
    update pass, late-update pass, deferred component removal,
    destroy-reconciliation, pending id-vector insertion, and finally
    RigidbodyWorld::UpdateWorld (the Box2D step, which dispatches the
    collision callbacks synchronously inside it). -/
def UpdateScene (env : Env) (s : EngineState) : EngineState :=
  let s1 := if s.onstart_new then ProcessSceneOnStart env { s with onstart_new := false }
            else s
  let s2 := UpdateRigidbodyInits s1
  let s3 := ProcessSceneUpdate env s2
  let s4 := ProcessSceneLateUpdate env s3
  let s5 := RemoveActorComponents env s4
  let s6 := ActorsPendingDestruction (emitEv s5 (.reconcile s5.frameNumber))
  let s7 := { s6 with actor_id_vec := s6.actor_id_vec ++ s6.actors_to_add,
                      actors_to_add := [] }
  emitEv s7 (.physicsStep s7.frameNumber)

/-- Engine::Update: load a pending scene change first (the event/timer/tween
    clears concern systems outside this model), then run the Scheduler and
    Tween callbacks due this frame (modelled as the frame's pre-commands), and
    then SceneDB::UpdateScene. -/
def EngineUpdate (env : Env) (pre : List Cmd) (s : EngineState) : EngineState :=
  let s1 := if s.next_scene_to_load ≠ "" then loadScene env s else s
  let s2 := pre.foldl (execCmd env) s1
  UpdateScene env s2

/-- Engine::Render: the deferred render flush
    (ImageDB::RenderAndClearAllImages and the text/pixel queues). -/
def EngineRender (s : EngineState) : EngineState :=
  emitEv s (.renderFlush s.frameNumber)

/-- One iteration of Engine::GameLoop: Update, Render, and the frame-counter
    advance performed by the platform helper inside present. -/
def engineFrame (env : Env) (pre : List Cmd) (s : EngineState) : EngineState :=
  let s1 := EngineUpdate env pre s
  let s2 := EngineRender s1
  { s2 with frameNumber := s2.frameNumber + 1 }

/-- The state before the Engine constructor runs. -/
def initState : EngineState :=
  ⟨0, [], [], [], [], [], [], [], [], false, 0, "", "", [], []⟩

/-- The Engine constructor: initial loadScene. -/
def engineInit (env : Env) : EngineState := loadScene env initState

/-- A whole run: the constructor followed by one engineFrame per element of
    frames, each with its pre-UpdateScene commands. -/
def engineRun (env : Env) (frames : List (List Cmd)) : EngineState :=
  frames.foldl (fun s pre => engineFrame env pre s) (engineInit env)

/-!  ### Deferred render queue (ImageDB)

The ImageDrawRequest fields relevant to ordering, from ImageDB.hpp (the float
transform/color fields play no role in the sort and are omitted — floating
point is outside the embedding). -/

/-- One deferred image draw request (ordering-relevant fields). -/
structure ImageDrawRequest where
  image_name : String
  sorting_order : Int
  is_ui : Bool
  order_index : Nat
deriving DecidableEq, Repr

/-- The ImageDB statics the queue claims need. -/
structure ImageDBState where
  image_draw_request_queue : List ImageDrawRequest
  request_counter : Nat
deriving DecidableEq, Repr

/-- Enqueue one draw request, stamping the monotonic submission counter
    (ImageDB.hpp: request_counter injected as order_index). -/
def queueImageRequest (db : ImageDBState) (name : String) (z : Int) (ui : Bool) :
    ImageDBState :=
  { db with
    image_draw_request_queue :=
      db.image_draw_request_queue ++ [⟨name, z, ui, db.request_counter⟩],
    request_counter := db.request_counter + 1 }

/-- The flush comparison: (sorting_order ascending, order_index ascending). -/
def reqLe (a b : ImageDrawRequest) : Prop :=
  a.sorting_order < b.sorting_order ∨
    (a.sorting_order = b.sorting_order ∧ a.order_index ≤ b.order_index)

instance : DecidableRel reqLe := fun a b => by unfold reqLe; infer_instance

/-- Modelled from the spec: the body of ImageDB::RenderAndClearAllImages is
    not among the sources (only the ImageDB.hpp declaration and its pipeline
    documentation are).  Per the spec and the header doc, the flush
    stable-sorts the accumulated queue by (sorting_order ascending,
    order_index ascending), draws in that order, then clears the queue and
    resets the submission counter.  The returned list is the draw order. -/
def RenderAndClearAllImages (db : ImageDBState) :
    List ImageDrawRequest × ImageDBState :=
  (List.insertionSort reqLe db.image_draw_request_queue,
   { image_draw_request_queue := [], request_counter := 0 })

/-!  ### Pub/sub event bus (EventSystem.cpp) -/

/-- One subscription record (EventSystem::EventSubscription; the callback
    itself is resolved through the environment by id). -/
structure EvSub where
  id : Nat
  once : Bool
deriving DecidableEq, Repr

/-- Observable event-bus happenings: a callback invocation (by subscription
    id), or an error log line from a caught callback exception. -/
inductive EEv where
  | invoked (id : Nat)
  | evError
deriving DecidableEq, Repr

/-- EventSystem state: the two maps and the id counter, a ghost invocation
    trace, plus the flag store used by guarded callback bodies. -/
structure EvState where
  subscriptions : List (String × List EvSub)
  subscription_to_event : List (Nat × String)
  next_subscription_id : Nat
  flags : List Nat
  etrace : List EEv
deriving DecidableEq, Repr

/-- Commands an event callback body can perform: emit an event, or emit one
    guarded by a once-only flag (the script idiom
    if not done then done = true; Event.Emit(...) end). -/
inductive ECmd where
  | emitEvent (name : String)
  | guardedEmit (flag : Nat) (name : String)
  | enop
deriving DecidableEq, Repr

/-- Callback behavior per subscription id; raisesOf gives, when the body
    raises, how many commands complete first. -/
structure EEnv where
  cbCmds : Nat → List ECmd
  cbRaises : Nat → Option Nat

/-- EventSystem::Unsubscribe. -/
def Unsubscribe (s : EvState) (sid : Nat) : EvState :=
  match s.subscription_to_event.lookup sid with
  | none => s
  | some name =>
    let s1 :=
      match s.subscriptions.lookup name with
      | none => s
      | some subs =>
        { s with subscriptions :=
            assocSetS s.subscriptions name (subs.filter (fun sub => !(sub.id == sid))) }
    { s1 with subscription_to_event :=
        s1.subscription_to_event.filter (fun p => !(p.1 == sid)) }

/-- EventSystem::Subscribe. -/
def Subscribe (s : EvState) (name : String) : EvState :=
  let i := s.next_subscription_id
  { s with
    next_subscription_id := i + 1,
    subscriptions := assocSetS s.subscriptions name
      (((s.subscriptions.lookup name).getD []) ++ [⟨i, false⟩]),
    subscription_to_event := s.subscription_to_event ++ [(i, name)] }

/-- EventSystem::SubscribeOnce. -/
def SubscribeOnce (s : EvState) (name : String) : EvState :=
  let i := s.next_subscription_id
  { s with
    next_subscription_id := i + 1,
    subscriptions := assocSetS s.subscriptions name
      (((s.subscriptions.lookup name).getD []) ++ [⟨i, true⟩]),
    subscription_to_event := s.subscription_to_event ++ [(i, name)] }

/-- One callback body command, parametric in the emit continuation used for
    nested Event.Emit calls. -/
def execECmdWith (emitF : String → EvState → EvState) : ECmd → EvState → EvState
  | .emitEvent n, s => emitF n s
  | .guardedEmit f n, s =>
    if s.flags.contains f then s
    else emitF n { s with flags := s.flags ++ [f] }
  | .enop, s => s

/-- Run a callback body, parametric in the emit continuation. -/
def execECmdListWith (emitF : String → EvState → EvState) (cmds : List ECmd)
    (s : EvState) : EvState :=
  cmds.foldl (fun t c => execECmdWith emitF c t) s

/-- One entry of the dispatch loop inside Emit: record the invocation, run
    the body (a raising body completes a prefix and the catch block logs the
    error). -/
def emitStep (env : EEnv) (emitF : String → EvState → EvState)
    (t : EvState) (sub : EvSub) : EvState :=
  let t0 : EvState := { t with etrace := t.etrace ++ [EEv.invoked sub.id] }
  match env.cbRaises sub.id with
  | none => execECmdListWith emitF (env.cbCmds sub.id) t0
  | some n =>
    let t1 := execECmdListWith emitF ((env.cbCmds sub.id).take n) t0
    { t1 with etrace := t1.etrace ++ [EEv.evError] }

/-- The dispatch loop inside Emit, over the copied subscription vector. -/
def emitLoopWith (env : EEnv) (emitF : String → EvState → EvState)
    (subs : List EvSub) (s : EvState) : EvState :=
  subs.foldl (emitStep env emitF) s

/-- EventSystem::Emit: iterate a copy of the subscription vector, invoking
    each callback under try/catch, then unsubscribe every once-subscription of
    the copy (collected whether or not the callback raised).  Nested emits
    performed by callback bodies recurse with one unit less fuel (the C++
    recursion is unbounded; every claim below is settled on runs within
    fuel). -/
def Emit (env : EEnv) : Nat → String → EvState → EvState
  | 0, _, s => s
  | fuel + 1, name, s =>
    match s.subscriptions.lookup name with
    | none => s
    | some subs =>
      let s1 := emitLoopWith env (Emit env fuel) subs s
      ((subs.filter (fun sub => sub.once)).map (fun sub => sub.id)).foldl Unsubscribe s1

/-!  ### Match-3 puzzle grid (PuzzleGrid.lua)

The grid is the Lua table-of-tables self.grid, 1-indexed, stored x-major.
math.random(1, num_piece_types) is modelled by an explicit stream of values
consumed in call order; gget returns a -1 sentinel out of range, mirroring the
`.. or -1` reads in FindAllMatches. -/

/-- grid[x][y] with the Lua nil-to-sentinel convention. -/
def gget (g : List (List Int)) (x y : Nat) : Int :=
  match g.get? (x - 1) with
  | none => -1
  | some col =>
    match col.get? (y - 1) with
    | none => -1
    | some v => v

/-- grid[x][y] = v (no effect out of range, like Lua table writes to a
    missing column in the claims at hand, which never occur in bounds). -/
def gset (g : List (List Int)) (x y : Nat) (v : Int) : List (List Int) :=
  match g.get? (x - 1) with
  | none => g
  | some col => g.set (x - 1) (col.set (y - 1) v)

/-- The run-boundary scan shared by the two FindAllMatches loops.  cur gives
    the cell at scan position i (already including the `or -1` fallback); W is
    the scan extent; the x list is the Lua loop range 2..W+1.  Returns the
    marked positions. -/
def runScan (cur : Nat → Int) (W : Nat) : List Nat → Nat → Int → List Nat
  | [], _, _ => []
  | x :: xs, run_start, run_type =>
    let current := cur x
    if current ≠ run_type ∨ x > W then
      let marks := if x - run_start ≥ 3 ∧ run_type > 0 then
        List.range' run_start (x - run_start) else []
      marks ++ runScan cur W xs x current
    else runScan cur W xs run_start run_type

/-- The horizontal marks of row y (PuzzleGrid:FindAllMatches, first loop). -/
def horizMarks (g : List (List Int)) (W y : Nat) : List Nat :=
  runScan (fun x => gget g x y) W (List.range' 2 W) 1 (gget g 1 y)

/-- The vertical marks of column x (second loop). -/
def vertMarks (g : List (List Int)) (H x : Nat) : List Nat :=
  runScan (fun y => gget g x y) H (List.range' 2 H) 1 (gget g x 1)

/-- matched[x][y] of FindAllMatches. -/
def matchedCell (g : List (List Int)) (W H x y : Nat) : Bool :=
  (horizMarks g W y).contains x || (vertMarks g H x).contains y

/-- PuzzleGrid:FindAllMatches: collect matched positions, x-major. -/
def FindAllMatches (g : List (List Int)) (W H : Nat) : List (Nat × Nat) :=
  (List.range' 1 W).flatMap (fun x =>
    (List.range' 1 H).filterMap (fun y =>
      if matchedCell g W H x y then some (x, y) else none))

/-- The read/compact loop of ApplyGravity for column x: read_y descends from
    H to 1, write_y tracks the next free bottom slot; returns the grid and the
    final write_y. -/
def gravityReadLoop (x : Nat) : Nat → Nat → List (List Int) → List (List Int) × Nat
  | 0, w, g => (g, w)
  | ry + 1, w, g =>
    let cell := gget g x (ry + 1)
    if cell ≠ 0 then
      let g2 := if w ≠ ry + 1 then gset (gset g x w cell) x (ry + 1) 0 else g
      gravityReadLoop x ry (w - 1) g2
    else gravityReadLoop x ry w g

/-- The fill loop of ApplyGravity for column x: y descends from write_y to 1,
    drawing one stream value per cell (math.random). -/
def gravityFillLoop (x : Nat) : Nat → List (List Int) → List Int →
    List (List Int) × List Int
  | 0, g, st => (g, st)
  | y + 1, g, st => gravityFillLoop x y (gset g x (y + 1) (st.headD 1)) st.tail

/-- PuzzleGrid:ApplyGravity over all columns, threading the random stream. -/
def ApplyGravity (W H : Nat) (g : List (List Int)) (st : List Int) :
    List (List Int) × List Int :=
  (List.range' 1 W).foldl (fun acc x =>
    let rw := gravityReadLoop x H H acc.1
    gravityFillLoop x rw.2 rw.1 acc.2) (g, st)

/-- The PuzzleGrid component state touched by the swap scenario (rendering
    and input/selection bookkeeping fields carry no scoring semantics but the
    selection reset of TrySwap is kept). -/
structure PuzzleState where
  grid_width : Nat
  grid_height : Nat
  target_score : Int
  grid : List (List Int)
  score : Int
  moves_left : Int
  game_over : Bool
  game_won : Bool
  selected_x : Int
  selected_y : Int
  randStream : List Int
deriving DecidableEq, Repr

/-- PuzzleGrid:CheckGameState. -/
def CheckGameState (st : PuzzleState) : PuzzleState :=
  if st.score ≥ st.target_score then { st with game_won := true, game_over := true }
  else if st.moves_left ≤ 0 then { st with game_over := true }
  else st

/-- PuzzleGrid:ProcessMatches: award 10 points per matched cell, zero the
    matched cells, apply gravity, then either recurse on a chain reaction
    (5 bonus points per newly matched cell first) or check the game state.
    The Lua recursion is modelled with explicit fuel. -/
def ProcessMatches : Nat → PuzzleState → List (Nat × Nat) → PuzzleState
  | 0, st, _ => st
  | fuel + 1, st, ms =>
    let points : Int := (ms.length : Int) * 10
    let st1 := { st with score := st.score + points }
    let g1 := ms.foldl (fun g p => gset g p.1 p.2 0) st1.grid
    let gs := ApplyGravity st1.grid_width st1.grid_height g1 st1.randStream
    let st2 := { st1 with grid := gs.1, randStream := gs.2 }
    let new_matches := FindAllMatches st2.grid st2.grid_width st2.grid_height
    if new_matches.length > 0 then
      ProcessMatches fuel
        { st2 with score := st2.score + (new_matches.length : Int) * 5 } new_matches
    else CheckGameState st2

/-- PuzzleGrid:TrySwap: swap the two cells; on a resulting match spend one
    move and process the matches, otherwise swap back; clear the selection
    either way. -/
def TrySwap (fuel : Nat) (st : PuzzleState) (x1 y1 x2 y2 : Nat) : PuzzleState :=
  let temp := gget st.grid x1 y1
  let g := gset (gset st.grid x1 y1 (gget st.grid x2 y2)) x2 y2 temp
  let ms := FindAllMatches g st.grid_width st.grid_height
  let st1 :=
    if ms.length > 0 then
      ProcessMatches fuel { st with grid := g, moves_left := st.moves_left - 1 } ms
    else
      let g2 := gset (gset g x2 y2 (gget g x1 y1)) x1 y1 temp
      { st with grid := g2 }
  { st1 with selected_x := -1, selected_y := -1 }

/-!  ### Concrete scenario environments used by the evaluation theorems -/

/-- A scripted component exposing the given callback slots, enabled, not yet
    started, with no creation-frame bookkeeping (the state ComponentDB gives a
    scene-loaded component). -/
def mkComp (st u lu d : Bool) : Comp :=
  ⟨false, true, false, none, false, st, u, lu, d⟩

/-- One scene actor with one fully scripted component, no runtime behavior. -/
def singleActorEnv : Env where
  initialScene := "main"
  scenes := fun _ => ⟨[⟨"A", [("C_0", mkComp true true true false)]⟩]⟩
  templates := fun _ => ⟨"T", []⟩
  cmdsOf := fun _ _ _ => []
  raisesOf := fun _ _ _ => none

/-- An empty scene plus a template with one fully scripted component; the
    scenario instantiates it from a pre-UpdateScene (Scheduler/Tween) callback. -/
def instThenIdleEnv : Env where
  initialScene := "main"
  scenes := fun _ => ⟨[]⟩
  templates := fun _ => ⟨"T", [("TC_0", mkComp true true true false)]⟩
  cmdsOf := fun _ _ _ => []
  raisesOf := fun _ _ _ => none

/-- One actor with a start+update component in scene main, an empty scene s2;
    the scenario toggles enabled, persists the actor and changes scene. -/
def persistReloadEnv : Env where
  initialScene := "main"
  scenes := fun n =>
    if n = "s2" then ⟨[]⟩
    else ⟨[⟨"A", [("C_0", mkComp true true false false)]⟩]⟩
  templates := fun _ => ⟨"T", []⟩
  cmdsOf := fun _ _ _ => []
  raisesOf := fun _ _ _ => none

/-- Actor 0 carries three OnDestroy components (inserted out of lexicographic
    order); actor 1 destroys actor 0 twice from its OnUpdate. -/
def doubleDestroyEnv : Env where
  initialScene := "main"
  scenes := fun _ =>
    ⟨[⟨"A", [("B_0", mkComp false false false true),
             ("A_0", mkComp false false false true),
             ("C_1", mkComp false false false true)]⟩,
      ⟨"B", [("U_0", mkComp false true false false)]⟩]⟩
  templates := fun _ => ⟨"T", []⟩
  cmdsOf := fun k aid _ =>
    if k = CbKind.update && aid = 1 then [Cmd.destroyActor 0, Cmd.destroyActor 0]
    else []
  raisesOf := fun _ _ _ => none

/-- Actor 0 destroys itself from its own OnUpdate. -/
def selfDestroyEnv : Env where
  initialScene := "main"
  scenes := fun _ => ⟨[⟨"A", [("C_0", mkComp false true true false)]⟩]⟩
  templates := fun _ => ⟨"T", []⟩
  cmdsOf := fun k _ _ => if k = CbKind.update then [Cmd.destroyActor 0] else []
  raisesOf := fun _ _ _ => none

/-- Event-bus environment: every callback re-emits "E" once, guarded by
    flag 0 (the Lua idiom if not done then done = true; Event.Emit("E") end). -/
def onceEmitEEnv : EEnv where
  cbCmds := fun _ => [ECmd.guardedEmit 0 "E"]
  cbRaises := fun _ => none

/-- The EventSystem state right after EventSystem::Init. -/
def evInit : EvState := ⟨[], [], 1, [], []⟩

/-- A 3x3 puzzle state (columns x-major, y = 1 on top): swapping (1,2) with
    (1,3) completes the bottom row [1,1,1]. -/
def puzState (stream : List Int) : PuzzleState :=
  ⟨3, 3, 300, [[2, 1, 3], [3, 2, 1], [2, 3, 1]], 0, 25, false, false, -1, -1, stream⟩

/-!  ### C1 -/

/-- C1: phase order of one frame of the main loop, evaluated on a concrete
    run (one scene actor whose component has start, update and late-update
    callbacks).  The code dispatches the physics step — and with it the
    collision callbacks fired inside RigidbodyWorld::UpdateWorld — after the
    late-update pass and after destroy-reconciliation, not between the update
    and late-update passes as the claim (and the repository documentation)
    state: the frame trace is start, update, late-update, reconciliation,
    physics step, render flush. -/
theorem frame_trace_physics_after_late_update :
    (engineRun singleActorEnv [[]]).trace =
      [Ev.callback .start 0 "C_0" 0,
       Ev.callback .update 0 "C_0" 0,
       Ev.callback .lateUpdate 0 "C_0" 0,
       Ev.reconcile 0,
       Ev.physicsStep 0,
       Ev.renderFlush 0] ∧
    (engineRun singleActorEnv [[]]).trace.indexOf (Ev.callback .lateUpdate 0 "C_0" 0)
      < (engineRun singleActorEnv [[]]).trace.indexOf (Ev.physicsStep 0) ∧
    (engineRun singleActorEnv [[]]).trace.indexOf (Ev.reconcile 0)
      < (engineRun singleActorEnv [[]]).trace.indexOf (Ev.physicsStep 0) := by
  decide

/-!  ### C2 counterexample -/

/-- C2 falsified at a concrete input: a component instantiated during frame 0
    from a pre-UpdateScene (Scheduler/Tween) callback is suppressed at frame
    0's start pass; because ProcessSceneOnStart moves the cache out and drops
    skipped entries, the start callback is never re-attempted: across frames
    0..3 the component receives no OnStart at all (while receiving OnUpdate
    from frame 1 on), the start-pending cache is empty and on_start is still
    false — contradicting the claim that a suppressed start is re-attempted
    with first OnStart at frame >= N+1. -/
theorem suppressed_start_dropped_cex :
    (compAt (engineRun instThenIdleEnv [[Cmd.instantiateActor "T"], [], [], []])
        ⟨0, "TC_0"⟩ =
      some ⟨false, true, false, some 0, true, true, true, true, false⟩) ∧
    ((engineRun instThenIdleEnv [[Cmd.instantiateActor "T"], [], [], []]).trace.countP
        (fun e => match e with | Ev.callback .start _ _ _ => true | _ => false) = 0) ∧
    ((engineRun instThenIdleEnv [[Cmd.instantiateActor "T"], [], [], []]).trace.countP
        (fun e => e == Ev.callback .update 0 "TC_0" 0) = 0) ∧
    ((engineRun instThenIdleEnv [[Cmd.instantiateActor "T"], [], [], []]).trace.countP
        (fun e => e == Ev.callback .update 0 "TC_0" 1) = 1) ∧
    ((engineRun instThenIdleEnv [[Cmd.instantiateActor "T"], [], [], []]).on_start_cache
      = []) := by
  decide

/-!  ### C4 counterexample -/

/-- C4 falsified at a concrete input: actor 0's component is disabled during
    frame 0's pre-phase (so its start entry is skipped and dropped),
    re-enabled during frame 1 (it then receives OnUpdate at frame 1), made
    persistent, and the scene is changed; the frame-2 cache rebuild re-enqueues
    the never-started component, so OnStart fires at frame 2 — after an
    OnUpdate on the same instance. -/
theorem start_after_update_cex :
    (Ev.callback .update 0 "C_0" 1 ∈ (engineRun persistReloadEnv
        [[Cmd.setEnabled 0 "C_0" false],
         [Cmd.setEnabled 0 "C_0" true, Cmd.dontDestroy 0, Cmd.sceneLoad "s2"],
         []]).trace) ∧
    (Ev.callback .start 0 "C_0" 2 ∈ (engineRun persistReloadEnv
        [[Cmd.setEnabled 0 "C_0" false],
         [Cmd.setEnabled 0 "C_0" true, Cmd.dontDestroy 0, Cmd.sceneLoad "s2"],
         []]).trace) ∧
    ((engineRun persistReloadEnv
        [[Cmd.setEnabled 0 "C_0" false],
         [Cmd.setEnabled 0 "C_0" true, Cmd.dontDestroy 0, Cmd.sceneLoad "s2"],
         []]).trace.indexOf (Ev.callback .update 0 "C_0" 1)
      < (engineRun persistReloadEnv
        [[Cmd.setEnabled 0 "C_0" false],
         [Cmd.setEnabled 0 "C_0" true, Cmd.dontDestroy 0, Cmd.sceneLoad "s2"],
         []]).trace.indexOf (Ev.callback .start 0 "C_0" 2)) := by
  decide

/-!  ### C5 counterexample -/

/-- C5 falsified at a concrete input: when a neighbor's OnUpdate calls
    destroy twice on actor 0 in the same frame, each of actor 0's OnDestroy
    callbacks fires twice (DestroyActor is not idempotent: the components stay
    in the actor's map after the first call), not exactly once per live key. -/
theorem double_destroy_refires_cex :
    ((engineRun doubleDestroyEnv [[]]).trace.countP
      (fun e => e == Ev.callback .destroy 0 "A_0" 0) = 2) ∧
    ((engineRun doubleDestroyEnv [[]]).trace.countP
      (fun e => e == Ev.callback .destroy 0 "B_0" 0) = 2) := by
  decide

/-!  ### C9 counterexample -/

/-- C9 falsified at a concrete input: a valid swap (completing the bottom row
    of a 3x3 grid, 3 matched cells) whose gravity refill [1,1,1,...] produces
    a chain reaction awards 10*3 + 5*3 + 10*3 = 75 points — neither 10*3 (the
    matched cells of the swap) nor 10*6 (all matched cells of the cascade) —
    so the score increment is not matched-cell-count times the fixed 10 points
    per cell.  The moves counter does decrement by exactly 1. -/
theorem chain_reaction_score_cex :
    ((TrySwap 5 (puzState [1, 1, 1, 1, 2, 1]) 1 2 1 3).score = 75) ∧
    ((FindAllMatches
        (gset (gset (puzState []).grid 1 2 (gget (puzState []).grid 1 3)) 1 3
          (gget (puzState []).grid 1 2)) 3 3).length = 3) ∧
    (75 ≠ (10 : Int) * 3) ∧ (75 ≠ (10 : Int) * 6) ∧
    ((TrySwap 5 (puzState [1, 1, 1, 1, 2, 1]) 1 2 1 3).moves_left = 24) := by
  decide

/-!  ### C10 counterexample -/

/-- C10 falsified at a concrete input: a callback registered with
    SubscribeOnce("E") that itself emits "E" (guarded so it only re-emits
    once) is invoked by two different Emit("E") dispatches — the nested Emit
    still sees the subscription because the outer dispatch removes
    once-subscriptions only after its loop finishes. -/
theorem reentrant_emit_once_cex :
    ((Emit onceEmitEEnv 3 "E" (SubscribeOnce evInit "E")).etrace =
      [EEv.invoked 1, EEv.invoked 1]) ∧
    ((Emit onceEmitEEnv 3 "E" (SubscribeOnce evInit "E")).etrace.countP
      (fun e => e == EEv.invoked 1) = 2) := by
  decide

/-!  ### C3: the render flush order -/

instance : IsTotal ImageDrawRequest reqLe := by
  constructor
  intro a b
  unfold reqLe
  rcases lt_trichotomy a.sorting_order b.sorting_order with h | h | h
  · exact Or.inl (Or.inl h)
  · rcases Nat.le_total a.order_index b.order_index with h2 | h2
    · exact Or.inl (Or.inr ⟨h, h2⟩)
    · exact Or.inr (Or.inr ⟨h.symm, h2⟩)
  · exact Or.inr (Or.inl h)

instance : IsTrans ImageDrawRequest reqLe := by
  constructor
  intro a b c hab hbc
  unfold reqLe at hab hbc ⊢
  rcases hab with h | ⟨he, hi⟩ <;> rcases hbc with h2 | ⟨he2, hi2⟩
  · exact Or.inl (h.trans h2)
  · exact Or.inl (he2 ▸ h)
  · exact Or.inl (he ▸ h2)
  · exact Or.inr ⟨he.trans he2, hi.trans hi2⟩

/-- The queue built by the three submissions of the spec example:
    z = 1, then z = 1, then z = 0. -/
def exampleImageDB : ImageDBState :=
  queueImageRequest (queueImageRequest (queueImageRequest
    ⟨[], 0⟩ "a" 1 false) "b" 1 false) "c" 0 false

/-- C3: the render flush draws the accumulated requests in the order of a
    stable sort on (sorting_order ascending, submission order ascending):
    (1) the flush output is a permutation of the queue, sorted by the
    lexicographic (sorting_order, order_index) comparison;
    (2) when the queued order_index values are pairwise distinct (as the
    monotonic submission counter guarantees), any two flushed requests of
    equal sorting_order appear in strictly increasing submission order;
    (3) the spec example [(z=1,submit 0), (z=1,submit 1), (z=0,submit 2)]
    flushes as [(z=0,submit 2), (z=1,submit 0), (z=1,submit 1)];
    (4) enqueue appends the request stamped with the current counter and
    advances the counter. -/
theorem render_flush_stable_sorted :
    (∀ db : ImageDBState,
      ((RenderAndClearAllImages db).1).Perm db.image_draw_request_queue ∧
      List.Sorted reqLe (RenderAndClearAllImages db).1) ∧
    (∀ db : ImageDBState,
      (db.image_draw_request_queue.map ImageDrawRequest.order_index).Nodup →
      (RenderAndClearAllImages db).1.Pairwise (fun a b =>
        a.sorting_order = b.sorting_order → a.order_index < b.order_index)) ∧
    ((RenderAndClearAllImages exampleImageDB).1 =
      [⟨"c", 0, false, 2⟩, ⟨"a", 1, false, 0⟩, ⟨"b", 1, false, 1⟩]) ∧
    (∀ (db : ImageDBState) (name : String) (z : Int) (ui : Bool),
      (queueImageRequest db name z ui).image_draw_request_queue =
        db.image_draw_request_queue ++ [⟨name, z, ui, db.request_counter⟩] ∧
      (queueImageRequest db name z ui).request_counter = db.request_counter + 1) := by
  refine ⟨?_, ?_, by decide, ?_⟩
  · intro db
    exact ⟨List.perm_insertionSort reqLe _, List.sorted_insertionSort reqLe _⟩
  · intro db hinj
    have hperm := List.perm_insertionSort reqLe db.image_draw_request_queue
    have hsorted := List.sorted_insertionSort reqLe db.image_draw_request_queue
    have hnd : ((RenderAndClearAllImages db).1.map ImageDrawRequest.order_index).Nodup :=
      ((hperm.map ImageDrawRequest.order_index).nodup_iff).mpr hinj
    have hpw : (RenderAndClearAllImages db).1.Pairwise
        (fun a b => a.order_index ≠ b.order_index) := List.pairwise_map.mp hnd
    have hcomb := List.Pairwise.and (l := (RenderAndClearAllImages db).1) hsorted hpw
    refine hcomb.imp ?_
    intro a b hab heq
    rcases hab with ⟨hle | ⟨_, hle⟩, hne⟩
    · exact absurd heq (ne_of_lt hle)
    · exact lt_of_le_of_ne hle hne
  · intro db name z ui
    exact ⟨rfl, rfl⟩

/-- Witness for the stability conjunct at the spec example queue, whose
    order_index values 0, 1, 2 are pairwise distinct. -/
theorem render_flush_stable_sorted_witness :
    (RenderAndClearAllImages exampleImageDB).1.Pairwise (fun a b =>
      a.sorting_order = b.sorting_order → a.order_index < b.order_index) :=
  render_flush_stable_sorted.2.1 exampleImageDB (by decide)

/-!  ### C8: actor id assignment

The id-assignment effect of each engine operation: the counter advances by
some k and exactly the crossed ids are appended to the ghost list, so the ids
handed out over a whole run are a contiguous strictly increasing range. -/

/-- The operation leaves the id counter and the assignment list alone. -/
def IdsU (f : EngineState → EngineState) : Prop :=
  ∀ s, (f s).id_ctr = s.id_ctr ∧ (f s).assignedIds = s.assignedIds

/-- The operation advances the counter by k and assigns exactly the crossed
    ids, in order. -/
def idsSpec (f : EngineState → EngineState) : Prop :=
  ∀ s, ∃ k, (f s).id_ctr = s.id_ctr + k ∧
    (f s).assignedIds = s.assignedIds ++ List.range' s.id_ctr k

theorem idsSpec_of_idsU {f : EngineState → EngineState} (h : IdsU f) : idsSpec f :=
  fun s => ⟨0, by simp [(h s).1, (h s).2]⟩

theorem idsU_comp {f g : EngineState → EngineState} (hf : IdsU f) (hg : IdsU g) :
    IdsU (fun s => g (f s)) :=
  fun s => ⟨(hg (f s)).1.trans (hf s).1, (hg (f s)).2.trans (hf s).2⟩

theorem idsU_foldl {α : Type} {g : EngineState → α → EngineState}
    (h : ∀ a, IdsU (fun s => g s a)) : ∀ l : List α, IdsU (fun s => l.foldl g s) := by
  intro l
  induction l with
  | nil => exact fun s => ⟨rfl, rfl⟩
  | cons a t ih =>
    intro s
    exact ⟨(ih (g s a)).1.trans (h a s).1, (ih (g s a)).2.trans (h a s).2⟩

theorem idsSpec_comp {f g : EngineState → EngineState} (hf : idsSpec f)
    (hg : idsSpec g) : idsSpec (fun s => g (f s)) := by
  intro s
  obtain ⟨k1, h1, h2⟩ := hf s
  obtain ⟨k2, h3, h4⟩ := hg (f s)
  refine ⟨k1 + k2, ?_, ?_⟩
  · show (g (f s)).id_ctr = _
    omega
  · show (g (f s)).assignedIds = _
    rw [h4, h2, h1, List.append_assoc]
    have hr := List.range'_append s.id_ctr k1 k2 1
    simp only [one_mul] at hr
    rw [hr, Nat.add_comm k2 k1]

theorem idsSpec_foldl {α : Type} {g : EngineState → α → EngineState}
    (h : ∀ a, idsSpec (fun s => g s a)) :
    ∀ l : List α, idsSpec (fun s => l.foldl g s) := by
  intro l
  induction l with
  | nil => exact fun s => ⟨0, by simp⟩
  | cons a t ih => exact idsSpec_comp (h a) ih

theorem idsU_emitEv (e : Ev) : IdsU (fun s => emitEv s e) :=
  fun _ => ⟨rfl, rfl⟩

theorem idsU_setActor (aid : Nat) (a : ActorSt) : IdsU (fun s => setActor s aid a) :=
  fun _ => ⟨rfl, rfl⟩

theorem idsU_setComp (ck : CompKey) (c : Comp) : IdsU (fun s => setComp s ck c) := by
  intro s
  unfold setComp
  dsimp only
  split <;> exact ⟨rfl, rfl⟩

theorem idsU_addComponentToCaches (aid : Nat) (key : String) (c : Comp) :
    IdsU (fun s => addComponentToCaches s aid key c) := by
  intro s
  unfold addComponentToCaches
  split
  · exact ⟨rfl, rfl⟩
  split
  · exact ⟨rfl, rfl⟩
  dsimp only
  split <;> split <;> split <;> exact ⟨rfl, rfl⟩

theorem idsU_removeComponentFromCaches (aid : Nat) (key : String) :
    IdsU (fun s => removeComponentFromCaches s aid key) :=
  fun _ => ⟨rfl, rfl⟩

theorem idsU_destroyKeyStep (env : Env) (aid : Nat) (aname : String) (key : String) :
    IdsU (fun s => destroyKeyStep env aid aname s key) := by
  intro s
  unfold destroyKeyStep
  dsimp only
  split
  · exact ⟨rfl, rfl⟩
  rename_i c hc
  have h2 := idsU_comp (idsU_setComp ⟨aid, key⟩ { c with enabled := false })
    (idsU_removeComponentFromCaches aid key)
  split
  · split <;> exact ⟨(h2 _).1, (h2 _).2⟩
  · exact ⟨(h2 s).1, (h2 s).2⟩

theorem idsU_DestroyActor (env : Env) (aid : Nat) :
    IdsU (fun s => DestroyActor env s aid) := by
  intro s
  unfold DestroyActor
  dsimp only
  split
  · exact ⟨rfl, rfl⟩
  rename_i actor h
  have hf := idsU_foldl (fun key => idsU_destroyKeyStep env aid actor.name key)
    (List.insertionSort (fun x y => strLe x y = true) actor.component_keys)
  exact ⟨(hf _).1, (hf _).2⟩

theorem idsSpec_InstantiateActor (env : Env) (tmpl : String) :
    idsSpec (fun s => InstantiateActor env s tmpl) := by
  intro s
  unfold InstantiateActor
  dsimp only
  have h := idsU_foldl
    (g := fun t (p : String × Comp) => addComponentToCaches t s.id_ctr p.1 p.2)
    (fun p => idsU_addComponentToCaches s.id_ctr p.1 p.2)
    ((env.templates tmpl).comps.map (fun p => (p.1, instComp s.frameNumber p.2)))
  refine ⟨1, (h _).1, ?_⟩
  rw [(h _).2]
  simp [List.range'_one]

theorem idsSpec_execCmd (env : Env) (c : Cmd) : idsSpec (fun s => execCmd env s c) := by
  cases c with
  | destroyActor aid => exact idsSpec_of_idsU (idsU_DestroyActor env aid)
  | instantiateActor t => exact idsSpec_InstantiateActor env t
  | setEnabled aid key b =>
    apply idsSpec_of_idsU
    intro s
    unfold execCmd
    dsimp only
    split
    · split
      · exact ⟨rfl, rfl⟩
      · exact (idsU_setComp _ _) s
    · exact ⟨rfl, rfl⟩
  | dontDestroy aid =>
    apply idsSpec_of_idsU
    intro s
    unfold execCmd
    dsimp only
    split <;> exact ⟨rfl, rfl⟩
  | sceneLoad n => exact idsSpec_of_idsU (fun _ => ⟨rfl, rfl⟩)
  | nop => exact idsSpec_of_idsU (fun _ => ⟨rfl, rfl⟩)

theorem idsSpec_invoke (env : Env) (k : CbKind) (aid : Nat) (key : String)
    (aname : String) : idsSpec (fun s => invoke env k s aid key aname) := by
  intro s
  unfold invoke
  dsimp only
  have h := idsSpec_foldl (fun c => idsSpec_execCmd env c)
  split
  · obtain ⟨kk, h1, h2⟩ := h (env.cmdsOf k aid key) (emitEv s (.callback k aid key s.frameNumber))
    exact ⟨kk, h1, h2⟩
  · obtain ⟨kk, h1, h2⟩ := h ((env.cmdsOf k aid key).take _)
      (emitEv s (.callback k aid key s.frameNumber))
    exact ⟨kk, h1, h2⟩

theorem idsSpec_startEntryStep (env : Env) (ck : CompKey) :
    idsSpec (fun s => startEntryStep env s ck) := by
  intro s
  unfold startEntryStep
  dsimp only
  split
  · exact ⟨0, by simp⟩
  split
  · exact ⟨0, by simp⟩
  split
  · exact ⟨0, by simp⟩
  split
  · exact ⟨0, by simp⟩
  split
  · exact ⟨0, by simp⟩
  obtain ⟨kk, h1, h2⟩ := idsSpec_invoke env .start ck.actorId ck.key _ s
  split
  · exact ⟨kk, h1, h2⟩
  · exact ⟨kk, ((idsU_setComp _ _) _).1.trans h1, ((idsU_setComp _ _) _).2.trans h2⟩

theorem idsSpec_updateEntryStep (env : Env) (ck : CompKey) :
    idsSpec (fun s => updateEntryStep env s ck) := by
  intro s
  unfold updateEntryStep
  dsimp only
  split
  · exact ⟨0, by simp⟩
  split
  · exact ⟨0, by simp⟩
  split
  · exact ⟨0, by simp⟩
  split
  · exact ⟨0, by simp⟩
  split
  · exact ⟨0, by simp⟩
  split
  · exact ⟨0, by simp⟩
  split
  · exact ⟨0, by simp⟩
  exact idsSpec_invoke env .update ck.actorId ck.key _ s

theorem idsSpec_lateEntryStep (env : Env) (ck : CompKey) :
    idsSpec (fun s => lateEntryStep env s ck) := by
  intro s
  unfold lateEntryStep
  dsimp only
  split
  · exact ⟨0, by simp⟩
  split
  · exact ⟨0, by simp⟩
  split
  · exact ⟨0, by simp⟩
  split
  · exact ⟨0, by simp⟩
  split
  · exact ⟨0, by simp⟩
  split
  · exact ⟨0, by simp⟩
  exact idsSpec_invoke env .lateUpdate ck.actorId ck.key _ s

theorem idsSpec_ProcessSceneOnStart (env : Env) :
    idsSpec (fun s => ProcessSceneOnStart env s) := by
  intro s
  unfold ProcessSceneOnStart
  dsimp only
  split
  · exact ⟨0, by simp⟩
  obtain ⟨kk, h1, h2⟩ := idsSpec_foldl (fun ck => idsSpec_startEntryStep env ck)
    s.on_start_cache { s with on_start_cache := [] }
  exact ⟨kk, h1, h2⟩

theorem idsSpec_ProcessSceneUpdate (env : Env) :
    idsSpec (fun s => ProcessSceneUpdate env s) := by
  intro s
  unfold ProcessSceneUpdate
  dsimp only
  split
  · exact ⟨0, by simp⟩
  exact idsSpec_foldl (fun ck => idsSpec_updateEntryStep env ck) s.on_update_cache s

theorem idsSpec_ProcessSceneLateUpdate (env : Env) :
    idsSpec (fun s => ProcessSceneLateUpdate env s) := by
  intro s
  unfold ProcessSceneLateUpdate
  dsimp only
  split
  · exact ⟨0, by simp⟩
  exact idsSpec_foldl (fun ck => idsSpec_lateEntryStep env ck) s.on_late_update_cache s

theorem idsU_removeCompKeyStep (env : Env) (aid : Nat) (aname : String) (key : String) :
    IdsU (fun s => removeCompKeyStep env aid aname s key) := by
  intro s
  unfold removeCompKeyStep
  dsimp only
  set t := (match compAt s ⟨aid, key⟩ with
    | none => s
    | some c =>
      if !c.isRigidbody && c.hasOnDestroy then
        let s0 := emitEv s (.callback .destroy aid key s.frameNumber)
        match env.raisesOf .destroy aid key with
        | some _ => emitEv s0 (.errorLogged aname s0.frameNumber)
        | none => s0
      else s) with ht
  have htids : t.id_ctr = s.id_ctr ∧ t.assignedIds = s.assignedIds := by
    rw [ht]
    split
    · exact ⟨rfl, rfl⟩
    split
    · split <;> exact ⟨rfl, rfl⟩
    · exact ⟨rfl, rfl⟩
  split
  · exact htids
  · exact htids

theorem idsU_RemoveActorComponents (env : Env) :
    IdsU (fun s => RemoveActorComponents env s) := by
  intro s
  unfold RemoveActorComponents
  dsimp only
  refine (idsU_foldl (g := fun t aid =>
    match lookupActor t aid with
    | none => t
    | some a =>
      if a.components_to_remove.isEmpty then t
      else
        let keys := List.insertionSort (fun x y => strLe x y = true) a.components_to_remove
        let t1 := keys.foldl (removeCompKeyStep env aid a.name) t
        match lookupActor t1 aid with
        | none => t1
        | some a1 => setActor t1 aid { a1 with components_to_remove := [] }) ?_ _ s)
  intro aid t
  dsimp only
  split
  · exact ⟨rfl, rfl⟩
  rename_i a ha
  split
  · exact ⟨rfl, rfl⟩
  have hf := idsU_foldl (fun key => idsU_removeCompKeyStep env aid a.name key)
    (List.insertionSort (fun x y => strLe x y = true) a.components_to_remove) t
  split
  · exact hf
  · exact ⟨hf.1, hf.2⟩

theorem idsU_ActorsPendingDestruction : IdsU ActorsPendingDestruction := by
  intro s
  unfold ActorsPendingDestruction
  split <;> exact ⟨rfl, rfl⟩

theorem idsU_rebuildComponentCaches : IdsU rebuildComponentCaches := by
  intro s
  unfold rebuildComponentCaches
  dsimp only
  refine (idsU_foldl (g := fun t (p : Nat × ActorSt) =>
    if p.2.destroyed then t
    else p.2.component_keys.foldl (fun u k =>
      match p.2.components.lookup k with
      | none => u
      | some c => addComponentToCaches u p.1 k c) t) ?_ _ _)
  intro p t
  dsimp only
  split
  · exact ⟨rfl, rfl⟩
  refine (idsU_foldl (g := fun u k =>
    match p.2.components.lookup k with
    | none => u
    | some c => addComponentToCaches u p.1 k c) ?_ _ t)
  intro k u
  dsimp only
  split
  · exact ⟨rfl, rfl⟩
  · exact (idsU_addComponentToCaches _ _ _) u

theorem idsU_sceneDestroyActorStep (env : Env) (aid : Nat) :
    IdsU (fun s => sceneDestroyActorStep env s aid) := by
  intro s
  unfold sceneDestroyActorStep
  dsimp only
  split
  · exact ⟨rfl, rfl⟩
  rename_i a ha
  refine (idsU_foldl (g := fun t k =>
    match compAt t ⟨aid, k⟩ with
    | none => t
    | some c =>
      if !c.isRigidbody && c.hasOnDestroy then
        let t0 := emitEv t (.callback .destroy aid k t.frameNumber)
        match env.raisesOf .destroy aid k with
        | some _ => emitEv t0 (.errorLogged a.name t0.frameNumber)
        | none => t0
      else t) ?_ _ s)
  intro k t
  dsimp only
  split
  · exact ⟨rfl, rfl⟩
  split
  · split <;> exact ⟨rfl, rfl⟩
  · exact ⟨rfl, rfl⟩

theorem idsSpec_loadScene (env : Env) : idsSpec (fun s => loadScene env s) := by
  have hF : ∀ sd : SceneDef, idsSpec (fun t =>
      { rebuildComponentCaches
          (sd.actors.foldl (fun t ad =>
            { t with
              actors := assocSet t.actors t.id_ctr
                ⟨ad.name, false, false, ad.comps, ad.comps.map (fun p => p.1), []⟩,
              actor_id_vec := t.actor_id_vec ++ [t.id_ctr],
              id_ctr := t.id_ctr + 1,
              assignedIds := t.assignedIds ++ [t.id_ctr] }) t)
        with onstart_new := true }) := by
    intro sd t
    obtain ⟨kk, h1, h2⟩ := idsSpec_foldl (g := fun t (ad : ActorDef) =>
      { t with
        actors := assocSet t.actors t.id_ctr
          ⟨ad.name, false, false, ad.comps, ad.comps.map (fun p => p.1), []⟩,
        actor_id_vec := t.actor_id_vec ++ [t.id_ctr],
        id_ctr := t.id_ctr + 1,
        assignedIds := t.assignedIds ++ [t.id_ctr] })
      (fun ad t => ⟨1, rfl, by simp [List.range'_one]⟩) sd.actors t
    exact ⟨kk, (idsU_rebuildComponentCaches _).1.trans h1,
      (idsU_rebuildComponentCaches _).2.trans h2⟩
  have hpre : IdsU (fun s =>
      let s0 : EngineState := { s with
                                next_scene_to_load := "",
                                current_scene_name :=
                                  (if s.next_scene_to_load ≠ "" then
                                    s.next_scene_to_load
                                   else env.initialScene) }
      let s1 := ((s0.actors.filter
        (fun p => !(p.2.dont_destroy && !p.2.destroyed))).map (fun p => p.1)).foldl
        (sceneDestroyActorStep env) s0
      { s1 with
        actors := s1.actors.filter (fun p => p.2.dont_destroy && !p.2.destroyed),
        actor_id_vec := (s1.actors.filter
          (fun p => p.2.dont_destroy && !p.2.destroyed)).map (fun p => p.1) }) := by
    intro s
    dsimp only
    have h := idsU_foldl (fun aid => idsU_sceneDestroyActorStep env aid)
      (((({ s with
            next_scene_to_load := "",
            current_scene_name :=
              (if s.next_scene_to_load ≠ "" then s.next_scene_to_load
               else env.initialScene) } : EngineState)).actors.filter
        (fun p => !(p.2.dont_destroy && !p.2.destroyed))).map (fun p => p.1))
      { s with
        next_scene_to_load := "",
        current_scene_name :=
          (if s.next_scene_to_load ≠ "" then s.next_scene_to_load
           else env.initialScene) }
    exact ⟨h.1, h.2⟩
  intro s
  obtain ⟨kk, h1, h2⟩ := hF
    (env.scenes (if s.next_scene_to_load ≠ "" then s.next_scene_to_load
      else env.initialScene)) _
  refine ⟨kk, h1.trans (by rw [(hpre s).1]), h2.trans (by rw [(hpre s).2, (hpre s).1])⟩

theorem idsSpec_UpdateScene (env : Env) : idsSpec (fun s => UpdateScene env s) := by
  have hstart : idsSpec (fun s =>
      if s.onstart_new then ProcessSceneOnStart env { s with onstart_new := false }
      else s) := by
    intro s
    dsimp only
    by_cases h : s.onstart_new
    · rw [if_pos h]
      exact idsSpec_ProcessSceneOnStart env _
    · rw [if_neg h]
      exact ⟨0, by simp⟩
  have h2 := idsSpec_comp hstart (idsSpec_of_idsU (fun s => (⟨rfl, rfl⟩ :
    (UpdateRigidbodyInits s).id_ctr = s.id_ctr ∧
    (UpdateRigidbodyInits s).assignedIds = s.assignedIds)))
  have h3 := idsSpec_comp h2 (idsSpec_ProcessSceneUpdate env)
  have h4 := idsSpec_comp h3 (idsSpec_ProcessSceneLateUpdate env)
  have h5 := idsSpec_comp h4 (idsSpec_of_idsU (idsU_RemoveActorComponents env))
  have h6 := idsSpec_comp h5 (idsSpec_of_idsU (fun s =>
    (idsU_ActorsPendingDestruction (emitEv s (.reconcile s.frameNumber)))))
  have h7 := idsSpec_comp h6 (idsSpec_of_idsU (fun s => (⟨rfl, rfl⟩ :
    ({ s with actor_id_vec := s.actor_id_vec ++ s.actors_to_add,
              actors_to_add := [] } : EngineState).id_ctr = s.id_ctr ∧
    ({ s with actor_id_vec := s.actor_id_vec ++ s.actors_to_add,
              actors_to_add := [] } : EngineState).assignedIds = s.assignedIds)))
  have h8 := idsSpec_comp h7 (idsSpec_of_idsU (fun s => (⟨rfl, rfl⟩ :
    (emitEv s (.physicsStep s.frameNumber)).id_ctr = s.id_ctr ∧
    (emitEv s (.physicsStep s.frameNumber)).assignedIds = s.assignedIds)))
  intro s
  obtain ⟨kk, ha, hb⟩ := h8 s
  exact ⟨kk, ha, hb⟩

theorem idsSpec_engineFrame (env : Env) (pre : List Cmd) :
    idsSpec (fun s => engineFrame env pre s) := by
  have hload : idsSpec (fun s =>
      if s.next_scene_to_load ≠ "" then loadScene env s else s) := by
    intro s
    dsimp only
    by_cases h : s.next_scene_to_load ≠ ""
    · rw [if_pos h]
      exact idsSpec_loadScene env s
    · rw [if_neg h]
      exact ⟨0, by simp⟩
  have h2 := idsSpec_comp hload (idsSpec_foldl (fun c => idsSpec_execCmd env c) pre)
  have h3 := idsSpec_comp h2 (idsSpec_UpdateScene env)
  have h4 := idsSpec_comp h3 (idsSpec_of_idsU (fun s => (⟨rfl, rfl⟩ :
    ({ EngineRender s with frameNumber := (EngineRender s).frameNumber + 1 }).id_ctr
      = s.id_ctr ∧
    ({ EngineRender s with
        frameNumber := (EngineRender s).frameNumber + 1 }).assignedIds
      = s.assignedIds)))
  intro s
  obtain ⟨kk, ha, hb⟩ := h4 s
  exact ⟨kk, ha, hb⟩

/-- C8: across one whole run — the initial scene load, every later scene
    load, and every runtime instantiation, through arbitrary script behavior
    and any number of frames — the sequence of actor ids the registry assigns
    is strictly increasing, hence pairwise distinct: an id, once assigned, is
    never reused. -/
theorem actor_ids_never_reused (env : Env) (frames : List (List Cmd)) :
    ((engineRun env frames).assignedIds).Pairwise (fun a b => a < b) ∧
    ((engineRun env frames).assignedIds).Nodup := by
  obtain ⟨k1, h1, h2⟩ := idsSpec_loadScene env initState
  obtain ⟨k2, h3, h4⟩ := idsSpec_foldl (g := fun s pre => engineFrame env pre s)
    (fun pre => idsSpec_engineFrame env pre) frames (engineInit env)
  have hids : (engineRun env frames).assignedIds = List.range' 0 (k1 + k2) := by
    show (frames.foldl (fun s pre => engineFrame env pre s) (engineInit env)).assignedIds
      = List.range' 0 (k1 + k2)
    rw [h4]
    show (loadScene env initState).assignedIds ++
      List.range' (loadScene env initState).id_ctr k2 = List.range' 0 (k1 + k2)
    rw [h2, h1]
    show ([] : List Nat) ++ List.range' 0 k1 ++ List.range' (0 + k1) k2 = _
    rw [List.nil_append]
    have hr := List.range'_append 0 k1 k2 1
    simp only [one_mul] at hr
    rw [hr, Nat.add_comm k2 k1]
  rw [hids]
  exact ⟨List.pairwise_lt_range' 0 (k1 + k2), List.nodup_range' 0 (k1 + k2)⟩

/-!  ### C9: swap-and-match — grid cell lemmas -/

theorem gset_length (g : List (List Int)) (x y : Nat) (v : Int) :
    (gset g x y v).length = g.length := by
  unfold gset
  split
  · rfl
  · simp

theorem cols_ge_gset {g : List (List Int)} {n : Nat} (x y : Nat) (v : Int)
    (h : ∀ col ∈ g, n ≤ col.length) : ∀ col ∈ gset g x y v, n ≤ col.length := by
  unfold gset
  split
  · exact h
  rename_i col hcol
  intro c hc
  rcases List.mem_or_eq_of_mem_set hc with hmem | rfl
  · exact h c hmem
  · rw [List.length_set]
    rw [List.get?_eq_getElem?] at hcol
    exact h col (List.getElem?_mem hcol)

theorem gget_gset_same {g : List (List Int)} {x y : Nat} (v : Int)
    (hx1 : 1 ≤ x) (hxb : x ≤ g.length) (hy1 : 1 ≤ y)
    (hyb : ∀ col ∈ g, y ≤ col.length) : gget (gset g x y v) x y = v := by
  have hxlt : x - 1 < g.length := by omega
  have hg : g.get? (x - 1) = some (g[x-1]) := by
    rw [List.get?_eq_getElem?, List.getElem?_eq_getElem hxlt]
  have hylt : y - 1 < (g[x-1]).length := by
    have := hyb (g[x-1]) (List.getElem_mem hxlt)
    omega
  unfold gset
  rw [hg]
  dsimp only
  unfold gget
  have h2 : (g.set (x-1) ((g[x-1]).set (y-1) v)).get? (x - 1)
      = some ((g[x-1]).set (y-1) v) := by
    rw [List.get?_eq_getElem?]
    exact List.getElem?_set_self (by simpa using hxlt)
  rw [h2]
  dsimp only
  have h3 : ((g[x-1]).set (y-1) v).get? (y - 1) = some v := by
    rw [List.get?_eq_getElem?]
    exact List.getElem?_set_self hylt
  rw [h3]

theorem gget_gset_ne {g : List (List Int)} {x y c d : Nat} (v : Int)
    (hx1 : 1 ≤ x) (hy1 : 1 ≤ y) (hc1 : 1 ≤ c) (hd1 : 1 ≤ d)
    (hne : ¬(x = c ∧ y = d)) : gget (gset g x y v) c d = gget g c d := by
  unfold gset
  rcases hget : g.get? (x - 1) with _ | col
  · rfl
  rw [List.get?_eq_getElem?] at hget
  have hxlt : x - 1 < g.length := (List.getElem?_eq_some_iff.mp hget).1
  by_cases hxc : x = c
  · subst hxc
    have hyd : y ≠ d := fun h => hne ⟨rfl, h⟩
    unfold gget
    have h2 : (g.set (x-1) (col.set (y-1) v)).get? (x - 1)
        = some (col.set (y-1) v) := by
      rw [List.get?_eq_getElem?]
      exact List.getElem?_set_self (by simpa using hxlt)
    rw [h2, List.get?_eq_getElem?, hget]
    dsimp only
    rw [List.get?_eq_getElem?, List.get?_eq_getElem?,
      List.getElem?_set_ne (by omega)]
  · unfold gget
    rw [List.get?_eq_getElem?, List.get?_eq_getElem?,
      List.getElem?_set_ne (by omega)]

theorem gset_gget_self {g : List (List Int)} {x y : Nat}
    (hx1 : 1 ≤ x) (hxb : x ≤ g.length) (hy1 : 1 ≤ y)
    (hyb : ∀ col ∈ g, y ≤ col.length) : gset g x y (gget g x y) = g := by
  have hxlt : x - 1 < g.length := by omega
  have hg : g.get? (x - 1) = some (g[x-1]) := by
    rw [List.get?_eq_getElem?, List.getElem?_eq_getElem hxlt]
  have hylt : y - 1 < (g[x-1]).length := by
    have := hyb (g[x-1]) (List.getElem_mem hxlt)
    omega
  have hv : (g[x-1]).get? (y - 1) = some ((g[x-1])[y-1]) := by
    rw [List.get?_eq_getElem?, List.getElem?_eq_getElem hylt]
  unfold gget gset
  rw [hg]
  dsimp only
  rw [hv]
  dsimp only
  have hcol : (g[x-1]).set (y-1) ((g[x-1])[y-1]) = g[x-1] := by
    apply List.ext_getElem?
    intro j
    by_cases hj : y - 1 = j
    · subst hj
      rw [List.getElem?_set_self hylt, List.getElem?_eq_getElem hylt]
    · rw [List.getElem?_set_ne hj]
  rw [hcol]
  apply List.ext_getElem?
  intro j
  by_cases hj : x - 1 = j
  · subst hj
    rw [List.getElem?_set_self hxlt, List.getElem?_eq_getElem hxlt]
  · rw [List.getElem?_set_ne hj]

/-- Writing back the value already stored at an in-bounds cell is the
    identity. -/
theorem gset_eq_self {g : List (List Int)} {x y : Nat} {v : Int}
    (hv : gget g x y = v)
    (hx1 : 1 ≤ x) (hxb : x ≤ g.length) (hy1 : 1 ≤ y)
    (hyb : ∀ col ∈ g, y ≤ col.length) : gset g x y v = g := by
  rw [← hv]
  exact gset_gget_self hx1 hxb hy1 hyb

theorem gset_gset_same (g : List (List Int)) (x y : Nat) (v w : Int) :
    gset (gset g x y v) x y w = gset g x y w := by
  unfold gset
  rcases hget : g.get? (x - 1) with _ | col
  · rw [hget]
  rw [List.get?_eq_getElem?] at hget
  have hxlt : x - 1 < g.length := (List.getElem?_eq_some_iff.mp hget).1
  have h2 : (g.set (x-1) (col.set (y-1) v)).get? (x - 1)
      = some (col.set (y-1) v) := by
    rw [List.get?_eq_getElem?]
    exact List.getElem?_set_self (by simpa using hxlt)
  rw [h2]
  dsimp only
  rw [List.set_set, List.set_set]

/-- The invalid-swap restore: swapping back recovers the original grid when
    the two cells are distinct in-bounds positions (TrySwap only runs on
    adjacent cells). -/
theorem swap_restore {g : List (List Int)} {x1 y1 x2 y2 : Nat}
    (hx11 : 1 ≤ x1) (hx1b : x1 ≤ g.length) (hy11 : 1 ≤ y1)
    (hx21 : 1 ≤ x2) (hx2b : x2 ≤ g.length) (hy21 : 1 ≤ y2)
    (hy1b : ∀ col ∈ g, y1 ≤ col.length) (hy2b : ∀ col ∈ g, y2 ≤ col.length)
    (hne : ¬(x1 = x2 ∧ y1 = y2)) :
    (gset (gset (gset (gset g x1 y1 (gget g x2 y2)) x2 y2 (gget g x1 y1)) x2 y2
      (gget (gset (gset g x1 y1 (gget g x2 y2)) x2 y2 (gget g x1 y1)) x1 y1)) x1 y1
      (gget g x1 y1)) = g := by
  have hne2 : ¬(x2 = x1 ∧ y2 = y1) := fun h => hne ⟨h.1.symm, h.2.symm⟩
  have hlen1 : (gset g x1 y1 (gget g x2 y2)).length = g.length := gset_length g x1 y1 _
  have hcols1 : ∀ col ∈ gset g x1 y1 (gget g x2 y2), y2 ≤ col.length :=
    cols_ge_gset x1 y1 _ hy2b
  -- the value read back at (x1, y1) after both writes is the swapped-in one
  have hread : gget (gset (gset g x1 y1 (gget g x2 y2)) x2 y2 (gget g x1 y1)) x1 y1
      = gget g x2 y2 := by
    rw [gget_gset_ne _ hx21 hy21 hx11 hy11 hne2]
    exact gget_gset_same _ hx11 hx1b hy11 hy1b
  rw [hread, gset_gset_same]
  -- un-write the second cell
  have hback : gget (gset g x1 y1 (gget g x2 y2)) x2 y2 = gget g x2 y2 := by
    rw [gget_gset_ne _ hx11 hy11 hx21 hy21 hne]
  have hmid : gset (gset g x1 y1 (gget g x2 y2)) x2 y2 (gget g x2 y2)
      = gset g x1 y1 (gget g x2 y2) :=
    gset_eq_self hback hx21 (hlen1 ▸ hx2b) hy21 hcols1
  rw [hmid, gset_gset_same]
  exact gset_gget_self hx11 hx1b hy11 hy1b

/-- C9 amended: (invalid swap) swapping two distinct in-bounds cells that
    produces no match restores the original grid values and leaves the score
    and the moves counter unchanged; (valid swap) a swap that produces
    matched cells and whose gravity refill produces no chain reaction
    decrements the moves counter by exactly 1 and awards exactly
    (matched-cell-count x 10) points — with a chain reaction the code
    additionally awards 5 bonus points plus the regular 10 points for every
    cell matched in later waves, so the original claim holds only for
    cascade-free swaps. -/
theorem swap_match_scoring_amended :
    (∀ (fuel : Nat) (st : PuzzleState) (x1 y1 x2 y2 : Nat),
      1 ≤ x1 → x1 ≤ st.grid.length → 1 ≤ y1 →
      1 ≤ x2 → x2 ≤ st.grid.length → 1 ≤ y2 →
      (∀ col ∈ st.grid, y1 ≤ col.length) → (∀ col ∈ st.grid, y2 ≤ col.length) →
      ¬(x1 = x2 ∧ y1 = y2) →
      (FindAllMatches
        (gset (gset st.grid x1 y1 (gget st.grid x2 y2)) x2 y2 (gget st.grid x1 y1))
        st.grid_width st.grid_height).length = 0 →
      (TrySwap fuel st x1 y1 x2 y2).grid = st.grid ∧
      (TrySwap fuel st x1 y1 x2 y2).score = st.score ∧
      (TrySwap fuel st x1 y1 x2 y2).moves_left = st.moves_left) ∧
    (∀ (fuel : Nat) (st : PuzzleState) (x1 y1 x2 y2 : Nat),
      0 < (FindAllMatches
        (gset (gset st.grid x1 y1 (gget st.grid x2 y2)) x2 y2 (gget st.grid x1 y1))
        st.grid_width st.grid_height).length →
      (FindAllMatches
        (ApplyGravity st.grid_width st.grid_height
          ((FindAllMatches (gset (gset st.grid x1 y1 (gget st.grid x2 y2)) x2 y2
              (gget st.grid x1 y1)) st.grid_width st.grid_height).foldl
            (fun gg p => gset gg p.1 p.2 0)
            (gset (gset st.grid x1 y1 (gget st.grid x2 y2)) x2 y2
              (gget st.grid x1 y1)))
          st.randStream).1 st.grid_width st.grid_height).length = 0 →
      (TrySwap (fuel + 1) st x1 y1 x2 y2).score =
        st.score + ((FindAllMatches (gset (gset st.grid x1 y1 (gget st.grid x2 y2))
          x2 y2 (gget st.grid x1 y1)) st.grid_width st.grid_height).length : Int)
          * 10 ∧
      (TrySwap (fuel + 1) st x1 y1 x2 y2).moves_left = st.moves_left - 1) := by
  constructor
  · intro fuel st x1 y1 x2 y2 hx11 hx1b hy11 hx21 hx2b hy21 hy1b hy2b hne hnm
    unfold TrySwap
    dsimp only
    rw [if_neg (by omega)]
    refine ⟨?_, rfl, rfl⟩
    exact swap_restore hx11 hx1b hy11 hx21 hx2b hy21 hy1b hy2b hne
  · intro fuel st x1 y1 x2 y2 hpos hnochain
    unfold TrySwap
    dsimp only
    rw [if_pos (by omega)]
    unfold ProcessMatches
    dsimp only
    rw [if_neg (by omega)]
    unfold CheckGameState
    constructor
    · split
      · rfl
      split
      · rfl
      · rfl
    · split
      · rfl
      split
      · rfl
      · rfl

/-- Witness: the invalid-swap conjunct at the concrete 3x3 grid with the
    matchless swap (1,1)-(2,1), and the valid-swap conjunct at the
    cascade-free swap (1,2)-(1,3) with refill stream [1,2,1]. -/
theorem swap_match_scoring_amended_witness :
    ((TrySwap 5 (puzState []) 1 1 2 1).grid = (puzState []).grid ∧
     (TrySwap 5 (puzState []) 1 1 2 1).score = (puzState []).score ∧
     (TrySwap 5 (puzState []) 1 1 2 1).moves_left = (puzState []).moves_left) ∧
    ((TrySwap 5 (puzState [1, 2, 1]) 1 2 1 3).score =
      (puzState [1, 2, 1]).score +
        ((FindAllMatches (gset (gset (puzState [1, 2, 1]).grid 1 2
            (gget (puzState [1, 2, 1]).grid 1 3)) 1 3
            (gget (puzState [1, 2, 1]).grid 1 2)) 3 3).length : Int) * 10 ∧
     (TrySwap 5 (puzState [1, 2, 1]) 1 2 1 3).moves_left =
      (puzState [1, 2, 1]).moves_left - 1) := by
  constructor
  · exact swap_match_scoring_amended.1 5 (puzState []) 1 1 2 1
      (by decide) (by decide) (by decide) (by decide) (by decide) (by decide)
      (by decide) (by decide) (by decide) (by decide)
  · exact swap_match_scoring_amended.2 4 (puzState [1, 2, 1]) 1 2 1 3
      (by decide) (by decide)

/-!  ### C10: once-subscriptions -/

/-- No subscription with this id is registered for any event. -/
def notIn (id : Nat) (s : EvState) : Prop :=
  ∀ p ∈ s.subscriptions, ∀ sub ∈ p.2, sub.id ≠ id

/-- Every registered (event, subscription) of t was already registered in s
    (the event bus only sheds subscriptions while dispatching). -/
def subsLe (t s : EvState) : Prop :=
  ∀ p ∈ t.subscriptions, ∃ q ∈ s.subscriptions, p.1 = q.1 ∧ ∀ sub ∈ p.2, sub ∈ q.2

/-- The id sid is registered (if at all) only under event name. -/
def sidOnly (sid : Nat) (name : String) (s : EvState) : Prop :=
  ∀ p ∈ s.subscriptions, ∀ sub ∈ p.2, sub.id = sid → p.1 = name

/-- The book-keeping the removal argument needs: either the reverse map still
    points sid at name, or sid is fully gone; and sid never appears under
    another event. -/
def evR (sid : Nat) (name : String) (s : EvState) : Prop :=
  (s.subscription_to_event.lookup sid = some name ∨ notIn sid s) ∧
  sidOnly sid name s

theorem subsLe_refl (s : EvState) : subsLe s s :=
  fun p hp => ⟨p, hp, rfl, fun _ hs => hs⟩

theorem subsLe_trans {u t s : EvState} (h1 : subsLe u t) (h2 : subsLe t s) :
    subsLe u s := by
  intro p hp
  obtain ⟨q, hq, he, hsub⟩ := h1 p hp
  obtain ⟨r, hr, he2, hsub2⟩ := h2 q hq
  exact ⟨r, hr, he.trans he2, fun sub hs => hsub2 sub (hsub sub hs)⟩

theorem notIn_of_subsLe {id : Nat} {t s : EvState} (h : subsLe t s)
    (hn : notIn id s) : notIn id t := by
  intro p hp sub hs
  obtain ⟨q, hq, _, hsub⟩ := h p hp
  exact hn q hq sub (hsub sub hs)

theorem sidOnly_of_subsLe {sid : Nat} {name : String} {t s : EvState}
    (h : subsLe t s) (hn : sidOnly sid name s) : sidOnly sid name t := by
  intro p hp sub hs heq
  obtain ⟨q, hq, he, hsub⟩ := h p hp
  rw [he]
  exact hn q hq sub (hsub sub hs) heq

theorem lookup_mem {α β : Type} [BEq α] [LawfulBEq α] {l : List (α × β)} {k : α}
    {v : β} (h : l.lookup k = some v) : (k, v) ∈ l := by
  induction l with
  | nil => simp [List.lookup] at h
  | cons p t ih =>
    rw [List.lookup] at h
    rcases hbeq : (k == p.1) with _ | _
    · rw [hbeq] at h
      exact List.mem_cons_of_mem p (ih h)
    · rw [hbeq] at h
      have : k = p.1 := eq_of_beq hbeq
      cases h
      cases p
      simp_all

theorem assocSetS_mem {β : Type} {l : List (String × β)} {k : String} {v : β}
    {p : String × β} (h : p ∈ assocSetS l k v) :
    (p ∈ l ∧ p.1 ≠ k) ∨ p = (k, v) := by
  unfold assocSetS at h
  split at h
  · obtain ⟨q, hq, he⟩ := List.mem_map.mp h
    by_cases hqk : (q.1 == k) = true
    · rw [if_pos hqk] at he
      exact Or.inr he.symm
    · rw [if_neg hqk] at he
      exact Or.inl ⟨he ▸ hq, by
        subst he
        simpa using hqk⟩
  · rename_i hany
    rcases List.mem_append.mp h with hmem | hmem
    · refine Or.inl ⟨hmem, ?_⟩
      intro hk
      rw [List.any_eq_true] at hany
      exact hany ⟨p, hmem, by simpa using hk⟩
    · exact Or.inr (List.mem_singleton.mp hmem)

/-- Unsubscribe only sheds subscriptions. -/
theorem subsLe_Unsubscribe (s : EvState) (sid : Nat) :
    subsLe (Unsubscribe s sid) s := by
  unfold Unsubscribe
  split
  · exact subsLe_refl s
  rename_i name hname
  split
  · intro p hp
    exact ⟨p, hp, rfl, fun _ hs => hs⟩
  rename_i subs hsubs
  intro p hp
  rcases assocSetS_mem hp with hmem | rfl
  · exact ⟨p, hmem.1, rfl, fun _ hs => hs⟩
  · exact ⟨(name, subs), lookup_mem hsubs, rfl,
      fun sub hs => (List.mem_filter.mp hs).1⟩

theorem etrace_Unsubscribe (s : EvState) (sid : Nat) :
    (Unsubscribe s sid).etrace = s.etrace := by
  unfold Unsubscribe
  split
  · rfl
  split <;> rfl

theorem lookup_none_not_mem {α β : Type} [BEq α] [LawfulBEq α]
    {l : List (α × β)} {k : α} (h : l.lookup k = none) :
    ∀ p ∈ l, p.1 ≠ k := by
  induction l with
  | nil => intro p hp; simp at hp
  | cons q t ih =>
    rw [List.lookup] at h
    rcases hbeq : (k == q.1) with _ | _
    · rw [hbeq] at h
      intro p hp
      rcases List.mem_cons.mp hp with rfl | hmem
      · intro he
        rw [he] at hbeq
        simp at hbeq
      · exact ih h p hmem
    · rw [hbeq] at h
      cases h

theorem lookup_filter_ne {β : Type} {l : List (Nat × β)} {oid sid : Nat}
    (h : sid ≠ oid) :
    (l.filter (fun p => !(p.1 == oid))).lookup sid = l.lookup sid := by
  induction l with
  | nil => rfl
  | cons q t ih =>
    by_cases hq : q.1 = oid
    · rw [List.filter_cons_of_neg (by simp [hq])]
      rw [ih, List.lookup]
      have : (sid == q.1) = false := by simp [hq, h]
      rw [this]
  -- kept entry
    · rw [List.filter_cons_of_pos (by simp [hq])]
      rw [List.lookup, List.lookup]
      rcases hbeq : (sid == q.1) with _ | _
      · rw [ih]
      · rfl

/-- Unsubscribing the id sid itself under the evR book-keeping leaves sid
    fully unregistered. -/
theorem unsub_sid_notIn {sid : Nat} {name : String} {t : EvState}
    (hR : evR sid name t) : notIn sid (Unsubscribe t sid) := by
  unfold Unsubscribe
  rcases hmap : t.subscription_to_event.lookup sid with _ | nm
  · rcases hR.1 with hleft | hright
    · rw [hmap] at hleft
      cases hleft
    · exact hright
  rcases hR.1 with hleft | hright
  swap
  · -- sid already gone; unsubscribing sheds further
    dsimp only
    split
    · exact fun p hp sub hs => hright p hp sub hs
    rename_i subs hsubs
    intro p hp sub hs
    rcases assocSetS_mem hp with hmem | rfl
    · exact hright p hmem.1 sub hs
    · exact hright (nm, subs) (lookup_mem hsubs) sub (List.mem_filter.mp hs).1
  · -- the map still points sid at name; nm = name
    rw [hmap] at hleft
    cases hleft
    dsimp only
    split
    · -- no subscription vector under name at all: sidOnly forces absence
      rename_i hnone
      intro p hp sub hs heq
      exact absurd (hR.2 p hp sub hs heq) (lookup_none_not_mem hnone p hp)
    rename_i subs hsubs
    intro p hp sub hs heq
    rcases assocSetS_mem hp with hmem | rfl
    · exact hmem.2 (hR.2 p hmem.1 sub hs heq)
    · have := (List.mem_filter.mp hs).2
      simp [heq] at this

/-- Unsubscribe preserves the evR book-keeping. -/
theorem evR_Unsubscribe {sid : Nat} {name : String} (t : EvState) (oid : Nat)
    (hR : evR sid name t) : evR sid name (Unsubscribe t oid) := by
  have hle := subsLe_Unsubscribe t oid
  by_cases hoid : oid = sid
  · subst hoid
    exact ⟨Or.inr (unsub_sid_notIn hR), sidOnly_of_subsLe hle hR.2⟩
  refine ⟨?_, sidOnly_of_subsLe hle hR.2⟩
  rcases hR.1 with hleft | hright
  swap
  · exact Or.inr (notIn_of_subsLe hle hright)
  unfold Unsubscribe
  rcases hmap : t.subscription_to_event.lookup oid with _ | nm
  · exact Or.inl hleft
  dsimp only
  have hkeep : (t.subscription_to_event.filter
      (fun p => !(p.1 == oid))).lookup sid = some name := by
    rw [lookup_filter_ne (fun h => hoid h.symm)]
    exact hleft
  split
  · exact Or.inl hkeep
  · exact Or.inl hkeep

/-- One callback command preserves shrinking-subscriptions and trace growth,
    given the nested-emit continuation does. -/
theorem cmd_subsLe {emitF : String → EvState → EvState}
    (hF : ∀ nm t, subsLe (emitF nm t) t ∧ ∃ δ, (emitF nm t).etrace = t.etrace ++ δ) :
    ∀ (c : ECmd) (t : EvState), subsLe (execECmdWith emitF c t) t ∧
      ∃ δ, (execECmdWith emitF c t).etrace = t.etrace ++ δ := by
  intro c t
  cases c with
  | emitEvent nm => exact hF nm t
  | guardedEmit f nm =>
    simp only [execECmdWith]
    split
    · exact ⟨subsLe_refl t, [], by simp⟩
    · obtain ⟨h1, δ, h2⟩ := hF nm { t with flags := t.flags ++ [f] }
      exact ⟨h1, δ, h2⟩
  | enop => exact ⟨subsLe_refl t, [], by simp [execECmdWith]⟩

theorem cmds_subsLe {emitF : String → EvState → EvState}
    (hF : ∀ nm t, subsLe (emitF nm t) t ∧ ∃ δ, (emitF nm t).etrace = t.etrace ++ δ) :
    ∀ (cs : List ECmd) (t : EvState), subsLe (execECmdListWith emitF cs t) t ∧
      ∃ δ, (execECmdListWith emitF cs t).etrace = t.etrace ++ δ := by
  intro cs
  induction cs with
  | nil => intro t; exact ⟨subsLe_refl t, [], by simp [execECmdListWith]⟩
  | cons c cs ihc =>
    intro t
    obtain ⟨h1, δ1, e1⟩ := cmd_subsLe hF c t
    obtain ⟨h2, δ2, e2⟩ := ihc (execECmdWith emitF c t)
    refine ⟨subsLe_trans h2 h1, δ1 ++ δ2, ?_⟩
    show (execECmdListWith emitF cs (execECmdWith emitF c t)).etrace = _
    rw [e2, e1, List.append_assoc]

theorem step_subsLe (env : EEnv) {emitF : String → EvState → EvState}
    (hF : ∀ nm t, subsLe (emitF nm t) t ∧ ∃ δ, (emitF nm t).etrace = t.etrace ++ δ) :
    ∀ (sub : EvSub) (t : EvState), subsLe (emitStep env emitF t sub) t ∧
      ∃ δ, (emitStep env emitF t sub).etrace = t.etrace ++ δ := by
  intro sub t
  unfold emitStep
  dsimp only
  rcases hr : env.cbRaises sub.id with _ | k
  · obtain ⟨h1, δ1, e1⟩ := cmds_subsLe hF (env.cbCmds sub.id)
      { t with etrace := t.etrace ++ [EEv.invoked sub.id] }
    exact ⟨h1, [EEv.invoked sub.id] ++ δ1, by rw [e1]; simp⟩
  · obtain ⟨h1, δ1, e1⟩ := cmds_subsLe hF ((env.cbCmds sub.id).take k)
      { t with etrace := t.etrace ++ [EEv.invoked sub.id] }
    refine ⟨h1, [EEv.invoked sub.id] ++ δ1 ++ [EEv.evError], ?_⟩
    show (execECmdListWith emitF _ _).etrace ++ [EEv.evError] = _
    rw [e1]
    simp

theorem loop_subsLe (env : EEnv) {emitF : String → EvState → EvState}
    (hF : ∀ nm t, subsLe (emitF nm t) t ∧ ∃ δ, (emitF nm t).etrace = t.etrace ++ δ) :
    ∀ (subs : List EvSub) (t : EvState), subsLe (emitLoopWith env emitF subs t) t ∧
      ∃ δ, (emitLoopWith env emitF subs t).etrace = t.etrace ++ δ := by
  intro subs
  induction subs with
  | nil => intro t; exact ⟨subsLe_refl t, [], by simp [emitLoopWith]⟩
  | cons sub rest ihs =>
    intro t
    obtain ⟨hle, δ0, e0⟩ := step_subsLe env hF sub t
    obtain ⟨h2, δ2, e2⟩ := ihs (emitStep env emitF t sub)
    refine ⟨subsLe_trans h2 hle, δ0 ++ δ2, ?_⟩
    show (emitLoopWith env emitF rest (emitStep env emitF t sub)).etrace = _
    rw [e2, e0, List.append_assoc]

theorem unsfold_subsLe : ∀ (ids : List Nat) (t : EvState),
    subsLe (ids.foldl Unsubscribe t) t ∧ (ids.foldl Unsubscribe t).etrace = t.etrace := by
  intro ids
  induction ids with
  | nil => intro t; exact ⟨subsLe_refl t, rfl⟩
  | cons i ids ihu =>
    intro t
    obtain ⟨hh, ee⟩ := ihu (Unsubscribe t i)
    exact ⟨subsLe_trans hh (subsLe_Unsubscribe t i),
      ee.trans (etrace_Unsubscribe t i)⟩

/-- During any Emit — including every nested emit its callbacks perform — the
    subscription tables only shrink and the trace only grows. -/
theorem emit_subsLe (env : EEnv) : ∀ (fuel : Nat) (name : String) (s : EvState),
    subsLe (Emit env fuel name s) s ∧
    ∃ δ, (Emit env fuel name s).etrace = s.etrace ++ δ := by
  intro fuel
  induction fuel with
  | zero => intro name s; exact ⟨subsLe_refl s, [], by simp [Emit]⟩
  | succ n ih =>
    intro name s
    have hEmit : Emit env (n + 1) name s =
        (match s.subscriptions.lookup name with
         | none => s
         | some subs =>
           ((subs.filter (fun sub => sub.once)).map (fun sub => sub.id)).foldl
             Unsubscribe (emitLoopWith env (Emit env n) subs s)) := rfl
    rw [hEmit]
    rcases hsubs : s.subscriptions.lookup name with _ | subs
    · exact ⟨subsLe_refl s, [], by simp⟩
    obtain ⟨h1, δ, e1⟩ := loop_subsLe env ih subs s
    obtain ⟨h2, e2⟩ := unsfold_subsLe
      ((subs.filter (fun sub => sub.once)).map (fun sub => sub.id))
      (emitLoopWith env (Emit env n) subs s)
    exact ⟨subsLe_trans h2 h1, δ, e2.trans e1⟩

/-- The hypotheses the no-invoke argument needs of a nested-emit
    continuation. -/
def emitHyp (id : Nat) (emitF : String → EvState → EvState) : Prop :=
  ∀ nm t, subsLe (emitF nm t) t ∧
    (∃ δ, (emitF nm t).etrace = t.etrace ++ δ) ∧
    (notIn id t → ∃ δ, (emitF nm t).etrace = t.etrace ++ δ ∧ EEv.invoked id ∉ δ)

theorem cmd_no_invoke {id : Nat} {emitF : String → EvState → EvState}
    (hF : emitHyp id emitF) :
    ∀ (c : ECmd) (t : EvState), notIn id t →
      subsLe (execECmdWith emitF c t) t ∧
      ∃ δ, (execECmdWith emitF c t).etrace = t.etrace ++ δ ∧ EEv.invoked id ∉ δ := by
  intro c t hn
  cases c with
  | emitEvent nm => exact ⟨(hF nm t).1, (hF nm t).2.2 hn⟩
  | guardedEmit f nm =>
    simp only [execECmdWith]
    split
    · exact ⟨subsLe_refl t, [], by simp, by simp⟩
    · refine ⟨(hF nm { t with flags := t.flags ++ [f] }).1, ?_⟩
      exact (hF nm { t with flags := t.flags ++ [f] }).2.2 hn
  | enop => exact ⟨subsLe_refl t, [], by simp [execECmdWith], by simp⟩

theorem cmds_no_invoke {id : Nat} {emitF : String → EvState → EvState}
    (hF : emitHyp id emitF) :
    ∀ (cs : List ECmd) (t : EvState), notIn id t →
      ∃ δ, (execECmdListWith emitF cs t).etrace = t.etrace ++ δ ∧
        EEv.invoked id ∉ δ := by
  intro cs
  induction cs with
  | nil => intro t _; exact ⟨[], by simp [execECmdListWith], by simp⟩
  | cons c cs ihc =>
    intro t hn
    obtain ⟨h1, δ1, e1, m1⟩ := cmd_no_invoke hF c t hn
    obtain ⟨δ2, e2, m2⟩ := ihc (execECmdWith emitF c t) (notIn_of_subsLe h1 hn)
    refine ⟨δ1 ++ δ2, ?_, ?_⟩
    · show (execECmdListWith emitF cs (execECmdWith emitF c t)).etrace = _
      rw [e2, e1, List.append_assoc]
    · intro hmem
      rcases List.mem_append.mp hmem with h | h
      · exact m1 h
      · exact m2 h

theorem step_no_invoke (env : EEnv) {id : Nat} {emitF : String → EvState → EvState}
    (hF : emitHyp id emitF) :
    ∀ (sub : EvSub) (t : EvState), sub.id ≠ id → notIn id t →
      ∃ δ, (emitStep env emitF t sub).etrace = t.etrace ++ δ ∧
        EEv.invoked id ∉ δ := by
  intro sub t hne hn
  unfold emitStep
  dsimp only
  have hn0 : notIn id ({ t with etrace := t.etrace ++ [EEv.invoked sub.id] } : EvState) :=
    fun p hp s hs => hn p hp s hs
  rcases hr : env.cbRaises sub.id with _ | k
  · obtain ⟨δ1, e1, m1⟩ := cmds_no_invoke hF (env.cbCmds sub.id) _ hn0
    refine ⟨[EEv.invoked sub.id] ++ δ1, by rw [e1]; simp, ?_⟩
    intro hmem
    rcases List.mem_append.mp hmem with h | h
    · have := List.mem_singleton.mp h
      exact hne (by injection this.symm)
    · exact m1 h
  · obtain ⟨δ1, e1, m1⟩ := cmds_no_invoke hF ((env.cbCmds sub.id).take k) _ hn0
    refine ⟨[EEv.invoked sub.id] ++ δ1 ++ [EEv.evError], ?_, ?_⟩
    · show (execECmdListWith emitF _ _).etrace ++ [EEv.evError] = _
      rw [e1]
      simp
    · intro hmem
      rcases List.mem_append.mp hmem with h | h
      · rcases List.mem_append.mp h with h2 | h2
        · have := List.mem_singleton.mp h2
          exact hne (by injection this.symm)
        · exact m1 h2
      · cases List.mem_singleton.mp h

theorem loop_no_invoke (env : EEnv) {id : Nat} {emitF : String → EvState → EvState}
    (hF : emitHyp id emitF) :
    ∀ (subs : List EvSub) (t : EvState), (∀ sub ∈ subs, sub.id ≠ id) → notIn id t →
      ∃ δ, (emitLoopWith env emitF subs t).etrace = t.etrace ++ δ ∧
        EEv.invoked id ∉ δ := by
  intro subs
  induction subs with
  | nil => intro t _ _; exact ⟨[], by simp [emitLoopWith], by simp⟩
  | cons sub rest ihs =>
    intro t hall hn
    have hFsub : ∀ nm u, subsLe (emitF nm u) u ∧
        ∃ δ, (emitF nm u).etrace = u.etrace ++ δ :=
      fun nm u => ⟨(hF nm u).1, (hF nm u).2.1⟩
    obtain ⟨δ0, e0, m0⟩ := step_no_invoke env hF sub t
      (hall sub (List.mem_cons_self sub rest)) hn
    have hle : subsLe (emitStep env emitF t sub) t :=
      (step_subsLe env hFsub sub t).1
    obtain ⟨δ2, e2, m2⟩ := ihs (emitStep env emitF t sub)
      (fun s2 hs2 => hall s2 (List.mem_cons_of_mem sub hs2))
      (notIn_of_subsLe hle hn)
    refine ⟨δ0 ++ δ2, ?_, ?_⟩
    · show (emitLoopWith env emitF rest (emitStep env emitF t sub)).etrace = _
      rw [e2, e0, List.append_assoc]
    · intro hmem
      rcases List.mem_append.mp hmem with h | h
      · exact m0 h
      · exact m2 h

/-- During any Emit, if id is registered nowhere, no invocation of id is ever
    recorded — including by nested emits. -/
theorem emit_no_invoke (env : EEnv) : ∀ (fuel : Nat) (name : String)
    (s : EvState) (id : Nat), notIn id s →
    ∃ δ, (Emit env fuel name s).etrace = s.etrace ++ δ ∧ EEv.invoked id ∉ δ := by
  intro fuel
  induction fuel with
  | zero => intro name s id _; exact ⟨[], by simp [Emit], by simp⟩
  | succ n ih =>
    intro name s id hn
    have hEmit : Emit env (n + 1) name s =
        (match s.subscriptions.lookup name with
         | none => s
         | some subs =>
           ((subs.filter (fun sub => sub.once)).map (fun sub => sub.id)).foldl
             Unsubscribe (emitLoopWith env (Emit env n) subs s)) := rfl
    rw [hEmit]
    rcases hsubs : s.subscriptions.lookup name with _ | subs
    · exact ⟨[], by simp, by simp⟩
    have hmemName : (name, subs) ∈ s.subscriptions := lookup_mem hsubs
    have hall : ∀ sub ∈ subs, sub.id ≠ id := fun sub hs => hn _ hmemName sub hs
    have hF : emitHyp id (Emit env n) := by
      intro nm t
      exact ⟨(emit_subsLe env n nm t).1, (emit_subsLe env n nm t).2,
        fun hnt => ih nm t id hnt⟩
    obtain ⟨δ, e1, m1⟩ := loop_no_invoke env hF subs s hall hn
    obtain ⟨h2, e2⟩ := unsfold_subsLe
      ((subs.filter (fun sub => sub.once)).map (fun sub => sub.id))
      (emitLoopWith env (Emit env n) subs s)
    exact ⟨δ, e2.trans e1, m1⟩

theorem cmd_evR {sid : Nat} {name : String} {emitF : String → EvState → EvState}
    (hFR : ∀ nm t, evR sid name t → evR sid name (emitF nm t)) :
    ∀ (c : ECmd) (t : EvState), evR sid name t →
      evR sid name (execECmdWith emitF c t) := by
  intro c t hR
  cases c with
  | emitEvent nm => exact hFR nm t hR
  | guardedEmit f nm =>
    simp only [execECmdWith]
    split
    · exact hR
    · refine hFR nm { t with flags := t.flags ++ [f] } ⟨?_, ?_⟩
      · exact hR.1
      · exact hR.2
  | enop => exact hR

theorem cmds_evR {sid : Nat} {name : String} {emitF : String → EvState → EvState}
    (hFR : ∀ nm t, evR sid name t → evR sid name (emitF nm t)) :
    ∀ (cs : List ECmd) (t : EvState), evR sid name t →
      evR sid name (execECmdListWith emitF cs t) := by
  intro cs
  induction cs with
  | nil => intro t hR; exact hR
  | cons c cs ihc =>
    intro t hR
    exact ihc (execECmdWith emitF c t) (cmd_evR hFR c t hR)

theorem step_evR (env : EEnv) {sid : Nat} {name : String}
    {emitF : String → EvState → EvState}
    (hFR : ∀ nm t, evR sid name t → evR sid name (emitF nm t)) :
    ∀ (sub : EvSub) (t : EvState), evR sid name t →
      evR sid name (emitStep env emitF t sub) := by
  intro sub t hR
  unfold emitStep
  dsimp only
  have hR0 : evR sid name ({ t with
      etrace := t.etrace ++ [EEv.invoked sub.id] } : EvState) := ⟨hR.1, hR.2⟩
  rcases hr : env.cbRaises sub.id with _ | k
  · exact cmds_evR hFR (env.cbCmds sub.id) _ hR0
  · have h1 := cmds_evR hFR ((env.cbCmds sub.id).take k) _ hR0
    exact ⟨h1.1, h1.2⟩

theorem loop_evR (env : EEnv) {sid : Nat} {name : String}
    {emitF : String → EvState → EvState}
    (hFR : ∀ nm t, evR sid name t → evR sid name (emitF nm t)) :
    ∀ (subs : List EvSub) (t : EvState), evR sid name t →
      evR sid name (emitLoopWith env emitF subs t) := by
  intro subs
  induction subs with
  | nil => intro t hR; exact hR
  | cons sub rest ihs =>
    intro t hR
    exact ihs (emitStep env emitF t sub) (step_evR env hFR sub t hR)

/-- Emit preserves the evR book-keeping (through nested emits and the
    Unsubscribe sweep). -/
theorem emit_evR (env : EEnv) {sid : Nat} {name : String} :
    ∀ (fuel : Nat) (nm : String) (s : EvState), evR sid name s →
      evR sid name (Emit env fuel nm s) := by
  intro fuel
  induction fuel with
  | zero => intro nm s hR; exact hR
  | succ n ih =>
    intro nm s hR
    have hEmit : Emit env (n + 1) nm s =
        (match s.subscriptions.lookup nm with
         | none => s
         | some subs =>
           ((subs.filter (fun sub => sub.once)).map (fun sub => sub.id)).foldl
             Unsubscribe (emitLoopWith env (Emit env n) subs s)) := rfl
    rw [hEmit]
    rcases hsubs : s.subscriptions.lookup nm with _ | subs
    · exact hR
    have hR1 := loop_evR env (fun nm2 t => ih nm2 t) subs s hR
    have huns : ∀ (ids : List Nat) (t : EvState), evR sid name t →
        evR sid name (ids.foldl Unsubscribe t) := by
      intro ids
      induction ids with
      | nil => intro t hRt; exact hRt
      | cons i ids ihu => intro t hRt; exact ihu (Unsubscribe t i) (evR_Unsubscribe t i hRt)
    exact huns _ _ hR1

/-- The Unsubscribe sweep at the end of a dispatch removes sid completely
    once sid is among the ids to remove. -/
theorem unsfold_removes {sid : Nat} {name : String} :
    ∀ (ids : List Nat) (t : EvState), evR sid name t → sid ∈ ids →
      notIn sid (ids.foldl Unsubscribe t) := by
  intro ids
  induction ids with
  | nil => intro t _ h; cases h
  | cons i ids ihu =>
    intro t hR hmem
    by_cases hi : i = sid
    · subst hi
      have hn := unsub_sid_notIn hR
      exact notIn_of_subsLe (unsfold_subsLe ids (Unsubscribe t i)).1 hn
    · have hR2 := evR_Unsubscribe t i hR
      rcases List.mem_cons.mp hmem with rfl | hmem2
      · exact absurd rfl hi
      · exact ihu (Unsubscribe t i) hR2 hmem2

/-- C10 amended: (a) after a completed Emit(E) whose subscription vector
    contained a once-subscription for f — whether or not f's body raised — the
    subscription is removed: f's id is registered nowhere afterwards; (b) an
    Emit on a state where an id is registered nowhere records no invocation of
    that id, so Emit(E) calls issued after the removing dispatch completes do
    not invoke f.  (The original claim fails only for emits nested inside the
    dispatching Emit, which still see the subscription — see the
    counterexample.)  The evR hypothesis is the reverse-map book-keeping that
    Subscribe/SubscribeOnce establish. -/
theorem subscribe_once_removed_amended :
    (∀ (env : EEnv) (fuel : Nat) (name : String) (s : EvState)
      (subs : List EvSub) (sub : EvSub),
      evR sub.id name s →
      s.subscriptions.lookup name = some subs →
      sub ∈ subs → sub.once = true →
      notIn sub.id (Emit env (fuel + 1) name s)) ∧
    (∀ (env : EEnv) (fuel : Nat) (name : String) (s : EvState) (id : Nat),
      notIn id s →
      ∃ δ, (Emit env fuel name s).etrace = s.etrace ++ δ ∧
        EEv.invoked id ∉ δ) := by
  constructor
  · intro env fuel name s subs sub hR hsubs hmem honce
    have hEmit : Emit env (fuel + 1) name s =
        (match s.subscriptions.lookup name with
         | none => s
         | some subs =>
           ((subs.filter (fun x => x.once)).map (fun x => x.id)).foldl
             Unsubscribe (emitLoopWith env (Emit env fuel) subs s)) := rfl
    rw [hEmit, hsubs]
    have hR1 := loop_evR env (fun nm2 t => emit_evR env fuel nm2 t) subs s hR
    have hidmem : sub.id ∈ (subs.filter (fun x => x.once)).map (fun x => x.id) :=
      List.mem_map.mpr ⟨sub, List.mem_filter.mpr ⟨hmem, by rw [honce]⟩, rfl⟩
    exact unsfold_removes _ _ hR1 hidmem
  · intro env fuel name s id hn
    exact emit_no_invoke env fuel name s id hn

/-- Witness: a once-subscription whose callback raises; after one Emit("E")
    the subscription is gone and a further Emit("E") records no invocation of
    it. -/
theorem subscribe_once_removed_amended_witness :
    notIn 1 (Emit ⟨fun _ => [], fun _ => some 0⟩ 3 "E" (SubscribeOnce evInit "E")) ∧
    (∃ δ, (Emit ⟨fun _ => [], fun _ => some 0⟩ 2 "E"
        (Emit ⟨fun _ => [], fun _ => some 0⟩ 3 "E"
          (SubscribeOnce evInit "E"))).etrace =
      (Emit ⟨fun _ => [], fun _ => some 0⟩ 3 "E"
        (SubscribeOnce evInit "E")).etrace ++ δ ∧ EEv.invoked 1 ∉ δ) := by
  constructor
  · exact subscribe_once_removed_amended.1 ⟨fun _ => [], fun _ => some 0⟩ 2 "E"
      (SubscribeOnce evInit "E") [⟨1, true⟩] ⟨1, true⟩
      (by constructor
          · exact Or.inl (by decide)
          · intro p hp sub hs heq
            simp [SubscribeOnce, evInit, assocSetS] at hp
            rw [hp])
      (by decide) (by decide) (by decide)
  · exact subscribe_once_removed_amended.2 ⟨fun _ => [], fun _ => some 0⟩ 2 "E"
      (Emit ⟨fun _ => [], fun _ => some 0⟩ 3 "E" (SubscribeOnce evInit "E")) 1
      (subscribe_once_removed_amended.1 ⟨fun _ => [], fun _ => some 0⟩ 2 "E"
        (SubscribeOnce evInit "E") [⟨1, true⟩] ⟨1, true⟩
        (by constructor
            · exact Or.inl (by decide)
            · intro p hp sub hs heq
              simp [SubscribeOnce, evInit, assocSetS] at hp
              rw [hp])
        (by decide) (by decide) (by decide))

/-!  ### Shared scheduler lemmas: association maps, component access, and the
     events each operation can record -/

theorem lookup_map_set_ne {κ β : Type} [BEq κ] [LawfulBEq κ] (l : List (κ × β))
    (k k2 : κ) (v : β) (hne : k2 ≠ k) :
    (l.map (fun p => if p.1 == k then (k, v) else p)).lookup k2 = l.lookup k2 := by
  induction l with
  | nil => rfl
  | cons p t ih =>
    rw [List.map_cons, List.lookup, List.lookup]
    by_cases hp : p.1 = k
    · rw [if_pos (by simp [hp])]
      have h2 : (k2 == k) = false := by simp [hne]
      have h3 : (k2 == p.1) = false := by simp [hp, hne]
      simp only [h2, h3]
      exact ih
    · rw [if_neg (by simp [hp])]
      rcases h : (k2 == p.1) with _ | _ <;> simp only [h] <;>
        first
        | rfl
        | exact ih

theorem lookup_map_set_self {κ β : Type} [BEq κ] [LawfulBEq κ] (l : List (κ × β))
    (k : κ) (v : β) (h : l.any (fun p => p.1 == k) = true) :
    (l.map (fun p => if p.1 == k then (k, v) else p)).lookup k = some v := by
  induction l with
  | nil => simp at h
  | cons p t ih =>
    rw [List.map_cons]
    by_cases hp : p.1 = k
    · rw [if_pos (by simp [hp])]
      simp [List.lookup]
    · rw [if_neg (by simp [hp])]
      rw [List.lookup]
      have hb : (k == p.1) = false := by simp [Ne.symm hp]
      rw [hb]
      rw [List.any_cons] at h
      rcases Bool.or_eq_true_iff.mp h with h1 | h1
      · exact absurd (by simpa using h1) hp
      · exact ih h1

theorem lookup_append_single_self {κ β : Type} [BEq κ] [LawfulBEq κ]
    (l : List (κ × β)) (k : κ) (v : β) (h : l.any (fun p => p.1 == k) = false) :
    (l ++ [(k, v)]).lookup k = some v := by
  induction l with
  | nil => simp [List.lookup]
  | cons p t ih =>
    rw [List.any_cons, Bool.or_eq_false_iff] at h
    rw [List.cons_append, List.lookup]
    have hb : (k == p.1) = false := by
      have := h.1
      simp only [beq_eq_false_iff_ne] at this ⊢
      exact fun hc => this hc.symm
    rw [hb]
    exact ih h.2

theorem lookup_append_single_ne {κ β : Type} [BEq κ] [LawfulBEq κ]
    (l : List (κ × β)) (k k2 : κ) (v : β) (hne : k2 ≠ k) :
    (l ++ [(k, v)]).lookup k2 = l.lookup k2 := by
  induction l with
  | nil =>
    have hb : (k2 == k) = false := by simp [hne]
    simp [List.lookup, hb]
  | cons p t ih =>
    rw [List.cons_append, List.lookup, List.lookup]
    rcases h : (k2 == p.1) with _ | _ <;> simp only [h] <;>
      first
      | rfl
      | exact ih

theorem lookup_assocSet_self {β : Type} (l : List (Nat × β)) (k : Nat) (v : β) :
    (assocSet l k v).lookup k = some v := by
  unfold assocSet
  split
  · exact lookup_map_set_self l k v (by assumption)
  · rename_i h
    exact lookup_append_single_self l k v (Bool.eq_false_iff.mpr h)

theorem lookup_assocSet_ne {β : Type} (l : List (Nat × β)) (k k2 : Nat) (v : β)
    (hne : k2 ≠ k) : (assocSet l k v).lookup k2 = l.lookup k2 := by
  unfold assocSet
  split
  · exact lookup_map_set_ne l k k2 v hne
  · exact lookup_append_single_ne l k k2 v hne

theorem lookup_assocSetS_self {β : Type} (l : List (String × β)) (k : String)
    (v : β) : (assocSetS l k v).lookup k = some v := by
  unfold assocSetS
  split
  · exact lookup_map_set_self l k v (by assumption)
  · rename_i h
    exact lookup_append_single_self l k v (Bool.eq_false_iff.mpr h)

theorem lookup_assocSetS_ne {β : Type} (l : List (String × β)) (k k2 : String)
    (v : β) (hne : k2 ≠ k) : (assocSetS l k v).lookup k2 = l.lookup k2 := by
  unfold assocSetS
  split
  · exact lookup_map_set_ne l k k2 v hne
  · exact lookup_append_single_ne l k k2 v hne

theorem lookup_eq_none_of_not_mem {κ β : Type} [BEq κ] [LawfulBEq κ]
    (l : List (κ × β)) (k : κ) (h : k ∉ l.map Prod.fst) : l.lookup k = none := by
  induction l with
  | nil => rfl
  | cons p t ih =>
    rw [List.map_cons, List.mem_cons] at h
    push_neg at h
    rw [List.lookup]
    have hb : (k == p.1) = false := by simp [h.1]
    rw [hb]
    exact ih h.2

theorem lookup_filter_keep {κ β : Type} [BEq κ] [LawfulBEq κ] (l : List (κ × β))
    (P : κ × β → Bool) (k : κ) (hP : ∀ v, P (k, v) = true) :
    (l.filter P).lookup k = l.lookup k := by
  induction l with
  | nil => rfl
  | cons p t ih =>
    rw [List.filter_cons]
    by_cases hk : p.1 = k
    · have hpeq : p = (k, p.2) := by cases p; simp_all
      have hPp : P p = true := by rw [hpeq]; exact hP p.2
      rw [if_pos hPp, List.lookup, List.lookup]
      rcases hb : (k == p.1) with _ | _ <;> simp only [hb] <;>
        first
        | rfl
        | exact ih
    · have hb : (k == p.1) = false := by simp [Ne.symm hk]
      by_cases hPp : P p = true
      · rw [if_pos hPp, List.lookup, List.lookup, hb]
        exact ih
      · rw [if_neg hPp, List.lookup, hb]
        exact ih

theorem lookup_filter_none {κ β : Type} [BEq κ] [LawfulBEq κ] (l : List (κ × β))
    (P : κ × β → Bool) (k : κ) (hP : ∀ v, P (k, v) = false) :
    (l.filter P).lookup k = none := by
  induction l with
  | nil => rfl
  | cons p t ih =>
    rw [List.filter_cons]
    by_cases hk : p.1 = k
    · have hpeq : p = (k, p.2) := by cases p; simp_all
      have hPp : P p = false := by rw [hpeq]; exact hP p.2
      rw [if_neg (by simp [hPp])]
      exact ih
    · have hb : (k == p.1) = false := by simp [Ne.symm hk]
      by_cases hPp : P p = true
      · rw [if_pos hPp, List.lookup, hb]
        exact ih
      · rw [if_neg hPp]
        exact ih

theorem lookup_filter_nodup_some {κ β : Type} [BEq κ] [LawfulBEq κ]
    (l : List (κ × β)) (P : κ × β → Bool) (k : κ) (v : β)
    (hnd : (l.map Prod.fst).Nodup) (h : (l.filter P).lookup k = some v) :
    l.lookup k = some v := by
  induction l with
  | nil => simp [List.filter] at h
  | cons p t ih =>
    rw [List.map_cons, List.nodup_cons] at hnd
    rw [List.filter_cons] at h
    rw [List.lookup]
    by_cases hk : p.1 = k
    · have hb : (k == p.1) = true := by simp [hk]
      rw [hb]
      rcases hPp : P p with _ | _
      · rw [if_neg (by simp [hPp])] at h
        exfalso
        have hnm : k ∉ (t.filter P).map Prod.fst := by
          intro hm
          rw [hk] at hnd
          exact hnd.1 (((List.filter_sublist t).map Prod.fst).subset hm)
        rw [lookup_eq_none_of_not_mem _ _ hnm] at h
        exact Option.noConfusion h
      · rw [if_pos hPp, List.lookup, hb] at h
        exact h
    · have hb : (k == p.1) = false := by simp [Ne.symm hk]
      rw [hb]
      rcases hPp : P p with _ | _
      · rw [if_neg (by simp [hPp])] at h
        exact ih hnd.2 h
      · rw [if_pos hPp, List.lookup, hb] at h
        exact ih hnd.2 h

theorem lookup_mem_keys {κ β : Type} [BEq κ] [LawfulBEq κ] (l : List (κ × β))
    (k : κ) (v : β) (h : l.lookup k = some v) : k ∈ l.map Prod.fst := by
  induction l with
  | nil => simp [List.lookup] at h
  | cons p t ih =>
    rw [List.lookup] at h
    rcases hb : (k == p.1) with _ | _
    · rw [hb] at h
      exact List.mem_cons_of_mem _ (ih h)
    · have : k = p.1 := by simpa using hb
      rw [List.map_cons, this]
      exact List.mem_cons_self _ _

theorem assocSet_keys {β : Type} (l : List (Nat × β)) (k : Nat) (v : β) :
    (assocSet l k v).map Prod.fst =
      if l.any (fun p => p.1 == k) then l.map Prod.fst
      else l.map Prod.fst ++ [k] := by
  unfold assocSet
  split <;> rename_i h
  · rw [List.map_map]
    apply List.map_congr_left
    intro p _
    by_cases hp : p.1 = k
    · simp [Function.comp, hp]
    · simp [Function.comp, hp]
  · rw [List.map_append]
    rfl

theorem not_mem_keys_of_not_any {β : Type} (l : List (Nat × β)) (k : Nat)
    (h : l.any (fun p => p.1 == k) = false) : k ∉ l.map Prod.fst := by
  intro hmem
  rcases List.mem_map.mp hmem with ⟨p, hp, hpk⟩
  have : l.any (fun p => p.1 == k) = true :=
    List.any_eq_true.mpr ⟨p, hp, by simp [hpk]⟩
  rw [h] at this
  exact Bool.noConfusion this

/-!  compAt / lookupActor under the state primitives -/

theorem lookupActor_setActor_self (s : EngineState) (aid : Nat) (a : ActorSt) :
    lookupActor (setActor s aid a) aid = some a :=
  lookup_assocSet_self s.actors aid a

theorem lookupActor_setActor_ne (s : EngineState) (aid aid2 : Nat) (a : ActorSt)
    (h : aid2 ≠ aid) : lookupActor (setActor s aid a) aid2 = lookupActor s aid2 :=
  lookup_assocSet_ne s.actors aid aid2 a h

theorem compAt_emitEv (s : EngineState) (e : Ev) (ck : CompKey) :
    compAt (emitEv s e) ck = compAt s ck := rfl

theorem compAt_setActor_sameComponents (s : EngineState) (aid : Nat)
    (a a' : ActorSt) (ha : lookupActor s aid = some a)
    (hcc : a'.components = a.components) (ck : CompKey) :
    compAt (setActor s aid a') ck = compAt s ck := by
  unfold compAt
  by_cases haid : ck.actorId = aid
  · rw [haid, lookupActor_setActor_self, ha]
    show a'.components.lookup ck.key = a.components.lookup ck.key
    rw [hcc]
  · rw [lookupActor_setActor_ne s aid ck.actorId a' haid]

theorem compAt_setComp_ne (s : EngineState) (ck ck2 : CompKey) (c : Comp)
    (h : ck2 ≠ ck) : compAt (setComp s ck c) ck2 = compAt s ck2 := by
  unfold setComp
  rcases hla : lookupActor s ck.actorId with _ | a
  · rfl
  · unfold compAt
    by_cases haid : ck2.actorId = ck.actorId
    · rw [haid, lookupActor_setActor_self]
      have hkey : ck2.key ≠ ck.key := by
        intro hk
        exact h (by cases ck; cases ck2; simp_all)
      show (assocSetS a.components ck.key c).lookup ck2.key = _
      rw [lookup_assocSetS_ne _ _ _ _ hkey]
      unfold lookupActor
      have hla2 : List.lookup ck.actorId s.actors = some a := hla
      rw [hla2]
      rfl
    · rw [lookupActor_setActor_ne s ck.actorId ck2.actorId _ haid]

theorem compAt_setComp_self (s : EngineState) (ck : CompKey) (c : Comp)
    (a : ActorSt) (ha : lookupActor s ck.actorId = some a) :
    compAt (setComp s ck c) ck = some c := by
  unfold setComp
  rw [ha]
  unfold compAt
  rw [lookupActor_setActor_self]
  exact lookup_assocSetS_self a.components ck.key c

theorem compAt_of_some (s : EngineState) (ck : CompKey) (c : Comp)
    (h : compAt s ck = some c) :
    ∃ a, lookupActor s ck.actorId = some a ∧ a.components.lookup ck.key = some c := by
  unfold compAt at h
  rcases hla : lookupActor s ck.actorId with _ | a
  · rw [hla] at h
    exact Option.noConfusion h
  · rw [hla] at h
    exact ⟨a, rfl, h⟩

/-!  Field-effect facts for the cache, rigidbody-init and trace primitives -/

theorem setActor_fields (s : EngineState) (aid : Nat) (a : ActorSt) :
    (setActor s aid a).trace = s.trace ∧
    (setActor s aid a).frameNumber = s.frameNumber ∧
    (setActor s aid a).id_ctr = s.id_ctr ∧
    (setActor s aid a).on_start_cache = s.on_start_cache ∧
    (setActor s aid a).on_update_cache = s.on_update_cache ∧
    (setActor s aid a).on_late_update_cache = s.on_late_update_cache ∧
    (setActor s aid a).actors_to_destroy = s.actors_to_destroy :=
  ⟨rfl, rfl, rfl, rfl, rfl, rfl, rfl⟩

theorem setComp_fields (s : EngineState) (ck : CompKey) (c : Comp) :
    (setComp s ck c).trace = s.trace ∧
    (setComp s ck c).frameNumber = s.frameNumber ∧
    (setComp s ck c).id_ctr = s.id_ctr ∧
    (setComp s ck c).on_start_cache = s.on_start_cache ∧
    (setComp s ck c).on_update_cache = s.on_update_cache ∧
    (setComp s ck c).on_late_update_cache = s.on_late_update_cache ∧
    (setComp s ck c).actors_to_destroy = s.actors_to_destroy := by
  unfold setComp
  rcases lookupActor s ck.actorId with _ | a
  · exact ⟨rfl, rfl, rfl, rfl, rfl, rfl, rfl⟩
  · exact ⟨rfl, rfl, rfl, rfl, rfl, rfl, rfl⟩

theorem addComponentToCaches_fields (s : EngineState) (aid : Nat) (key : String)
    (c : Comp) :
    (addComponentToCaches s aid key c).trace = s.trace ∧
    (addComponentToCaches s aid key c).frameNumber = s.frameNumber ∧
    (addComponentToCaches s aid key c).id_ctr = s.id_ctr ∧
    (addComponentToCaches s aid key c).actors = s.actors ∧
    (addComponentToCaches s aid key c).actors_to_destroy = s.actors_to_destroy := by
  unfold addComponentToCaches
  split
  · exact ⟨rfl, rfl, rfl, rfl, rfl⟩
  · split
    · exact ⟨rfl, rfl, rfl, rfl, rfl⟩
    · dsimp only
      split <;> split <;> split <;> exact ⟨rfl, rfl, rfl, rfl, rfl⟩

theorem removeComponentFromCaches_fields (s : EngineState) (aid : Nat)
    (key : String) :
    (removeComponentFromCaches s aid key).trace = s.trace ∧
    (removeComponentFromCaches s aid key).frameNumber = s.frameNumber ∧
    (removeComponentFromCaches s aid key).id_ctr = s.id_ctr ∧
    (removeComponentFromCaches s aid key).actors = s.actors ∧
    (removeComponentFromCaches s aid key).actors_to_destroy = s.actors_to_destroy :=
  ⟨rfl, rfl, rfl, rfl, rfl⟩

/-!  ### Event-emission specifications

EvSpec P f: running f appends to the trace only events P allows at the
current frame, and leaves the frame counter unchanged.  This captures, per
scheduler operation, which callback invocations and error lines it can
record — the backbone of the fault-isolation and suppression claims. -/

def EvSpec (P : Nat → Ev → Prop) (f : EngineState → EngineState) : Prop :=
  ∀ s, ∃ δ, (f s).trace = s.trace ++ δ ∧ (f s).frameNumber = s.frameNumber ∧
    ∀ e ∈ δ, P s.frameNumber e

/-- Destroy-dispatch events: OnDestroy callbacks and caught-error log lines. -/
def evD (N : Nat) (e : Ev) : Prop :=
  (∃ aid k, e = Ev.callback CbKind.destroy aid k N) ∨ ∃ nm, e = Ev.errorLogged nm N

/-- Events one scripted-callback invocation at (kd, aid, key) can record: the
    invocation itself plus anything its API commands emit. -/
def evCb (kd : CbKind) (aid : Nat) (key : String) (N : Nat) (e : Ev) : Prop :=
  e = Ev.callback kd aid key N ∨ evD N e

/-- Events one whole dispatch pass of kind kd can record. -/
def evK (kd : CbKind) (N : Nat) (e : Ev) : Prop :=
  (∃ aid key, e = Ev.callback kd aid key N) ∨ evD N e

theorem evSpec_pure {P : Nat → Ev → Prop} {f : EngineState → EngineState}
    (h : ∀ s, (f s).trace = s.trace ∧ (f s).frameNumber = s.frameNumber) :
    EvSpec P f :=
  fun s => ⟨[], by simp [(h s).1], (h s).2, by simp⟩

theorem evSpec_comp {P : Nat → Ev → Prop} {f g : EngineState → EngineState}
    (hf : EvSpec P f) (hg : EvSpec P g) : EvSpec P (fun s => g (f s)) := by
  intro s
  obtain ⟨δ1, h1, hf1, hp1⟩ := hf s
  obtain ⟨δ2, h2, hf2, hp2⟩ := hg (f s)
  refine ⟨δ1 ++ δ2, ?_, ?_, ?_⟩
  · rw [h2, h1, List.append_assoc]
  · rw [hf2, hf1]
  · intro e he
    rcases List.mem_append.mp he with h | h
    · exact hp1 e h
    · have := hp2 e h
      rw [hf1] at this
      exact this

theorem evSpec_mono {P Q : Nat → Ev → Prop} {f : EngineState → EngineState}
    (hPQ : ∀ N e, P N e → Q N e) (h : EvSpec P f) : EvSpec Q f := by
  intro s
  obtain ⟨δ, h1, h2, h3⟩ := h s
  exact ⟨δ, h1, h2, fun e he => hPQ _ e (h3 e he)⟩

theorem evSpec_foldl {α : Type} {P : Nat → Ev → Prop}
    {g : EngineState → α → EngineState}
    (h : ∀ x, EvSpec P (fun s => g s x)) (l : List α) :
    EvSpec P (fun s => l.foldl g s) := by
  induction l with
  | nil => exact evSpec_pure (fun s => ⟨rfl, rfl⟩)
  | cons x t ih => exact evSpec_comp (h x) ih

theorem evD_to_evCb (kd : CbKind) (aid : Nat) (key : String) :
    ∀ N e, evD N e → evCb kd aid key N e := fun _ _ h => Or.inr h

theorem evCb_to_evK (kd : CbKind) (aid : Nat) (key : String) :
    ∀ N e, evCb kd aid key N e → evK kd N e := by
  intro N e h
  rcases h with h | h
  · exact Or.inl ⟨aid, key, h⟩
  · exact Or.inr h

theorem evSpec_destroyKeyStep (env : Env) (aid : Nat) (an key : String) :
    EvSpec evD (fun s => destroyKeyStep env aid an s key) := by
  intro s
  unfold destroyKeyStep
  dsimp only
  rcases hc : compAt s ⟨aid, key⟩ with _ | c <;> dsimp only
  · exact ⟨[], by simp, rfl, by simp⟩
  · by_cases hrg : (!c.isRigidbody && c.hasOnDestroy) = true
    · rw [if_pos hrg]
      rcases hr : env.raisesOf CbKind.destroy aid key with _ | n <;> dsimp only
      · refine ⟨[Ev.callback CbKind.destroy aid key s.frameNumber], ?_, ?_, ?_⟩
        · show (setComp (emitEv s _) _ _).trace = _
          rw [(setComp_fields _ _ _).1]
          rfl
        · show (setComp (emitEv s _) _ _).frameNumber = _
          rw [(setComp_fields _ _ _).2.1]
          rfl
        · intro e he
          simp only [List.mem_singleton] at he
          subst he
          exact Or.inl ⟨aid, key, rfl⟩
      · refine ⟨[Ev.callback CbKind.destroy aid key s.frameNumber,
          Ev.errorLogged an s.frameNumber], ?_, ?_, ?_⟩
        · show (setComp (emitEv (emitEv s _) _) _ _).trace = _
          rw [(setComp_fields _ _ _).1]
          show (s.trace ++ _) ++ _ = _
          rw [List.append_assoc]
          rfl
        · show (setComp (emitEv (emitEv s _) _) _ _).frameNumber = _
          rw [(setComp_fields _ _ _).2.1]
          rfl
        · intro e he
          simp only [List.mem_cons, List.mem_singleton, List.not_mem_nil, or_false] at he
          rcases he with rfl | rfl
          · exact Or.inl ⟨aid, key, rfl⟩
          · exact Or.inr ⟨an, rfl⟩
    · rw [if_neg hrg]
      refine ⟨[], ?_, ?_, by simp⟩
      · show (setComp s _ _).trace = _
        rw [(setComp_fields _ _ _).1]
        simp
      · show (setComp s _ _).frameNumber = _
        rw [(setComp_fields _ _ _).2.1]

theorem evSpec_DestroyActor (env : Env) (aid : Nat) :
    EvSpec evD (fun s => DestroyActor env s aid) := by
  intro s
  unfold DestroyActor
  dsimp only
  rcases hla : lookupActor s aid with _ | actor <;> dsimp only
  · exact ⟨[], by simp, rfl, by simp⟩
  · obtain ⟨δ, h1, h2, h3⟩ :=
      evSpec_foldl (evSpec_destroyKeyStep env aid actor.name)
        (List.insertionSort (fun x y => strLe x y = true) actor.component_keys)
        { setActor s aid { actor with destroyed := true } with
          actors_to_destroy :=
            (setActor s aid { actor with destroyed := true }).actors_to_destroy ++ [aid] }
    exact ⟨δ, h1, h2, h3⟩

theorem foldl_pure_tf {α : Type} {g : EngineState → α → EngineState}
    (h : ∀ t x, (g t x).trace = t.trace ∧ (g t x).frameNumber = t.frameNumber)
    (l : List α) (s : EngineState) :
    (l.foldl g s).trace = s.trace ∧ (l.foldl g s).frameNumber = s.frameNumber := by
  induction l generalizing s with
  | nil => exact ⟨rfl, rfl⟩
  | cons x t ih =>
    obtain ⟨ha, hb⟩ := ih (g s x)
    exact ⟨ha.trans (h s x).1, hb.trans (h s x).2⟩

theorem evSpec_InstantiateActor (P : Nat → Ev → Prop) (env : Env) (tmpl : String) :
    EvSpec P (fun s => InstantiateActor env s tmpl) := by
  apply evSpec_pure
  intro s
  unfold InstantiateActor
  dsimp only
  exact foldl_pure_tf
    (fun (t : EngineState) (p : String × Comp) =>
      ⟨(addComponentToCaches_fields t s.id_ctr p.1 p.2).1,
       (addComponentToCaches_fields t s.id_ctr p.1 p.2).2.1⟩) _ _

theorem evSpec_execCmd (env : Env) (c : Cmd) :
    EvSpec evD (fun s => execCmd env s c) := by
  cases c with
  | destroyActor aid => exact evSpec_DestroyActor env aid
  | instantiateActor t => exact evSpec_InstantiateActor evD env t
  | setEnabled aid key b =>
    apply evSpec_pure
    intro s
    unfold execCmd
    dsimp only
    rcases hc : compAt s ⟨aid, key⟩ with _ | c2 <;> dsimp only
    · exact ⟨rfl, rfl⟩
    · split
      · exact ⟨rfl, rfl⟩
      · exact ⟨(setComp_fields _ _ _).1, (setComp_fields _ _ _).2.1⟩
  | dontDestroy aid =>
    apply evSpec_pure
    intro s
    unfold execCmd
    dsimp only
    rcases hla : lookupActor s aid with _ | a <;> dsimp only
    · exact ⟨rfl, rfl⟩
    · exact ⟨rfl, rfl⟩
  | sceneLoad name => exact evSpec_pure (fun s => ⟨rfl, rfl⟩)
  | nop => exact evSpec_pure (fun s => ⟨rfl, rfl⟩)

theorem evSpec_cmds (env : Env) (cmds : List Cmd) :
    EvSpec evD (fun s => cmds.foldl (execCmd env) s) :=
  evSpec_foldl (evSpec_execCmd env) cmds

theorem evSpec_invoke (env : Env) (kd : CbKind) (aid : Nat) (key an : String) :
    EvSpec (evCb kd aid key) (fun s => invoke env kd s aid key an) := by
  intro s
  unfold invoke
  dsimp only
  rcases hr : env.raisesOf kd aid key with _ | n <;> dsimp only
  · obtain ⟨δ, h1, h2, h3⟩ := evSpec_cmds env (env.cmdsOf kd aid key)
      (emitEv s (.callback kd aid key s.frameNumber))
    refine ⟨Ev.callback kd aid key s.frameNumber :: δ, ?_, h2, ?_⟩
    · rw [h1]
      show (s.trace ++ [_]) ++ δ = _
      rw [List.append_assoc]
      rfl
    · intro e he
      simp only [List.mem_cons] at he
      rcases he with rfl | he
      · exact Or.inl rfl
      · exact Or.inr (h3 e he)
  · obtain ⟨δ, h1, h2, h3⟩ := evSpec_cmds env ((env.cmdsOf kd aid key).take n)
      (emitEv s (.callback kd aid key s.frameNumber))
    refine ⟨Ev.callback kd aid key s.frameNumber :: (δ ++ [Ev.errorLogged an s.frameNumber]),
      ?_, h2, ?_⟩
    · show _ ++ [Ev.errorLogged an s.frameNumber] = _
      rw [h1]
      show ((s.trace ++ [_]) ++ δ) ++ _ = _
      rw [List.append_assoc, List.append_assoc]
      rfl
    · intro e he
      simp only [List.mem_cons] at he
      rcases he with rfl | he
      · exact Or.inl rfl
      · rcases List.mem_append.mp he with h | h
        · exact Or.inr (h3 e h)
        · simp only [List.mem_singleton] at h
          subst h
          exact Or.inr (Or.inr ⟨an, rfl⟩)

theorem evSpec_startEntryStep (env : Env) (ck : CompKey) :
    EvSpec (evCb CbKind.start ck.actorId ck.key) (fun s => startEntryStep env s ck) := by
  intro s
  unfold startEntryStep
  dsimp only
  rcases hla : lookupActor s ck.actorId with _ | actor <;> dsimp only
  · exact ⟨[], by simp, rfl, by simp⟩
  · by_cases hd : actor.destroyed = true
    · rw [if_pos hd]
      exact ⟨[], by simp, rfl, by simp⟩
    · rw [if_neg hd]
      rcases hcc : actor.components.lookup ck.key with _ | c <;> dsimp only
      · exact ⟨[], by simp, rfl, by simp⟩
      · by_cases h1 : (!c.luaEnabled || c.luaOnStart) = true
        · rw [if_pos h1]
          exact ⟨[], by simp, rfl, by simp⟩
        · rw [if_neg h1]
          by_cases h2 : ((c.luaFrameAdded == some s.frameNumber) && c.luaNewAddition) = true
          · rw [if_pos h2]
            exact ⟨[], by simp, rfl, by simp⟩
          · rw [if_neg h2]
            obtain ⟨δ, ht, hf, hp⟩ := evSpec_invoke env CbKind.start ck.actorId ck.key actor.name s
            rcases hc1 : compAt (invoke env CbKind.start s ck.actorId ck.key actor.name) ck
              with _ | c2 <;> dsimp only
            · exact ⟨δ, ht, hf, hp⟩
            · refine ⟨δ, ?_, ?_, hp⟩
              · rw [(setComp_fields _ _ _).1]
                exact ht
              · rw [(setComp_fields _ _ _).2.1]
                exact hf

theorem evSpec_updateEntryStep (env : Env) (ck : CompKey) :
    EvSpec (evCb CbKind.update ck.actorId ck.key) (fun s => updateEntryStep env s ck) := by
  intro s
  unfold updateEntryStep
  dsimp only
  by_cases hcont : (!(s.on_update_cache.contains ck)) = true
  · rw [if_pos hcont]
    exact ⟨[], by simp, rfl, by simp⟩
  · rw [if_neg hcont]
    rcases hla : lookupActor s ck.actorId with _ | actor <;> dsimp only
    · exact ⟨[], by simp, rfl, by simp⟩
    · by_cases hd : actor.destroyed = true
      · rw [if_pos hd]
        exact ⟨[], by simp, rfl, by simp⟩
      · rw [if_neg hd]
        rcases hcc : actor.components.lookup ck.key with _ | c <;> dsimp only
        · exact ⟨[], by simp, rfl, by simp⟩
        · by_cases h0 : c.isRigidbody = true
          · rw [if_pos h0]
            exact ⟨[], by simp, rfl, by simp⟩
          · rw [if_neg h0]
            by_cases h1 : (!c.luaEnabled) = true
            · rw [if_pos h1]
              exact ⟨[], by simp, rfl, by simp⟩
            · rw [if_neg h1]
              by_cases h2 : ((c.luaFrameAdded == some s.frameNumber) && c.luaNewAddition) = true
              · rw [if_pos h2]
                exact ⟨[], by simp, rfl, by simp⟩
              · rw [if_neg h2]
                exact evSpec_invoke env CbKind.update ck.actorId ck.key actor.name s

theorem evSpec_lateEntryStep (env : Env) (ck : CompKey) :
    EvSpec (evCb CbKind.lateUpdate ck.actorId ck.key) (fun s => lateEntryStep env s ck) := by
  intro s
  unfold lateEntryStep
  dsimp only
  by_cases hcont : (!(s.on_late_update_cache.contains ck)) = true
  · rw [if_pos hcont]
    exact ⟨[], by simp, rfl, by simp⟩
  · rw [if_neg hcont]
    rcases hla : lookupActor s ck.actorId with _ | actor <;> dsimp only
    · exact ⟨[], by simp, rfl, by simp⟩
    · by_cases hd : actor.destroyed = true
      · rw [if_pos hd]
        exact ⟨[], by simp, rfl, by simp⟩
      · rw [if_neg hd]
        rcases hcc : actor.components.lookup ck.key with _ | c <;> dsimp only
        · exact ⟨[], by simp, rfl, by simp⟩
        · by_cases h1 : (!c.luaEnabled) = true
          · rw [if_pos h1]
            exact ⟨[], by simp, rfl, by simp⟩
          · rw [if_neg h1]
            by_cases h2 : ((c.luaFrameAdded == some s.frameNumber) && c.luaNewAddition) = true
            · rw [if_pos h2]
              exact ⟨[], by simp, rfl, by simp⟩
            · rw [if_neg h2]
              exact evSpec_invoke env CbKind.lateUpdate ck.actorId ck.key actor.name s

theorem evSpec_ProcessSceneOnStart (env : Env) :
    EvSpec (evK CbKind.start) (fun s => ProcessSceneOnStart env s) := by
  intro s
  unfold ProcessSceneOnStart
  dsimp only
  by_cases he : s.on_start_cache.isEmpty = true
  · rw [if_pos he]
    exact ⟨[], by simp, rfl, by simp⟩
  · rw [if_neg he]
    exact evSpec_foldl
      (fun ck => evSpec_mono (evCb_to_evK CbKind.start ck.actorId ck.key)
        (evSpec_startEntryStep env ck)) s.on_start_cache
      { s with on_start_cache := [] }

theorem evSpec_ProcessSceneUpdate (env : Env) :
    EvSpec (evK CbKind.update) (fun s => ProcessSceneUpdate env s) := by
  intro s
  unfold ProcessSceneUpdate
  dsimp only
  by_cases he : s.on_update_cache.isEmpty = true
  · rw [if_pos he]
    exact ⟨[], by simp, rfl, by simp⟩
  · rw [if_neg he]
    exact evSpec_foldl
      (fun ck => evSpec_mono (evCb_to_evK CbKind.update ck.actorId ck.key)
        (evSpec_updateEntryStep env ck)) s.on_update_cache s

theorem evSpec_ProcessSceneLateUpdate (env : Env) :
    EvSpec (evK CbKind.lateUpdate) (fun s => ProcessSceneLateUpdate env s) := by
  intro s
  unfold ProcessSceneLateUpdate
  dsimp only
  by_cases he : s.on_late_update_cache.isEmpty = true
  · rw [if_pos he]
    exact ⟨[], by simp, rfl, by simp⟩
  · rw [if_neg he]
    exact evSpec_foldl
      (fun ck => evSpec_mono (evCb_to_evK CbKind.lateUpdate ck.actorId ck.key)
        (evSpec_lateEntryStep env ck)) s.on_late_update_cache s

/-!  ### Skip branches of the dispatch loops -/

theorem luaFrameAdded_not_rigid (c : Comp) (n : Nat)
    (h : c.luaFrameAdded = some n) : c.isRigidbody = false := by
  unfold Comp.luaFrameAdded at h
  rcases hr : c.isRigidbody with _ | _
  · rfl
  · rw [hr] at h
    simp at h

/-- Creation-frame suppression in the update pass: a component stamped with
    the current frame and new_addition is skipped — the step is the
    identity. -/
theorem updateEntryStep_suppressed (env : Env) (s : EngineState) (ck : CompKey)
    (c : Comp) (hc : compAt s ck = some c)
    (hf : c.luaFrameAdded = some s.frameNumber) (hn : c.luaNewAddition = true) :
    updateEntryStep env s ck = s := by
  unfold updateEntryStep
  by_cases hcont : (!(s.on_update_cache.contains ck)) = true
  · rw [if_pos hcont]
  · rw [if_neg hcont]
    obtain ⟨actor, hla, hcc⟩ := compAt_of_some s ck c hc
    rw [hla]
    dsimp only
    by_cases hd : actor.destroyed = true
    · rw [if_pos hd]
    · rw [if_neg hd, hcc]
      dsimp only
      have hrg : c.isRigidbody = false := luaFrameAdded_not_rigid c _ hf
      rw [if_neg (by simp [hrg])]
      by_cases h1 : (!c.luaEnabled) = true
      · rw [if_pos h1]
      · rw [if_neg h1, if_pos (by simp [hf, hn])]

/-- Creation-frame suppression in the late-update pass. -/
theorem lateEntryStep_suppressed (env : Env) (s : EngineState) (ck : CompKey)
    (c : Comp) (hc : compAt s ck = some c)
    (hf : c.luaFrameAdded = some s.frameNumber) (hn : c.luaNewAddition = true) :
    lateEntryStep env s ck = s := by
  unfold lateEntryStep
  by_cases hcont : (!(s.on_late_update_cache.contains ck)) = true
  · rw [if_pos hcont]
  · rw [if_neg hcont]
    obtain ⟨actor, hla, hcc⟩ := compAt_of_some s ck c hc
    rw [hla]
    dsimp only
    by_cases hd : actor.destroyed = true
    · rw [if_pos hd]
    · rw [if_neg hd, hcc]
      dsimp only
      by_cases h1 : (!c.luaEnabled) = true
      · rw [if_pos h1]
      · rw [if_neg h1, if_pos (by simp [hf, hn])]

/-- Creation-frame suppression in the start pass: the skipped entry leaves the
    state untouched (it has already been moved out of the cache). -/
theorem startEntryStep_suppressed (env : Env) (s : EngineState) (ck : CompKey)
    (c : Comp) (hc : compAt s ck = some c)
    (hf : c.luaFrameAdded = some s.frameNumber) (hn : c.luaNewAddition = true) :
    startEntryStep env s ck = s := by
  unfold startEntryStep
  obtain ⟨actor, hla, hcc⟩ := compAt_of_some s ck c hc
  rw [hla]
  dsimp only
  by_cases hd : actor.destroyed = true
  · rw [if_pos hd]
  · rw [if_neg hd, hcc]
    dsimp only
    by_cases h1 : (!c.luaEnabled || c.luaOnStart) = true
    · rw [if_pos h1]
    · rw [if_neg h1, if_pos (by simp [hf, hn])]

/-- A late-update entry whose actor is marked destroyed is skipped. -/
theorem lateEntryStep_destroyed (env : Env) (s : EngineState) (ck : CompKey)
    (actor : ActorSt) (hla : lookupActor s ck.actorId = some actor)
    (hd : actor.destroyed = true) : lateEntryStep env s ck = s := by
  unfold lateEntryStep
  by_cases hcont : (!(s.on_late_update_cache.contains ck)) = true
  · rw [if_pos hcont]
  · rw [if_neg hcont]
    rw [hla]
    dsimp only
    rw [if_pos hd]

/-!  ### The byte-lexicographic key order is total and transitive -/

theorem charListLe_total : ∀ a b : List Char,
    charListLe a b = true ∨ charListLe b a = true := by
  intro a
  induction a with
  | nil => intro b; left; rfl
  | cons x xs ih =>
    intro b
    cases b with
    | nil => right; rfl
    | cons y ys =>
      unfold charListLe
      by_cases h1 : x.toNat < y.toNat
      · left
        rw [if_pos h1]
      · by_cases h2 : y.toNat < x.toNat
        · right
          rw [if_pos h2]
        · simp only [if_neg h1, if_neg h2]
          exact ih ys

theorem charListLe_trans : ∀ a b c : List Char, charListLe a b = true →
    charListLe b c = true → charListLe a c = true := by
  intro a
  induction a with
  | nil => intro b c _ _; rfl
  | cons x xs ih =>
    intro b c hab hbc
    cases b with
    | nil => exact absurd hab (by simp [charListLe])
    | cons y ys =>
      cases c with
      | nil => exact absurd hbc (by simp [charListLe])
      | cons z zs =>
        unfold charListLe at hab hbc ⊢
        by_cases h1 : x.toNat < y.toNat
        · by_cases h2 : y.toNat < z.toNat
          · rw [if_pos (show x.toNat < z.toNat by omega)]
          · by_cases h3 : z.toNat < y.toNat
            · rw [if_neg h2, if_pos h3] at hbc
              exact absurd hbc (by simp)
            · rw [if_pos (show x.toNat < z.toNat by omega)]
        · by_cases h4 : y.toNat < x.toNat
          · rw [if_neg h1, if_pos h4] at hab
            exact absurd hab (by simp)
          · rw [if_neg h1, if_neg h4] at hab
            by_cases h2 : y.toNat < z.toNat
            · rw [if_pos (show x.toNat < z.toNat by omega)]
            · by_cases h3 : z.toNat < y.toNat
              · rw [if_neg h2, if_pos h3] at hbc
                exact absurd hbc (by simp)
              · rw [if_neg h2, if_neg h3] at hbc
                rw [if_neg (show ¬ x.toNat < z.toNat by omega),
                    if_neg (show ¬ z.toNat < x.toNat by omega)]
                exact ih ys zs hab hbc

instance : IsTotal String (fun x y => strLe x y = true) :=
  ⟨fun a b => charListLe_total a.data b.data⟩

instance : IsTrans String (fun x y => strLe x y = true) :=
  ⟨fun a b c hab hbc => charListLe_trans a.data b.data c.data hab hbc⟩

/-!  ### What one DestroyActor call records, key by key -/

/-- The observable events the DestroyActor per-key loop produces for one key,
    computed from the pre-call component map: the OnDestroy callback of a
    scripted component carrying the slot, plus the caught-error line when the
    body raises. -/
def destroyEvtsOf (env : Env) (aid : Nat) (aname : String) (fr : Nat)
    (actor : ActorSt) (k : String) : List Ev :=
  match actor.components.lookup k with
  | some c =>
    if !c.isRigidbody && c.hasOnDestroy then
      Ev.callback CbKind.destroy aid k fr ::
        (match env.raisesOf CbKind.destroy aid k with
         | some _ => [Ev.errorLogged aname fr]
         | none => [])
    else []
  | none => []

/-- The component key an OnDestroy callback event of actor aid carries. -/
def destroyKeyOf (aid : Nat) (e : Ev) : Option String :=
  match e with
  | Ev.callback CbKind.destroy a k _ => if a == aid then some k else none
  | _ => none

/-- Whether key k names a scripted component with an OnDestroy slot. -/
def scriptedDestroy (actor : ActorSt) (k : String) : Bool :=
  match actor.components.lookup k with
  | some c => !c.isRigidbody && c.hasOnDestroy
  | none => false

theorem compAt_removeComponentFromCaches (s : EngineState) (aid : Nat)
    (key : String) (ck : CompKey) :
    compAt (removeComponentFromCaches s aid key) ck = compAt s ck := rfl

theorem destroyKeyStep_compAt_ne (env : Env) (aid : Nat) (an key : String)
    (t : EngineState) (ck2 : CompKey) (h : ck2 ≠ ⟨aid, key⟩) :
    compAt (destroyKeyStep env aid an t key) ck2 = compAt t ck2 := by
  unfold destroyKeyStep
  rcases hc : compAt t ⟨aid, key⟩ with _ | c
  · rfl
  · dsimp only
    rw [compAt_removeComponentFromCaches, compAt_setComp_ne _ _ _ _ h]
    split
    · split <;> rfl
    · rfl

theorem destroyKeyStep_frame (env : Env) (aid : Nat) (an key : String)
    (t : EngineState) :
    (destroyKeyStep env aid an t key).frameNumber = t.frameNumber := by
  obtain ⟨δ, _, h2, _⟩ := evSpec_destroyKeyStep env aid an key t
  exact h2

theorem destroyKeyStep_trace (env : Env) (aid : Nat) (aname : String)
    (fr : Nat) (actor : ActorSt) (k : String) (t : EngineState)
    (hfr : t.frameNumber = fr)
    (hk : compAt t ⟨aid, k⟩ = actor.components.lookup k) :
    (destroyKeyStep env aid aname t k).trace =
      t.trace ++ destroyEvtsOf env aid aname fr actor k := by
  unfold destroyKeyStep destroyEvtsOf
  rw [hk]
  rcases hcl : actor.components.lookup k with _ | c <;> dsimp only
  · simp
  · by_cases hrg : (!c.isRigidbody && c.hasOnDestroy) = true
    · rw [if_pos hrg, if_pos hrg]
      rcases hr : env.raisesOf CbKind.destroy aid k with _ | n <;> dsimp only
      · show (setComp (emitEv t _) _ _).trace = _
        rw [(setComp_fields _ _ _).1]
        rw [hfr]
        rfl
      · show (setComp (emitEv (emitEv t _) _) _ _).trace = _
        rw [(setComp_fields _ _ _).1]
        show (t.trace ++ [Ev.callback CbKind.destroy aid k t.frameNumber]) ++
            [Ev.errorLogged aname t.frameNumber] = _
        rw [List.append_assoc, hfr]
        rfl
    · rw [if_neg hrg, if_neg hrg]
      show (setComp t _ _).trace = _
      rw [(setComp_fields _ _ _).1]
      simp

theorem destroy_fold_trace (env : Env) (aid : Nat) (aname : String) (fr : Nat)
    (actor : ActorSt) :
    ∀ (ks : List String) (t : EngineState), ks.Nodup → t.frameNumber = fr →
      (∀ k ∈ ks, compAt t ⟨aid, k⟩ = actor.components.lookup k) →
      (ks.foldl (destroyKeyStep env aid aname) t).trace =
        t.trace ++ (ks.map (destroyEvtsOf env aid aname fr actor)).join := by
  intro ks
  induction ks with
  | nil =>
    intro t _ _ _
    simp
  | cons k rest ih =>
    intro t hnd hfr hcomp
    rw [List.foldl_cons]
    rw [List.nodup_cons] at hnd
    have hk := hcomp k (List.mem_cons_self _ _)
    have hstep_comp : ∀ k2 ∈ rest,
        compAt (destroyKeyStep env aid aname t k) ⟨aid, k2⟩ =
          actor.components.lookup k2 := by
      intro k2 hk2
      have hne : (⟨aid, k2⟩ : CompKey) ≠ ⟨aid, k⟩ := by
        intro hEq
        apply hnd.1
        have : k2 = k := by cases hEq; rfl
        exact this ▸ hk2
      rw [destroyKeyStep_compAt_ne env aid aname k t _ hne]
      exact hcomp k2 (List.mem_cons_of_mem _ hk2)
    rw [ih (destroyKeyStep env aid aname t k)
        hnd.2 ((destroyKeyStep_frame env aid aname k t).trans hfr) hstep_comp]
    rw [destroyKeyStep_trace env aid aname fr actor k t hfr hk]
    rw [List.map_cons, List.append_assoc]
    rfl

/-- The full per-call characterization: DestroyActor on a live actor with
    duplicate-free component keys appends exactly the per-key OnDestroy events
    of the lexicographically sorted key copy. -/
theorem DestroyActor_trace (env : Env) (s : EngineState) (aid : Nat)
    (actor : ActorSt) (hla : lookupActor s aid = some actor)
    (hnd : actor.component_keys.Nodup) :
    (DestroyActor env s aid).trace = s.trace ++
      ((List.insertionSort (fun x y => strLe x y = true) actor.component_keys).map
        (destroyEvtsOf env aid actor.name s.frameNumber actor)).join := by
  unfold DestroyActor
  rw [hla]
  dsimp only
  have hperm := List.perm_insertionSort (fun x y => strLe x y = true) actor.component_keys
  have hnds : (List.insertionSort (fun x y => strLe x y = true) actor.component_keys).Nodup :=
    hperm.nodup_iff.mpr hnd
  set s2 : EngineState :=
    { setActor s aid { actor with destroyed := true } with
      actors_to_destroy :=
        (setActor s aid { actor with destroyed := true }).actors_to_destroy ++ [aid] }
    with hs2
  have hcomp : ∀ k ∈ List.insertionSort (fun x y => strLe x y = true) actor.component_keys,
      compAt s2 ⟨aid, k⟩ = actor.components.lookup k := by
    intro k _
    show compAt s2 ⟨aid, k⟩ = _
    have : compAt s2 ⟨aid, k⟩ = compAt (setActor s aid { actor with destroyed := true }) ⟨aid, k⟩ := rfl
    rw [this, compAt_setActor_sameComponents s aid actor { actor with destroyed := true } hla rfl]
    unfold compAt lookupActor
    rw [show List.lookup aid s.actors = some actor from hla]
    rfl
  exact destroy_fold_trace env aid actor.name s.frameNumber actor _ s2 hnds rfl hcomp

theorem destroyKeys_of_join (env : Env) (aid : Nat) (aname : String) (fr : Nat)
    (actor : ActorSt) (ks : List String) :
    ((ks.map (destroyEvtsOf env aid aname fr actor)).join).filterMap (destroyKeyOf aid) =
      ks.filter (scriptedDestroy actor) := by
  induction ks with
  | nil => rfl
  | cons k rest ih =>
    rw [List.map_cons]
    have hj : (destroyEvtsOf env aid aname fr actor k ::
        rest.map (destroyEvtsOf env aid aname fr actor)).join =
        destroyEvtsOf env aid aname fr actor k ++
          (rest.map (destroyEvtsOf env aid aname fr actor)).join := rfl
    rw [hj, List.filterMap_append, ih, List.filter_cons]
    unfold destroyEvtsOf scriptedDestroy
    rcases hcl : actor.components.lookup k with _ | c
    · simp
    · dsimp only
      by_cases hrg : (!c.isRigidbody && c.hasOnDestroy) = true
      · rw [if_pos hrg, if_pos hrg]
        rcases hr : env.raisesOf CbKind.destroy aid k with _ | n <;>
          simp [destroyKeyOf, List.filterMap_cons]
      · rw [if_neg hrg, if_neg hrg]
        simp

/-!  ### C5 -/

/-- An environment whose OnDestroy body raises for key B_0 only (so the
    witness run also shows the loop carrying on past a raising callback). -/
def destroySortEnv : Env where
  initialScene := "main"
  scenes := fun _ => ⟨[]⟩
  templates := fun _ => ⟨"T", []⟩
  cmdsOf := fun _ _ _ => []
  raisesOf := fun k _ key =>
    if k = CbKind.destroy && key = "B_0" then some 0 else none

/-- An actor whose OnDestroy-bearing keys were inserted out of lexicographic
    order, plus a native Rigidbody entry. -/
def c5actor : ActorSt :=
  ⟨"A", false, false,
    [("B_0", mkComp false false false true),
     ("A_0", mkComp false false false true),
     ("R", ⟨true, true, false, none, false, false, false, false, true⟩)],
    ["B_0", "A_0", "R"], []⟩

/-- A state holding just that actor. -/
def c5state : EngineState :=
  ⟨0, [(0, c5actor)], [0], [], [], [], [], [], [], false, 1, "", "main", [0], []⟩

/-- C5: "destroy callbacks always run in sorted order and exactly once per
    component".  Per single DestroyActor call on a live actor with
    duplicate-free component keys this holds: the call appends a block of
    events whose OnDestroy keys are exactly the lexicographically sorted copy
    of the actor's keys filtered to scripted components carrying the slot —
    pairwise sorted and duplicate-free (once per key).  (The claim's
    "exactly once" fails across calls: see the double-destroy
    counterexample.) -/
theorem destroy_callbacks_sorted_per_call :
    ∀ (env : Env) (s : EngineState) (aid : Nat) (actor : ActorSt),
      lookupActor s aid = some actor → actor.component_keys.Nodup →
      ∃ δ, (DestroyActor env s aid).trace = s.trace ++ δ ∧
        δ.filterMap (destroyKeyOf aid) =
          (List.insertionSort (fun x y => strLe x y = true) actor.component_keys).filter
            (scriptedDestroy actor) ∧
        (δ.filterMap (destroyKeyOf aid)).Pairwise (fun x y => strLe x y = true) ∧
        (δ.filterMap (destroyKeyOf aid)).Nodup := by
  intro env s aid actor hla hnd
  have hperm := List.perm_insertionSort (fun x y => strLe x y = true) actor.component_keys
  refine ⟨_, DestroyActor_trace env s aid actor hla hnd, ?_, ?_, ?_⟩
  · exact destroyKeys_of_join env aid actor.name s.frameNumber actor _
  · rw [destroyKeys_of_join env aid actor.name s.frameNumber actor _]
    exact List.Pairwise.sublist (List.filter_sublist _)
      (List.sorted_insertionSort (fun x y => strLe x y = true) actor.component_keys)
  · rw [destroyKeys_of_join env aid actor.name s.frameNumber actor _]
    exact List.Nodup.filter _ (hperm.nodup_iff.mpr hnd)

/-- C5 witness: the concrete destroy of c5actor (keys inserted as B_0, A_0, R;
    B_0's OnDestroy raises) — the recorded keys are exactly [A_0, B_0], sorted
    and duplicate-free. -/
theorem destroy_callbacks_sorted_per_call_witness :
    ∃ δ, (DestroyActor destroySortEnv c5state 0).trace = c5state.trace ++ δ ∧
      δ.filterMap (destroyKeyOf 0) =
        (List.insertionSort (fun x y => strLe x y = true) c5actor.component_keys).filter
          (scriptedDestroy c5actor) ∧
      (δ.filterMap (destroyKeyOf 0)).Pairwise (fun x y => strLe x y = true) ∧
      (δ.filterMap (destroyKeyOf 0)).Nodup :=
  destroy_callbacks_sorted_per_call destroySortEnv c5state 0 c5actor (by decide)
    (by decide)

/-!  ### C6: the dispatch loops never abort on a raising entry -/

/-- The conditions under which the update pass invokes an entry at its turn:
    still in the live cache, actor present and not destroyed, component
    present, scripted, enabled, and not creation-frame suppressed. -/
def updateEligible (s : EngineState) (ck : CompKey) : Prop :=
  s.on_update_cache.contains ck = true ∧
  ∃ actor c, lookupActor s ck.actorId = some actor ∧ actor.destroyed = false ∧
    actor.components.lookup ck.key = some c ∧ c.isRigidbody = false ∧
    c.luaEnabled = true ∧
    ((c.luaFrameAdded == some s.frameNumber) && c.luaNewAddition) = false

/-- The same for the late-update pass (no explicit userdata check in the
    source; comp["enabled"] reading nil covers it). -/
def lateEligible (s : EngineState) (ck : CompKey) : Prop :=
  s.on_late_update_cache.contains ck = true ∧
  ∃ actor c, lookupActor s ck.actorId = some actor ∧ actor.destroyed = false ∧
    actor.components.lookup ck.key = some c ∧ c.luaEnabled = true ∧
    ((c.luaFrameAdded == some s.frameNumber) && c.luaNewAddition) = false

/-- The conditions under which the start pass invokes a snapshot entry. -/
def startEligible (s : EngineState) (ck : CompKey) : Prop :=
  ∃ actor c, lookupActor s ck.actorId = some actor ∧ actor.destroyed = false ∧
    actor.components.lookup ck.key = some c ∧
    (!c.luaEnabled || c.luaOnStart) = false ∧
    ((c.luaFrameAdded == some s.frameNumber) && c.luaNewAddition) = false

theorem updateEntryStep_eligible (env : Env) (s : EngineState) (ck : CompKey)
    (h : updateEligible s ck) :
    ∃ actor, lookupActor s ck.actorId = some actor ∧
      updateEntryStep env s ck =
        invoke env CbKind.update s ck.actorId ck.key actor.name := by
  obtain ⟨hcont, actor, c, hla, hd, hcc, hrg, hen, hsup⟩ := h
  refine ⟨actor, hla, ?_⟩
  unfold updateEntryStep
  rw [if_neg (by rw [hcont]; decide), hla]
  dsimp only
  rw [if_neg (by simp [hd]), hcc]
  dsimp only
  rw [if_neg (by simp [hrg]), if_neg (by simp [hen]), if_neg (by simp [hsup])]

theorem lateEntryStep_eligible (env : Env) (s : EngineState) (ck : CompKey)
    (h : lateEligible s ck) :
    ∃ actor, lookupActor s ck.actorId = some actor ∧
      lateEntryStep env s ck =
        invoke env CbKind.lateUpdate s ck.actorId ck.key actor.name := by
  obtain ⟨hcont, actor, c, hla, hd, hcc, hen, hsup⟩ := h
  refine ⟨actor, hla, ?_⟩
  unfold lateEntryStep
  rw [if_neg (by rw [hcont]; decide), hla]
  dsimp only
  rw [if_neg (by simp [hd]), hcc]
  dsimp only
  rw [if_neg (by simp [hen]), if_neg (by simp [hsup])]

theorem invoke_mem (env : Env) (kd : CbKind) (s : EngineState) (aid : Nat)
    (key an : String) :
    Ev.callback kd aid key s.frameNumber ∈ (invoke env kd s aid key an).trace := by
  unfold invoke
  dsimp only
  rcases hr : env.raisesOf kd aid key with _ | n <;> dsimp only
  · obtain ⟨δ, h1, _, _⟩ := evSpec_cmds env (env.cmdsOf kd aid key)
      (emitEv s (.callback kd aid key s.frameNumber))
    rw [h1]
    show Ev.callback kd aid key s.frameNumber ∈ (s.trace ++ [_]) ++ δ
    simp
  · obtain ⟨δ, h1, _, _⟩ := evSpec_cmds env ((env.cmdsOf kd aid key).take n)
      (emitEv s (.callback kd aid key s.frameNumber))
    show Ev.callback kd aid key s.frameNumber ∈ _ ++ [Ev.errorLogged an s.frameNumber]
    rw [h1]
    show Ev.callback kd aid key s.frameNumber ∈ ((s.trace ++ [_]) ++ δ) ++ _
    simp

theorem invoke_raise_trace (env : Env) (kd : CbKind) (s : EngineState)
    (aid : Nat) (key an : String) (n : Nat)
    (hr : env.raisesOf kd aid key = some n) :
    ∃ δ, (invoke env kd s aid key an).trace = s.trace ++
      Ev.callback kd aid key s.frameNumber :: δ ++
        [Ev.errorLogged an s.frameNumber] := by
  unfold invoke
  rw [hr]
  dsimp only
  obtain ⟨δ, h1, _, _⟩ := evSpec_cmds env ((env.cmdsOf kd aid key).take n)
    (emitEv s (.callback kd aid key s.frameNumber))
  refine ⟨δ, ?_⟩
  show _ ++ [Ev.errorLogged an s.frameNumber] = _
  rw [h1]
  show ((s.trace ++ [Ev.callback kd aid key s.frameNumber]) ++ δ) ++ _ = _
  simp

theorem updateEntryStep_raise (env : Env) (s : EngineState) (ck : CompKey)
    (n : Nat) (h : updateEligible s ck)
    (hr : env.raisesOf CbKind.update ck.actorId ck.key = some n) :
    ∃ actor δ, lookupActor s ck.actorId = some actor ∧
      (updateEntryStep env s ck).trace = s.trace ++
        Ev.callback CbKind.update ck.actorId ck.key s.frameNumber :: δ ++
          [Ev.errorLogged actor.name s.frameNumber] := by
  obtain ⟨actor, hla, hstep⟩ := updateEntryStep_eligible env s ck h
  obtain ⟨δ, hδ⟩ := invoke_raise_trace env CbKind.update s ck.actorId ck.key actor.name n hr
  refine ⟨actor, δ, hla, ?_⟩
  rw [hstep]
  exact hδ

theorem processUpdate_mem (env : Env) (s : EngineState) (l1 : List CompKey)
    (ck : CompKey) (l2 : List CompKey)
    (hsnap : s.on_update_cache = l1 ++ ck :: l2)
    (helig : updateEligible (l1.foldl (updateEntryStep env) s) ck) :
    Ev.callback CbKind.update ck.actorId ck.key s.frameNumber ∈
      (ProcessSceneUpdate env s).trace := by
  unfold ProcessSceneUpdate
  have hne : s.on_update_cache.isEmpty = false := by
    rw [hsnap]
    cases l1 <;> rfl
  rw [if_neg (by simp [hne]), hsnap, List.foldl_append, List.foldl_cons]
  have hfr : (l1.foldl (updateEntryStep env) s).frameNumber = s.frameNumber := by
    obtain ⟨δ, _, h2, _⟩ :=
      evSpec_foldl (fun ck2 => evSpec_mono (evCb_to_evK CbKind.update ck2.actorId ck2.key) (evSpec_updateEntryStep env ck2)) l1 s
    exact h2
  obtain ⟨actor, hla, hstep⟩ :=
    updateEntryStep_eligible env (l1.foldl (updateEntryStep env) s) ck helig
  rw [hstep]
  have hmem := invoke_mem env CbKind.update (l1.foldl (updateEntryStep env) s)
    ck.actorId ck.key actor.name
  rw [hfr] at hmem
  obtain ⟨δ2, h2, _, _⟩ :=
    evSpec_foldl (fun ck2 => evSpec_mono (evCb_to_evK CbKind.update ck2.actorId ck2.key) (evSpec_updateEntryStep env ck2)) l2
      (invoke env CbKind.update (l1.foldl (updateEntryStep env) s)
        ck.actorId ck.key actor.name)
  rw [h2]
  exact List.mem_append.mpr (Or.inl hmem)

theorem processLate_mem (env : Env) (s : EngineState) (l1 : List CompKey)
    (ck : CompKey) (l2 : List CompKey)
    (hsnap : s.on_late_update_cache = l1 ++ ck :: l2)
    (helig : lateEligible (l1.foldl (lateEntryStep env) s) ck) :
    Ev.callback CbKind.lateUpdate ck.actorId ck.key s.frameNumber ∈
      (ProcessSceneLateUpdate env s).trace := by
  unfold ProcessSceneLateUpdate
  have hne : s.on_late_update_cache.isEmpty = false := by
    rw [hsnap]
    cases l1 <;> rfl
  rw [if_neg (by simp [hne]), hsnap, List.foldl_append, List.foldl_cons]
  have hfr : (l1.foldl (lateEntryStep env) s).frameNumber = s.frameNumber := by
    obtain ⟨δ, _, h2, _⟩ :=
      evSpec_foldl (fun ck2 => evSpec_mono (evCb_to_evK CbKind.lateUpdate ck2.actorId ck2.key) (evSpec_lateEntryStep env ck2)) l1 s
    exact h2
  obtain ⟨actor, hla, hstep⟩ :=
    lateEntryStep_eligible env (l1.foldl (lateEntryStep env) s) ck helig
  rw [hstep]
  have hmem := invoke_mem env CbKind.lateUpdate (l1.foldl (lateEntryStep env) s)
    ck.actorId ck.key actor.name
  rw [hfr] at hmem
  obtain ⟨δ2, h2, _, _⟩ :=
    evSpec_foldl (fun ck2 => evSpec_mono (evCb_to_evK CbKind.lateUpdate ck2.actorId ck2.key) (evSpec_lateEntryStep env ck2)) l2
      (invoke env CbKind.lateUpdate (l1.foldl (lateEntryStep env) s)
        ck.actorId ck.key actor.name)
  rw [h2]
  exact List.mem_append.mpr (Or.inl hmem)

theorem startEntryStep_eligible_mem (env : Env) (s : EngineState) (ck : CompKey)
    (h : startEligible s ck) :
    Ev.callback CbKind.start ck.actorId ck.key s.frameNumber ∈
      (startEntryStep env s ck).trace := by
  obtain ⟨actor, c, hla, hd, hcc, hen, hsup⟩ := h
  unfold startEntryStep
  rw [hla]
  dsimp only
  rw [if_neg (by simp [hd]), hcc]
  dsimp only
  rw [if_neg (by simp [hen]), if_neg (by simp [hsup])]
  have hmem := invoke_mem env CbKind.start s ck.actorId ck.key actor.name
  rcases hc1 : compAt (invoke env CbKind.start s ck.actorId ck.key actor.name) ck
    with _ | c2 <;> dsimp only
  · exact hmem
  · rw [(setComp_fields _ _ _).1]
    exact hmem

theorem processStart_mem (env : Env) (s : EngineState) (l1 : List CompKey)
    (ck : CompKey) (l2 : List CompKey)
    (hsnap : s.on_start_cache = l1 ++ ck :: l2)
    (helig : startEligible
      (l1.foldl (startEntryStep env) { s with on_start_cache := [] }) ck) :
    Ev.callback CbKind.start ck.actorId ck.key s.frameNumber ∈
      (ProcessSceneOnStart env s).trace := by
  unfold ProcessSceneOnStart
  have hne : s.on_start_cache.isEmpty = false := by
    rw [hsnap]
    cases l1 <;> rfl
  rw [if_neg (by simp [hne]), hsnap, List.foldl_append, List.foldl_cons]
  have hfr : (l1.foldl (startEntryStep env) { s with on_start_cache := [] }).frameNumber
      = s.frameNumber := by
    obtain ⟨δ, _, h2, _⟩ :=
      evSpec_foldl (fun ck2 => evSpec_mono (evCb_to_evK CbKind.start ck2.actorId ck2.key) (evSpec_startEntryStep env ck2)) l1
        { s with on_start_cache := [] }
    exact h2
  have hmem := startEntryStep_eligible_mem env
    (l1.foldl (startEntryStep env) { s with on_start_cache := [] }) ck helig
  rw [hfr] at hmem
  obtain ⟨δ2, h2, _, _⟩ :=
    evSpec_foldl (fun ck2 => evSpec_mono (evCb_to_evK CbKind.start ck2.actorId ck2.key) (evSpec_startEntryStep env ck2)) l2
      (startEntryStep env
        (l1.foldl (startEntryStep env) { s with on_start_cache := [] }) ck)
  rw [h2]
  exact List.mem_append.mpr (Or.inl hmem)

theorem destroy_loop_isolated (env : Env) (s : EngineState) (aid : Nat)
    (actor : ActorSt) (hla : lookupActor s aid = some actor)
    (hnd : actor.component_keys.Nodup) (k : String)
    (hk : k ∈ actor.component_keys) (hsc : scriptedDestroy actor k = true) :
    Ev.callback CbKind.destroy aid k s.frameNumber ∈
      (DestroyActor env s aid).trace := by
  rw [DestroyActor_trace env s aid actor hla hnd]
  have hks : k ∈ List.insertionSort (fun x y => strLe x y = true) actor.component_keys :=
    (List.perm_insertionSort _ _).mem_iff.mpr hk
  refine List.mem_append.mpr (Or.inr (List.mem_join.mpr
    ⟨destroyEvtsOf env aid actor.name s.frameNumber actor k,
     List.mem_map_of_mem _ hks, ?_⟩))
  unfold destroyEvtsOf
  unfold scriptedDestroy at hsc
  rcases hcl : actor.components.lookup k with _ | c
  · rw [hcl] at hsc
    simp at hsc
  · rw [hcl] at hsc
    dsimp only
    rw [if_pos hsc]
    exact List.mem_cons_self _ _

/-- The raising environment of the C6 witness: actor 0's OnUpdate raises
    immediately; everything else runs normally. -/
def c6env : Env where
  initialScene := "main"
  scenes := fun _ => ⟨[]⟩
  templates := fun _ => ⟨"T", []⟩
  cmdsOf := fun _ _ _ => []
  raisesOf := fun k aid _ => if k = CbKind.update && aid = 0 then some 0 else none

/-- Witness actors: 0 raises in OnUpdate, 1 has a normal OnUpdate. -/
def c6actor0 : ActorSt :=
  ⟨"A", false, false, [("U_0", mkComp false true false false)], ["U_0"], []⟩

def c6actor1 : ActorSt :=
  ⟨"B", false, false, [("U_1", mkComp false true false false)], ["U_1"], []⟩

/-- A mid-frame state whose update cache holds both entries, raising one
    first. -/
def c6state : EngineState :=
  ⟨0, [(0, c6actor0), (1, c6actor1)], [0, 1], [], [], [],
    [], [⟨0, "U_0"⟩, ⟨1, "U_1"⟩], [], false, 2, "", "main", [0, 1], []⟩

/-- C6: each dispatch pass wraps every scripted callback in its own
    try/catch: an entry that is eligible at its turn is invoked (its event is
    in the pass's trace) no matter what earlier entries of the snapshot did —
    including raising a Lua error — for the update, late-update and start
    passes; a raising update entry still logs the owning actor's name right
    after its own invocation and the step completes; and the OnDestroy loop
    fires every scripted OnDestroy key of the actor even when other keys'
    callbacks raise. -/
theorem dispatch_fault_isolation :
    (∀ (env : Env) (s : EngineState) (l1 : List CompKey) (ck : CompKey)
        (l2 : List CompKey), s.on_update_cache = l1 ++ ck :: l2 →
        updateEligible (l1.foldl (updateEntryStep env) s) ck →
        Ev.callback CbKind.update ck.actorId ck.key s.frameNumber ∈
          (ProcessSceneUpdate env s).trace) ∧
    (∀ (env : Env) (s : EngineState) (ck : CompKey) (n : Nat),
        updateEligible s ck →
        env.raisesOf CbKind.update ck.actorId ck.key = some n →
        ∃ actor δ, lookupActor s ck.actorId = some actor ∧
          (updateEntryStep env s ck).trace = s.trace ++
            Ev.callback CbKind.update ck.actorId ck.key s.frameNumber :: δ ++
              [Ev.errorLogged actor.name s.frameNumber]) ∧
    (∀ (env : Env) (s : EngineState) (l1 : List CompKey) (ck : CompKey)
        (l2 : List CompKey), s.on_late_update_cache = l1 ++ ck :: l2 →
        lateEligible (l1.foldl (lateEntryStep env) s) ck →
        Ev.callback CbKind.lateUpdate ck.actorId ck.key s.frameNumber ∈
          (ProcessSceneLateUpdate env s).trace) ∧
    (∀ (env : Env) (s : EngineState) (l1 : List CompKey) (ck : CompKey)
        (l2 : List CompKey), s.on_start_cache = l1 ++ ck :: l2 →
        startEligible (l1.foldl (startEntryStep env) { s with on_start_cache := [] }) ck →
        Ev.callback CbKind.start ck.actorId ck.key s.frameNumber ∈
          (ProcessSceneOnStart env s).trace) ∧
    (∀ (env : Env) (s : EngineState) (aid : Nat) (actor : ActorSt),
        lookupActor s aid = some actor → actor.component_keys.Nodup →
        ∀ k ∈ actor.component_keys, scriptedDestroy actor k = true →
        Ev.callback CbKind.destroy aid k s.frameNumber ∈
          (DestroyActor env s aid).trace) :=
  ⟨processUpdate_mem, updateEntryStep_raise, processLate_mem, processStart_mem,
   fun env s aid actor hla hnd k hk hsc =>
     destroy_loop_isolated env s aid actor hla hnd k hk hsc⟩

/-- C6 witness: with actor 0's OnUpdate raising first in the snapshot, actor
    1's OnUpdate is still invoked in the same pass. -/
theorem dispatch_fault_isolation_witness :
    Ev.callback CbKind.update 1 "U_1" 0 ∈ (ProcessSceneUpdate c6env c6state).trace :=
  dispatch_fault_isolation.1 c6env c6state [⟨0, "U_0"⟩] ⟨1, "U_1"⟩ [] (by decide)
    ⟨by decide, c6actor1, mkComp false true false false,
     by decide, by decide, by decide, by decide, by decide, by decide⟩

/-!  ### C7: destroyed-and-queued is stable across the rest of the frame -/

/-- Facts that survive the rest of the frame once DestroyActor ran: the id is
    within the counter, the registry entry is marked destroyed, and the id
    sits in the reconciliation queue. -/
def C7Keep (aid : Nat) (f : EngineState → EngineState) : Prop :=
  ∀ s, aid < s.id_ctr → (∃ a, lookupActor s aid = some a ∧ a.destroyed = true) →
    aid ∈ s.actors_to_destroy →
    aid < (f s).id_ctr ∧
    (∃ a, lookupActor (f s) aid = some a ∧ a.destroyed = true) ∧
    aid ∈ (f s).actors_to_destroy

theorem c7_comp {aid : Nat} {f g : EngineState → EngineState} (hf : C7Keep aid f)
    (hg : C7Keep aid g) : C7Keep aid (fun s => g (f s)) := by
  intro s h1 h2 h3
  obtain ⟨h1', h2', h3'⟩ := hf s h1 h2 h3
  exact hg (f s) h1' h2' h3'

theorem c7_id (aid : Nat) : C7Keep aid (fun s => s) :=
  fun _ h1 h2 h3 => ⟨h1, h2, h3⟩

theorem c7_foldl {α : Type} {aid : Nat} {g : EngineState → α → EngineState}
    (h : ∀ x, C7Keep aid (fun s => g s x)) (l : List α) :
    C7Keep aid (fun s => l.foldl g s) := by
  induction l with
  | nil => exact c7_id aid
  | cons x t ih => exact c7_comp (h x) ih

theorem c7_emitEv (aid : Nat) (mk : EngineState → Ev) :
    C7Keep aid (fun s => emitEv s (mk s)) :=
  fun _ h1 h2 h3 => ⟨h1, h2, h3⟩

theorem lookupActor_setComp_destroyed (s : EngineState) (ck : CompKey)
    (c : Comp) (aid : Nat) (a : ActorSt) (ha : lookupActor s aid = some a) :
    ∃ a2, lookupActor (setComp s ck c) aid = some a2 ∧ a2.destroyed = a.destroyed := by
  unfold setComp
  rcases hla : lookupActor s ck.actorId with _ | a0
  · exact ⟨a, ha, rfl⟩
  · by_cases haid : aid = ck.actorId
    · have ha0 : a0 = a := by
        rw [haid] at ha
        rw [ha] at hla
        exact ((Option.some.injEq _ _).mp hla).symm
      refine ⟨{ a0 with components := assocSetS a0.components ck.key c }, ?_, by rw [ha0]⟩
      rw [haid]
      exact lookupActor_setActor_self s ck.actorId _
    · rw [lookupActor_setActor_ne s ck.actorId aid _ haid]
      exact ⟨a, ha, rfl⟩

theorem c7_setComp (aid : Nat) (ck : CompKey) (c : Comp) :
    C7Keep aid (fun s => setComp s ck c) := by
  intro s h1 h2 h3
  obtain ⟨a, ha, hd⟩ := h2
  obtain ⟨a2, ha2, hd2⟩ := lookupActor_setComp_destroyed s ck c aid a ha
  refine ⟨?_, ⟨a2, ha2, hd2.trans hd⟩, ?_⟩
  · rw [(setComp_fields s ck c).2.2.1]
    exact h1
  · rw [(setComp_fields s ck c).2.2.2.2.2.2]
    exact h3

theorem lookupActor_removeComponentFromCaches (s : EngineState) (aid2 : Nat)
    (key : String) (aid : Nat) :
    lookupActor (removeComponentFromCaches s aid2 key) aid = lookupActor s aid := rfl

theorem c7_destroyKeyStep (aid : Nat) (env : Env) (aid2 : Nat) (an key : String) :
    C7Keep aid (fun s => destroyKeyStep env aid2 an s key) := by
  intro s h1 h2 h3
  unfold destroyKeyStep
  dsimp only
  rcases hc : compAt s ⟨aid2, key⟩ with _ | c
  · exact ⟨h1, h2, h3⟩
  · dsimp only
    obtain ⟨a, ha, hd⟩ := h2
    obtain ⟨a2, ha2, hd2⟩ := lookupActor_setComp_destroyed
      (if (!c.isRigidbody && c.hasOnDestroy) = true then
        match env.raisesOf CbKind.destroy aid2 key with
        | some _ => emitEv (emitEv s (Ev.callback CbKind.destroy aid2 key s.frameNumber))
            (Ev.errorLogged an (emitEv s (Ev.callback CbKind.destroy aid2 key s.frameNumber)).frameNumber)
        | none => emitEv s (Ev.callback CbKind.destroy aid2 key s.frameNumber)
      else s) ⟨aid2, key⟩ { c with enabled := false } aid a
      (by split
          · split <;> exact ha
          · exact ha)
    refine ⟨?_, ⟨a2, ?_, hd2.trans hd⟩, ?_⟩
    · rw [(removeComponentFromCaches_fields _ _ _).2.2.1,
          (setComp_fields _ _ _).2.2.1]
      split
      · split <;> exact h1
      · exact h1
    · rw [lookupActor_removeComponentFromCaches]
      exact ha2
    · rw [(removeComponentFromCaches_fields _ _ _).2.2.2.2,
          (setComp_fields _ _ _).2.2.2.2.2.2]
      split
      · split <;> exact h3
      · exact h3

theorem c7_DestroyActor (aid : Nat) (env : Env) (aid2 : Nat) :
    C7Keep aid (fun s => DestroyActor env s aid2) := by
  intro s h1 h2 h3
  unfold DestroyActor
  dsimp only
  rcases hla : lookupActor s aid2 with _ | actor
  · exact ⟨h1, h2, h3⟩
  · dsimp only
    have hpre : aid < (setActor s aid2 { actor with destroyed := true }).id_ctr ∧
        (∃ a, lookupActor (setActor s aid2 { actor with destroyed := true }) aid = some a ∧
          a.destroyed = true) ∧
        aid ∈ (setActor s aid2 { actor with destroyed := true }).actors_to_destroy ++ [aid2] := by
      refine ⟨h1, ?_, List.mem_append_left _ h3⟩
      by_cases haid : aid = aid2
      · subst haid
        exact ⟨_, lookupActor_setActor_self s aid _, rfl⟩
      · obtain ⟨a, ha, hd⟩ := h2
        rw [lookupActor_setActor_ne s aid2 aid _ haid]
        exact ⟨a, ha, hd⟩
    exact c7_foldl (fun k => c7_destroyKeyStep aid env aid2 actor.name k)
      (List.insertionSort (fun x y => strLe x y = true) actor.component_keys)
      _ hpre.1 hpre.2.1 hpre.2.2

theorem foldl_pure3 {α : Type} {g : EngineState → α → EngineState}
    (h : ∀ t x, (g t x).actors = t.actors ∧ (g t x).id_ctr = t.id_ctr ∧
      (g t x).actors_to_destroy = t.actors_to_destroy)
    (l : List α) (s : EngineState) :
    (l.foldl g s).actors = s.actors ∧ (l.foldl g s).id_ctr = s.id_ctr ∧
      (l.foldl g s).actors_to_destroy = s.actors_to_destroy := by
  induction l generalizing s with
  | nil => exact ⟨rfl, rfl, rfl⟩
  | cons x t ih =>
    obtain ⟨ha, hb, hc⟩ := ih (g s x)
    exact ⟨ha.trans (h s x).1, hb.trans (h s x).2.1, hc.trans (h s x).2.2⟩

theorem c7_InstantiateActor (aid : Nat) (env : Env) (tmpl : String) :
    C7Keep aid (fun s => InstantiateActor env s tmpl) := by
  intro s h1 h2 h3
  unfold InstantiateActor
  dsimp only
  obtain ⟨hacts, hid, hq⟩ := foldl_pure3
    (fun t p => ⟨(addComponentToCaches_fields t s.id_ctr p.1 p.2).2.2.2.1,
      (addComponentToCaches_fields t s.id_ctr p.1 p.2).2.2.1,
      (addComponentToCaches_fields t s.id_ctr p.1 p.2).2.2.2.2⟩)
    ((env.templates tmpl).comps.map (fun p => (p.1, instComp s.frameNumber p.2))) _
  refine ⟨?_, ?_, ?_⟩
  · rw [hid]
    show aid < s.id_ctr + 1
    omega
  · obtain ⟨a, ha, hd⟩ := h2
    refine ⟨a, ?_, hd⟩
    show (_ : EngineState).actors.lookup aid = some a
    rw [hacts]
    show (assocSet s.actors s.id_ctr _).lookup aid = some a
    rw [lookup_assocSet_ne s.actors s.id_ctr aid _ (Nat.ne_of_lt h1)]
    exact ha
  · show aid ∈ (_ : EngineState).actors_to_destroy
    rw [hq]
    exact h3

theorem c7_execCmd (aid : Nat) (env : Env) (c : Cmd) :
    C7Keep aid (fun s => execCmd env s c) := by
  cases c with
  | destroyActor aid2 => exact c7_DestroyActor aid env aid2
  | instantiateActor t => exact c7_InstantiateActor aid env t
  | setEnabled aid2 key b =>
    intro s h1 h2 h3
    unfold execCmd
    dsimp only
    rcases hc : compAt s ⟨aid2, key⟩ with _ | c2
    · exact ⟨h1, h2, h3⟩
    · dsimp only
      split
      · exact ⟨h1, h2, h3⟩
      · exact c7_setComp aid ⟨aid2, key⟩ _ s h1 h2 h3
  | dontDestroy aid2 =>
    intro s h1 h2 h3
    unfold execCmd
    dsimp only
    rcases hla : lookupActor s aid2 with _ | a0
    · exact ⟨h1, h2, h3⟩
    · dsimp only
      refine ⟨h1, ?_, h3⟩
      obtain ⟨a, ha, hd⟩ := h2
      by_cases haid : aid = aid2
      · have ha0 : a0 = a := by
          rw [haid] at ha
          rw [ha] at hla
          exact ((Option.some.injEq _ _).mp hla).symm
        refine ⟨{ a0 with dont_destroy := true }, ?_, by rw [ha0]; exact hd⟩
        rw [haid]
        exact lookupActor_setActor_self s aid2 _
      · rw [lookupActor_setActor_ne s aid2 aid _ haid]
        exact ⟨a, ha, hd⟩
  | sceneLoad name => exact fun s h1 h2 h3 => ⟨h1, h2, h3⟩
  | nop => exact fun s h1 h2 h3 => ⟨h1, h2, h3⟩

theorem c7_invoke (aid : Nat) (env : Env) (kd : CbKind) (aid2 : Nat)
    (key an : String) : C7Keep aid (fun s => invoke env kd s aid2 key an) := by
  intro s h1 h2 h3
  unfold invoke
  dsimp only
  rcases hr : env.raisesOf kd aid2 key with _ | n <;> dsimp only
  · exact c7_foldl (fun c => c7_execCmd aid env c) (env.cmdsOf kd aid2 key)
      (emitEv s _) h1 h2 h3
  · exact (c7_foldl (fun c => c7_execCmd aid env c) ((env.cmdsOf kd aid2 key).take n)
      (emitEv s _) h1 h2 h3 : _)

theorem c7_lateEntryStep (aid : Nat) (env : Env) (ck : CompKey) :
    C7Keep aid (fun s => lateEntryStep env s ck) := by
  intro s h1 h2 h3
  unfold lateEntryStep
  dsimp only
  by_cases hcont : (!(s.on_late_update_cache.contains ck)) = true
  · rw [if_pos hcont]
    exact ⟨h1, h2, h3⟩
  · rw [if_neg hcont]
    rcases hla : lookupActor s ck.actorId with _ | actor
    · exact ⟨h1, h2, h3⟩
    · dsimp only
      by_cases hd : actor.destroyed = true
      · rw [if_pos hd]
        exact ⟨h1, h2, h3⟩
      · rw [if_neg hd]
        rcases hcc : actor.components.lookup ck.key with _ | c
        · exact ⟨h1, h2, h3⟩
        · dsimp only
          by_cases h4 : (!c.luaEnabled) = true
          · rw [if_pos h4]
            exact ⟨h1, h2, h3⟩
          · rw [if_neg h4]
            by_cases h5 : ((c.luaFrameAdded == some s.frameNumber) && c.luaNewAddition) = true
            · rw [if_pos h5]
              exact ⟨h1, h2, h3⟩
            · rw [if_neg h5]
              exact c7_invoke aid env CbKind.lateUpdate ck.actorId ck.key actor.name s h1 h2 h3

theorem c7_ProcessSceneLateUpdate (aid : Nat) (env : Env) :
    C7Keep aid (fun s => ProcessSceneLateUpdate env s) := by
  intro s h1 h2 h3
  unfold ProcessSceneLateUpdate
  dsimp only
  by_cases hie : s.on_late_update_cache.isEmpty = true
  · rw [if_pos hie]
    exact ⟨h1, h2, h3⟩
  · rw [if_neg hie]
    exact c7_foldl (fun ck => c7_lateEntryStep aid env ck) s.on_late_update_cache s h1 h2 h3

theorem lookupActor_setActor_keepflag (s : EngineState) (aid2 : Nat)
    (a0 a' : ActorSt) (hla : lookupActor s aid2 = some a0)
    (hpres : a'.destroyed = a0.destroyed) (aid : Nat) (a : ActorSt)
    (ha : lookupActor s aid = some a) :
    ∃ a2, lookupActor (setActor s aid2 a') aid = some a2 ∧
      a2.destroyed = a.destroyed := by
  by_cases haid : aid = aid2
  · have ha0 : a0 = a := by
      rw [haid] at ha
      rw [ha] at hla
      exact ((Option.some.injEq _ _).mp hla).symm
    refine ⟨a', ?_, by rw [hpres, ha0]⟩
    rw [haid]
    exact lookupActor_setActor_self s aid2 a'
  · rw [lookupActor_setActor_ne s aid2 aid a' haid]
    exact ⟨a, ha, rfl⟩

theorem c7_emits_only (aid : Nat) (f : EngineState → EngineState)
    (h : ∀ s, (f s).actors = s.actors ∧ (f s).id_ctr = s.id_ctr ∧
      (f s).actors_to_destroy = s.actors_to_destroy) : C7Keep aid f := by
  intro s h1 h2 h3
  obtain ⟨ha, hb, hc⟩ := h s
  obtain ⟨a, hla, hd⟩ := h2
  refine ⟨by rw [hb]; exact h1, ⟨a, ?_, hd⟩, by rw [hc]; exact h3⟩
  show (f s).actors.lookup aid = some a
  rw [ha]
  exact hla

theorem c7_removeCompKeyStep (aid : Nat) (env : Env) (aid2 : Nat)
    (an key : String) : C7Keep aid (fun s => removeCompKeyStep env aid2 an s key) := by
  intro s h1 h2 h3
  unfold removeCompKeyStep
  dsimp only
  rcases hc : compAt s ⟨aid2, key⟩ with _ | c <;> dsimp only
  · rcases hla : lookupActor s aid2 with _ | a0 <;> dsimp only
    · exact ⟨h1, h2, h3⟩
    · obtain ⟨a, ha, hd⟩ := h2
      obtain ⟨a2, ha2, hd2⟩ := lookupActor_setActor_keepflag s aid2 a0
        { a0 with
            component_keys := a0.component_keys.filter (fun k => !(k == key)),
            components := a0.components.filter (fun p => !(p.1 == key)) } hla rfl aid a ha
      exact ⟨h1, ⟨a2, ha2, hd2.trans hd⟩, h3⟩
  · by_cases hrg : (!c.isRigidbody && c.hasOnDestroy) = true
    · rw [if_pos hrg]
      rcases hr : env.raisesOf CbKind.destroy aid2 key with _ | n <;> dsimp only
      · rcases hla : lookupActor
            (emitEv s (Ev.callback CbKind.destroy aid2 key s.frameNumber)) aid2
          with _ | a0 <;> dsimp only
        · exact ⟨h1, h2, h3⟩
        · obtain ⟨a, ha, hd⟩ := h2
          obtain ⟨a2, ha2, hd2⟩ := lookupActor_setActor_keepflag
            (emitEv s (Ev.callback CbKind.destroy aid2 key s.frameNumber)) aid2 a0
            { a0 with
            component_keys := a0.component_keys.filter (fun k => !(k == key)),
            components := a0.components.filter (fun p => !(p.1 == key)) } hla rfl aid a ha
          exact ⟨h1, ⟨a2, ha2, hd2.trans hd⟩, h3⟩
      · rcases hla : lookupActor
            (emitEv (emitEv s (Ev.callback CbKind.destroy aid2 key s.frameNumber))
              (Ev.errorLogged an
                (emitEv s (Ev.callback CbKind.destroy aid2 key s.frameNumber)).frameNumber)) aid2
          with _ | a0 <;> dsimp only
        · exact ⟨h1, h2, h3⟩
        · obtain ⟨a, ha, hd⟩ := h2
          obtain ⟨a2, ha2, hd2⟩ := lookupActor_setActor_keepflag _ aid2 a0
            { a0 with
            component_keys := a0.component_keys.filter (fun k => !(k == key)),
            components := a0.components.filter (fun p => !(p.1 == key)) } hla rfl aid a ha
          exact ⟨h1, ⟨a2, ha2, hd2.trans hd⟩, h3⟩
    · rw [if_neg hrg]
      rcases hla : lookupActor s aid2 with _ | a0 <;> dsimp only
      · exact ⟨h1, h2, h3⟩
      · obtain ⟨a, ha, hd⟩ := h2
        obtain ⟨a2, ha2, hd2⟩ := lookupActor_setActor_keepflag s aid2 a0
          { a0 with
            component_keys := a0.component_keys.filter (fun k => !(k == key)),
            components := a0.components.filter (fun p => !(p.1 == key)) } hla rfl aid a ha
        exact ⟨h1, ⟨a2, ha2, hd2.trans hd⟩, h3⟩

theorem c7_RemoveActorComponents (aid : Nat) (env : Env) :
    C7Keep aid (fun s => RemoveActorComponents env s) := by
  intro s h1 h2 h3
  unfold RemoveActorComponents
  dsimp only
  refine c7_foldl (fun aid2 => ?_) (s.actors.map Prod.fst) s h1 h2 h3
  intro t g1 g2 g3
  dsimp only
  rcases hla : lookupActor t aid2 with _ | a <;> dsimp only
  · exact ⟨g1, g2, g3⟩
  · by_cases hie : a.components_to_remove.isEmpty = true
    · rw [if_pos hie]
      exact ⟨g1, g2, g3⟩
    · rw [if_neg hie]
      obtain ⟨g1', g2', g3'⟩ := c7_foldl
        (fun k => c7_removeCompKeyStep aid env aid2 a.name k)
        (List.insertionSort (fun x y => strLe x y = true) a.components_to_remove)
        t g1 g2 g3
      rcases hla1 : lookupActor
          ((List.insertionSort (fun x y => strLe x y = true)
            a.components_to_remove).foldl (removeCompKeyStep env aid2 a.name) t) aid2
        with _ | a1 <;> dsimp only
      · exact ⟨g1', g2', g3'⟩
      · obtain ⟨a2, ha2, hd2⟩ := g2'
        obtain ⟨a3, ha3, hd3⟩ := lookupActor_setActor_keepflag _ aid2 a1
          { a1 with components_to_remove := [] } hla1 rfl aid a2 ha2
        exact ⟨g1', ⟨a3, ha3, hd3.trans hd2⟩, g3'⟩

/-!  The RemoveActorComponents pass emits only destroy-dispatch events. -/

theorem evSpec_removeCompKeyStep (env : Env) (aid2 : Nat) (an key : String) :
    EvSpec evD (fun s => removeCompKeyStep env aid2 an s key) := by
  intro s
  unfold removeCompKeyStep
  dsimp only
  rcases hc : compAt s ⟨aid2, key⟩ with _ | c <;> dsimp only
  · rcases hla : lookupActor s aid2 with _ | a <;> dsimp only
    · exact ⟨[], by simp, rfl, by simp⟩
    · exact ⟨[], by rw [(setActor_fields _ _ _).1]; simp,
        (setActor_fields _ _ _).2.1, by simp⟩
  · by_cases hrg : (!c.isRigidbody && c.hasOnDestroy) = true
    · rw [if_pos hrg]
      rcases hr : env.raisesOf CbKind.destroy aid2 key with _ | n <;> dsimp only
      · rcases hla : lookupActor
            (emitEv s (Ev.callback CbKind.destroy aid2 key s.frameNumber)) aid2
          with _ | a <;> dsimp only
        · refine ⟨[Ev.callback CbKind.destroy aid2 key s.frameNumber], rfl, rfl, ?_⟩
          intro e he
          simp only [List.mem_singleton] at he
          subst he
          exact Or.inl ⟨aid2, key, rfl⟩
        · refine ⟨[Ev.callback CbKind.destroy aid2 key s.frameNumber], ?_, ?_, ?_⟩
          · rw [(setActor_fields _ _ _).1]
            rfl
          · rw [(setActor_fields _ _ _).2.1]
            rfl
          · intro e he
            simp only [List.mem_singleton] at he
            subst he
            exact Or.inl ⟨aid2, key, rfl⟩
      · rcases hla : lookupActor
            (emitEv (emitEv s (Ev.callback CbKind.destroy aid2 key s.frameNumber))
              (Ev.errorLogged an
                (emitEv s (Ev.callback CbKind.destroy aid2 key s.frameNumber)).frameNumber)) aid2
          with _ | a <;> dsimp only
        · refine ⟨[Ev.callback CbKind.destroy aid2 key s.frameNumber,
            Ev.errorLogged an s.frameNumber], ?_, rfl, ?_⟩
          · show (s.trace ++ [Ev.callback CbKind.destroy aid2 key s.frameNumber]) ++
                [Ev.errorLogged an s.frameNumber] = _
            rw [List.append_assoc]
            rfl
          · intro e he
            simp only [List.mem_cons, List.mem_singleton, List.not_mem_nil, or_false] at he
            rcases he with rfl | rfl
            · exact Or.inl ⟨aid2, key, rfl⟩
            · exact Or.inr ⟨an, rfl⟩
        · refine ⟨[Ev.callback CbKind.destroy aid2 key s.frameNumber,
            Ev.errorLogged an s.frameNumber], ?_, ?_, ?_⟩
          · rw [(setActor_fields _ _ _).1]
            show (s.trace ++ [Ev.callback CbKind.destroy aid2 key s.frameNumber]) ++
                [Ev.errorLogged an s.frameNumber] = _
            rw [List.append_assoc]
            rfl
          · rw [(setActor_fields _ _ _).2.1]
            rfl
          · intro e he
            simp only [List.mem_cons, List.mem_singleton, List.not_mem_nil, or_false] at he
            rcases he with rfl | rfl
            · exact Or.inl ⟨aid2, key, rfl⟩
            · exact Or.inr ⟨an, rfl⟩
    · rw [if_neg hrg]
      rcases hla : lookupActor s aid2 with _ | a <;> dsimp only
      · exact ⟨[], by simp, rfl, by simp⟩
      · exact ⟨[], by rw [(setActor_fields _ _ _).1]; simp,
          (setActor_fields _ _ _).2.1, by simp⟩

theorem evSpec_RemoveActorComponents (env : Env) :
    EvSpec evD (fun s => RemoveActorComponents env s) := by
  intro s
  unfold RemoveActorComponents
  dsimp only
  refine evSpec_foldl (fun aid2 => ?_) (s.actors.map Prod.fst) s
  intro t
  dsimp only
  rcases hla : lookupActor t aid2 with _ | a <;> dsimp only
  · exact ⟨[], by simp, rfl, by simp⟩
  · by_cases hie : a.components_to_remove.isEmpty = true
    · rw [if_pos hie]
      exact ⟨[], by simp, rfl, by simp⟩
    · rw [if_neg hie]
      obtain ⟨δ, h1, h2, h3⟩ := evSpec_foldl
        (fun k => evSpec_removeCompKeyStep env aid2 a.name k)
        (List.insertionSort (fun x y => strLe x y = true) a.components_to_remove) t
      rcases hla1 : lookupActor
          ((List.insertionSort (fun x y => strLe x y = true)
            a.components_to_remove).foldl (removeCompKeyStep env aid2 a.name) t) aid2
        with _ | a1 <;> dsimp only
      · exact ⟨δ, h1, h2, h3⟩
      · exact ⟨δ, by rw [(setActor_fields _ _ _).1]; exact h1,
          by rw [(setActor_fields _ _ _).2.1]; exact h2, h3⟩

/-!  The late pass adds no OnLateUpdate invocation for a destroyed actor -/

theorem late_fold_c7 (env : Env) (aid : Nat) :
    ∀ (l : List CompKey) (t : EngineState), aid < t.id_ctr →
      (∃ a, lookupActor t aid = some a ∧ a.destroyed = true) →
      aid ∈ t.actors_to_destroy →
      ∃ δ, (l.foldl (lateEntryStep env) t).trace = t.trace ++ δ ∧
        ∀ key n, Ev.callback CbKind.lateUpdate aid key n ∉ δ := by
  intro l
  induction l with
  | nil =>
    intro t _ _ _
    exact ⟨[], by simp, by simp⟩
  | cons e rest ih =>
    intro t h1 h2 h3
    rw [List.foldl_cons]
    by_cases he : e.actorId = aid
    · obtain ⟨a, ha, hd⟩ := h2
      have hstep : lateEntryStep env t e = t := by
        apply lateEntryStep_destroyed env t e a _ hd
        rw [he]
        exact ha
      rw [hstep]
      exact ih t h1 ⟨a, ha, hd⟩ h3
    · obtain ⟨δ1, ht1, hf1, hp1⟩ := evSpec_lateEntryStep env e t
      obtain ⟨h1', h2', h3'⟩ := c7_lateEntryStep aid env e t h1 h2 h3
      obtain ⟨δ2, ht2, hp2⟩ := ih (lateEntryStep env t e) h1' h2' h3'
      refine ⟨δ1 ++ δ2, ?_, ?_⟩
      · rw [ht2, ht1, List.append_assoc]
      · intro key n hmem
        rcases List.mem_append.mp hmem with hm | hm
        · rcases hp1 _ hm with hcb | hdd
          · have : aid = e.actorId := by
              simp only [Ev.callback.injEq] at hcb
              exact hcb.2.1
            exact he this.symm
          · rcases hdd with ⟨aid3, k3, hEq⟩ | ⟨nm, hEq⟩
            · simp at hEq
            · exact Ev.noConfusion hEq
        · exact hp2 key n hm

theorem late_pass_c7 (env : Env) (aid : Nat) (s : EngineState)
    (h1 : aid < s.id_ctr)
    (h2 : ∃ a, lookupActor s aid = some a ∧ a.destroyed = true)
    (h3 : aid ∈ s.actors_to_destroy) :
    ∃ δ, (ProcessSceneLateUpdate env s).trace = s.trace ++ δ ∧
      ∀ key n, Ev.callback CbKind.lateUpdate aid key n ∉ δ := by
  unfold ProcessSceneLateUpdate
  by_cases hie : s.on_late_update_cache.isEmpty = true
  · rw [if_pos hie]
    exact ⟨[], by simp, by simp⟩
  · rw [if_neg hie]
    exact late_fold_c7 env aid s.on_late_update_cache s h1 h2 h3

/-!  Reconciliation erases the queued id -/

theorem APD_trace (s : EngineState) :
    (ActorsPendingDestruction s).trace = s.trace := by
  unfold ActorsPendingDestruction
  split <;> rfl

theorem APD_removes (s : EngineState) (aid : Nat)
    (h3 : aid ∈ s.actors_to_destroy) :
    lookupActor (ActorsPendingDestruction s) aid = none := by
  unfold ActorsPendingDestruction
  have hne : s.actors_to_destroy.isEmpty = false := by
    cases hq : s.actors_to_destroy with
    | nil => rw [hq] at h3; exact absurd h3 (List.not_mem_nil aid)
    | cons x t => rfl
  rw [if_neg (by simp [hne])]
  show (s.actors.filter _).lookup aid = none
  apply lookup_filter_none
  intro v
  have hcont : s.actors_to_destroy.contains aid = true := by
    exact List.elem_eq_true_of_mem h3
  show (!(s.actors_to_destroy.contains aid)) = false
  rw [hcont]
  rfl

/-- The part of SceneDB::UpdateScene that follows the update pass: late
    pass, deferred component removal, reconciliation, pending id insertion and
    the physics step. -/
def updateSceneTail (env : Env) (s3 : EngineState) : EngineState :=
  let s4 := ProcessSceneLateUpdate env s3
  let s5 := RemoveActorComponents env s4
  let s6 := ActorsPendingDestruction (emitEv s5 (.reconcile s5.frameNumber))
  let s7 := { s6 with actor_id_vec := s6.actor_id_vec ++ s6.actors_to_add,
                      actors_to_add := [] }
  emitEv s7 (.physicsStep s7.frameNumber)

theorem tail_c7 (env : Env) (s3 : EngineState) (aid : Nat)
    (h1 : aid < s3.id_ctr)
    (h2 : ∃ a, lookupActor s3 aid = some a ∧ a.destroyed = true)
    (h3 : aid ∈ s3.actors_to_destroy) :
    (∀ key n, Ev.callback CbKind.lateUpdate aid key n ∈
        (updateSceneTail env s3).trace →
      Ev.callback CbKind.lateUpdate aid key n ∈ s3.trace) ∧
    lookupActor (updateSceneTail env s3) aid = none := by
  obtain ⟨δ4, hδ4, hno4⟩ := late_pass_c7 env aid s3 h1 h2 h3
  obtain ⟨h1', h2', h3'⟩ := c7_ProcessSceneLateUpdate aid env s3 h1 h2 h3
  obtain ⟨δ5, hδ5, hf5, hp5⟩ := evSpec_RemoveActorComponents env
    (ProcessSceneLateUpdate env s3)
  obtain ⟨h1'', h2'', h3''⟩ := c7_RemoveActorComponents aid env
    (ProcessSceneLateUpdate env s3) h1' h2' h3'
  have htr : (updateSceneTail env s3).trace =
      (((ProcessSceneLateUpdate env s3).trace ++ δ5) ++
        [Ev.reconcile (RemoveActorComponents env (ProcessSceneLateUpdate env s3)).frameNumber]) ++
        [Ev.physicsStep (ActorsPendingDestruction
          (emitEv (RemoveActorComponents env (ProcessSceneLateUpdate env s3))
            (Ev.reconcile (RemoveActorComponents env
              (ProcessSceneLateUpdate env s3)).frameNumber))).frameNumber] := by
    show (ActorsPendingDestruction _).trace ++ _ = _
    rw [APD_trace]
    show ((RemoveActorComponents env (ProcessSceneLateUpdate env s3)).trace ++ _) ++ _ = _
    rw [hδ5]
  constructor
  · intro key n hmem
    rw [htr] at hmem
    rcases List.mem_append.mp hmem with hm | hm
    swap
    · simp only [List.mem_singleton] at hm
      exact Ev.noConfusion hm
    rcases List.mem_append.mp hm with hm2 | hm2
    swap
    · simp only [List.mem_singleton] at hm2
      exact Ev.noConfusion hm2
    rcases List.mem_append.mp hm2 with hm3 | hm3
    swap
    · rcases hp5 _ hm3 with ⟨aid3, k3, hEq⟩ | ⟨nm, hEq⟩
      · simp at hEq
      · exact Ev.noConfusion hEq
    rw [hδ4] at hm3
    rcases List.mem_append.mp hm3 with hm4 | hm4
    · exact hm4
    · exact absurd hm4 (hno4 key n)
  · show lookupActor (ActorsPendingDestruction
        (emitEv (RemoveActorComponents env (ProcessSceneLateUpdate env s3))
          (Ev.reconcile (RemoveActorComponents env
            (ProcessSceneLateUpdate env s3)).frameNumber))) aid = none
    exact APD_removes _ aid h3''

theorem DestroyActor_marks (env : Env) (s : EngineState) (aid : Nat)
    (a : ActorSt) (ha : lookupActor s aid = some a) (hid : aid < s.id_ctr) :
    (∃ a2, lookupActor (DestroyActor env s aid) aid = some a2 ∧
      a2.destroyed = true) ∧ aid ∈ (DestroyActor env s aid).actors_to_destroy := by
  unfold DestroyActor
  rw [ha]
  dsimp only
  obtain ⟨g1, g2, g3⟩ := c7_foldl
    (fun k => c7_destroyKeyStep aid env aid a.name k)
    (List.insertionSort (fun x y => strLe x y = true) a.component_keys)
    { setActor s aid { a with destroyed := true } with
      actors_to_destroy :=
        (setActor s aid { a with destroyed := true }).actors_to_destroy ++ [aid] }
    hid ⟨{ a with destroyed := true }, lookupActor_setActor_self s aid _, rfl⟩
    (List.mem_append_right _ (List.mem_singleton.mpr rfl))
  exact ⟨g2, g3⟩

/-!  ### C7 witness scenario -/

/-- The witness actor: already marked destroyed mid-frame, with a late-update
    component entry still sitting in the late cache. -/
def c7actor : ActorSt :=
  ⟨"A", true, false, [("C_0", mkComp false true true false)], ["C_0"], []⟩

/-- The witness mid-frame state: actor 0 destroyed and queued, its entry still
    in the late-update cache. -/
def c7state : EngineState :=
  ⟨0, [(0, c7actor)], [0], [], [0], [], [], [], [⟨0, "C_0"⟩], false, 1, "",
    "main", [0], []⟩

/-- C7: a self-destroy from OnUpdate suppresses the actor's late-update in
    the same frame and the actor is gone from the registry at the frame's
    reconciliation point.  (a) UpdateScene is definitionally the update pass
    followed by updateSceneTail (late pass, component removal, reconciliation,
    id insertion, physics step); (b) the Actor.Destroy API command marks the
    registry entry destroyed and queues the id; (c) from any mid-frame state
    with the actor marked and queued, the rest of the frame adds no
    OnLateUpdate invocation of that actor and the reconciliation erases it
    from the registry. -/
theorem destroy_mid_update_no_late_update :
    (∀ (env : Env) (s : EngineState), UpdateScene env s =
        updateSceneTail env (ProcessSceneUpdate env (UpdateRigidbodyInits
          (if s.onstart_new then ProcessSceneOnStart env { s with onstart_new := false }
           else s)))) ∧
    (∀ (env : Env) (s : EngineState) (aid : Nat) (a : ActorSt),
        lookupActor s aid = some a → aid < s.id_ctr →
        (∃ a2, lookupActor (execCmd env s (Cmd.destroyActor aid)) aid = some a2 ∧
          a2.destroyed = true) ∧
        aid ∈ (execCmd env s (Cmd.destroyActor aid)).actors_to_destroy) ∧
    (∀ (env : Env) (s3 : EngineState) (aid : Nat), aid < s3.id_ctr →
        (∃ a, lookupActor s3 aid = some a ∧ a.destroyed = true) →
        aid ∈ s3.actors_to_destroy →
        (∀ key n, Ev.callback CbKind.lateUpdate aid key n ∈
            (updateSceneTail env s3).trace →
          Ev.callback CbKind.lateUpdate aid key n ∈ s3.trace) ∧
        lookupActor (updateSceneTail env s3) aid = none) :=
  ⟨fun _ _ => rfl,
   fun env s aid a ha hid => DestroyActor_marks env s aid a ha hid,
   fun env s3 aid h1 h2 h3 => tail_c7 env s3 aid h1 h2 h3⟩

/-!  ### C2: creation-frame bookkeeping survives the rest of the pass -/

/-- Scheduler bookkeeping a dispatch pass cannot change on a foreign
    component: userdata-ness, the creation-frame stamp, the new-addition flag
    and the started flag (only the entry's own start dispatch flips the
    latter). -/
def sameBk (c c2 : Comp) : Prop :=
  c2.isRigidbody = c.isRigidbody ∧ c2.frame_added = c.frame_added ∧
  c2.new_addition = c.new_addition ∧ c2.on_start = c.on_start

theorem sameBk_refl (c : Comp) : sameBk c c := ⟨rfl, rfl, rfl, rfl⟩

theorem sameBk_trans {a b c : Comp} (h1 : sameBk a b) (h2 : sameBk b c) :
    sameBk a c :=
  ⟨h2.1.trans h1.1, h2.2.1.trans h1.2.1, h2.2.2.1.trans h1.2.2.1,
   h2.2.2.2.trans h1.2.2.2⟩

/-- What every engine API command preserves about a pre-existing component
    entry ck: the id counter only grows, the frame stands still, the
    bookkeeping fields survive, and ck never (re)enters the start cache. -/
def StepPres (ck : CompKey) (f : EngineState → EngineState) : Prop :=
  ∀ s c, ck.actorId < s.id_ctr → compAt s ck = some c →
    s.id_ctr ≤ (f s).id_ctr ∧ (f s).frameNumber = s.frameNumber ∧
    (∃ c2, compAt (f s) ck = some c2 ∧ sameBk c c2) ∧
    (ck ∉ s.on_start_cache → ck ∉ (f s).on_start_cache)

theorem stepPres_comp {ck : CompKey} {f g : EngineState → EngineState}
    (hf : StepPres ck f) (hg : StepPres ck g) : StepPres ck (fun s => g (f s)) := by
  intro s c h1 h2
  obtain ⟨a1, a2, ⟨c2, a3, a4⟩, a5⟩ := hf s c h1 h2
  obtain ⟨b1, b2, ⟨c3, b3, b4⟩, b5⟩ := hg (f s) c2 (lt_of_lt_of_le h1 a1) a3
  exact ⟨le_trans a1 b1, b2.trans a2, ⟨c3, b3, sameBk_trans a4 b4⟩,
    fun h => b5 (a5 h)⟩

theorem stepPres_id (ck : CompKey) : StepPres ck (fun s => s) :=
  fun _ c h1 h2 => ⟨le_refl _, rfl, ⟨c, h2, sameBk_refl c⟩, fun h => h⟩

theorem stepPres_foldl {α : Type} {ck : CompKey}
    {g : EngineState → α → EngineState}
    (h : ∀ x, StepPres ck (fun s => g s x)) (l : List α) :
    StepPres ck (fun s => l.foldl g s) := by
  induction l with
  | nil => exact stepPres_id ck
  | cons x t ih => exact stepPres_comp (h x) ih

theorem stepPres_emitEv (ck : CompKey) (mk : EngineState → Ev) :
    StepPres ck (fun s => emitEv s (mk s)) :=
  fun _ c h1 h2 => ⟨le_refl _, rfl, ⟨c, h2, sameBk_refl c⟩, fun h => h⟩

theorem mem_cacheInsert (c : List CompKey) (k ck : CompKey)
    (h : ck ∈ cacheInsert c k) : ck ∈ c ∨ ck = k := by
  unfold cacheInsert at h
  split at h
  · exact Or.inl h
  · rcases List.mem_append.mp h with h2 | h2
    · exact Or.inl h2
    · exact Or.inr (List.mem_singleton.mp h2)

theorem not_mem_cacheErase (c : List CompKey) (k ck : CompKey)
    (h : ck ∉ c) : ck ∉ cacheErase c k :=
  fun hm => h (List.mem_of_mem_filter hm)

theorem addComponentToCaches_start_nonmem (s : EngineState) (aid : Nat)
    (key : String) (c : Comp) (ck : CompKey) (hne : ck ≠ ⟨aid, key⟩)
    (h : ck ∉ s.on_start_cache) :
    ck ∉ (addComponentToCaches s aid key c).on_start_cache := by
  unfold addComponentToCaches
  dsimp only
  split
  · exact h
  · split
    · exact h
    · split <;> split <;> split <;>
        first
        | exact h
        | (intro hm
           rcases mem_cacheInsert _ _ _ hm with h2 | h2
           · exact h h2
           · exact hne h2)

theorem stepPres_setComp_ne (ck ck2 : CompKey) (c0 : Comp) (hne : ck ≠ ck2) :
    StepPres ck (fun s => setComp s ck2 c0) := by
  intro s c h1 h2
  refine ⟨le_of_eq (setComp_fields s ck2 c0).2.2.1.symm,
    (setComp_fields s ck2 c0).2.1, ⟨c, ?_, sameBk_refl c⟩, ?_⟩
  · rw [compAt_setComp_ne s ck2 ck c0 hne]
    exact h2
  · rw [(setComp_fields s ck2 c0).2.2.2.1]
    exact fun h => h

theorem destroyKeyStep_id_ctr (env : Env) (aid2 : Nat) (an key : String)
    (t : EngineState) :
    (destroyKeyStep env aid2 an t key).id_ctr = t.id_ctr := by
  unfold destroyKeyStep
  rcases hc : compAt t ⟨aid2, key⟩ with _ | c
  · rfl
  · dsimp only
    rw [(removeComponentFromCaches_fields _ _ _).2.2.1,
        (setComp_fields _ _ _).2.2.1]
    split
    · split <;> rfl
    · rfl

theorem destroyKeyStep_start_nonmem (env : Env) (aid2 : Nat) (an key : String)
    (t : EngineState) (ck : CompKey) (h : ck ∉ t.on_start_cache) :
    ck ∉ (destroyKeyStep env aid2 an t key).on_start_cache := by
  unfold destroyKeyStep
  rcases hc : compAt t ⟨aid2, key⟩ with _ | c
  · exact h
  · dsimp only
    show ck ∉ cacheErase (setComp _ ⟨aid2, key⟩ _).on_start_cache ⟨aid2, key⟩
    apply not_mem_cacheErase
    rw [(setComp_fields _ _ _).2.2.2.1]
    split
    · split <;> exact h
    · exact h

theorem destroyKeyStep_compAt_same (env : Env) (aid2 : Nat) (an key : String)
    (t : EngineState) (cD : Comp) (hc : compAt t ⟨aid2, key⟩ = some cD) :
    compAt (destroyKeyStep env aid2 an t key) ⟨aid2, key⟩ =
      some { cD with enabled := false } := by
  unfold destroyKeyStep
  rw [hc]
  dsimp only
  rw [compAt_removeComponentFromCaches]
  obtain ⟨a, hla, _⟩ := compAt_of_some t ⟨aid2, key⟩ cD hc
  apply compAt_setComp_self
  show (_ : EngineState).actors.lookup aid2 = some a
  split
  · split <;> exact hla
  · exact hla

theorem stepPres_destroyKeyStep (ck : CompKey) (env : Env) (aid2 : Nat)
    (an key : String) : StepPres ck (fun s => destroyKeyStep env aid2 an s key) := by
  intro s c h1 h2
  refine ⟨le_of_eq (destroyKeyStep_id_ctr env aid2 an key s).symm,
    destroyKeyStep_frame env aid2 an key s, ?_,
    fun h => destroyKeyStep_start_nonmem env aid2 an key s ck h⟩
  by_cases hck : ck = ⟨aid2, key⟩
  · rw [hck] at h2 ⊢
    exact ⟨{ c with enabled := false },
      destroyKeyStep_compAt_same env aid2 an key s c h2, rfl, rfl, rfl, rfl⟩
  · rw [destroyKeyStep_compAt_ne env aid2 an key s ck hck]
    exact ⟨c, h2, sameBk_refl c⟩

theorem stepPres_DestroyActor (ck : CompKey) (env : Env) (aid2 : Nat) :
    StepPres ck (fun s => DestroyActor env s aid2) := by
  intro s c h1 h2
  unfold DestroyActor
  dsimp only
  rcases hla : lookupActor s aid2 with _ | actor <;> dsimp only
  · exact ⟨le_refl _, rfl, ⟨c, h2, sameBk_refl c⟩, fun h => h⟩
  · have h2' : compAt
        { setActor s aid2 { actor with destroyed := true } with
          actors_to_destroy :=
            (setActor s aid2 { actor with destroyed := true }).actors_to_destroy ++ [aid2] }
        ck = some c := by
      show compAt (setActor s aid2 { actor with destroyed := true }) ck = some c
      rw [compAt_setActor_sameComponents s aid2 actor { actor with destroyed := true } hla rfl]
      exact h2
    exact stepPres_foldl
      (fun k => stepPres_destroyKeyStep ck env aid2 actor.name k)
      (List.insertionSort (fun x y => strLe x y = true) actor.component_keys)
      { setActor s aid2 { actor with destroyed := true } with
        actors_to_destroy :=
          (setActor s aid2 { actor with destroyed := true }).actors_to_destroy ++ [aid2] }
      c h1 h2'

theorem stepPres_InstantiateActor (ck : CompKey) (env : Env) (tmpl : String) :
    StepPres ck (fun s => InstantiateActor env s tmpl) := by
  intro s c h1 h2
  unfold InstantiateActor
  dsimp only
  obtain ⟨hacts, hid, _⟩ := foldl_pure3
    (fun t p => ⟨(addComponentToCaches_fields t s.id_ctr p.1 p.2).2.2.2.1,
      (addComponentToCaches_fields t s.id_ctr p.1 p.2).2.2.1,
      (addComponentToCaches_fields t s.id_ctr p.1 p.2).2.2.2.2⟩)
    ((env.templates tmpl).comps.map (fun p => (p.1, instComp s.frameNumber p.2))) _
  obtain ⟨htr, hfr⟩ := foldl_pure_tf
    (fun t p => ⟨(addComponentToCaches_fields t s.id_ctr p.1 p.2).1,
      (addComponentToCaches_fields t s.id_ctr p.1 p.2).2.1⟩)
    ((env.templates tmpl).comps.map (fun p => (p.1, instComp s.frameNumber p.2))) _
  refine ⟨?_, ?_, ?_, ?_⟩
  · rw [hid]
    show s.id_ctr ≤ s.id_ctr + 1
    omega
  · exact hfr
  · refine ⟨c, ?_, sameBk_refl c⟩
    show (_ : EngineState).actors.lookup ck.actorId >>= _ = some c
    rw [hacts]
    show (assocSet s.actors s.id_ctr _).lookup ck.actorId >>= _ = some c
    rw [lookup_assocSet_ne s.actors s.id_ctr ck.actorId _ (Nat.ne_of_lt h1)]
    exact h2
  · intro h
    have hfold : ∀ (l : List (String × Comp)) (t : EngineState),
        ck ∉ t.on_start_cache →
        ck ∉ (l.foldl (fun t p => addComponentToCaches t s.id_ctr p.1 p.2) t).on_start_cache := by
      intro l
      induction l with
      | nil => exact fun t ht => ht
      | cons p rest ih =>
        intro t ht
        exact ih _ (addComponentToCaches_start_nonmem t s.id_ctr p.1 p.2 ck
          (fun hEq => absurd h1 (by rw [hEq]; exact lt_irrefl _)) ht)
    exact hfold _ _ h

theorem stepPres_execCmd (ck : CompKey) (env : Env) (cmd : Cmd) :
    StepPres ck (fun s => execCmd env s cmd) := by
  cases cmd with
  | destroyActor aid2 => exact stepPres_DestroyActor ck env aid2
  | instantiateActor t => exact stepPres_InstantiateActor ck env t
  | setEnabled aid2 key b =>
    intro s c h1 h2
    unfold execCmd
    dsimp only
    rcases hc : compAt s ⟨aid2, key⟩ with _ | c2 <;> dsimp only
    · exact ⟨le_refl _, rfl, ⟨c, h2, sameBk_refl c⟩, fun h => h⟩
    · split
      · exact ⟨le_refl _, rfl, ⟨c, h2, sameBk_refl c⟩, fun h => h⟩
      · by_cases hck : ck = ⟨aid2, key⟩
        · rw [hck] at h2
          have hcc : c2 = c := by
            rw [h2] at hc
            exact ((Option.some.injEq _ _).mp hc).symm
          subst hcc
          obtain ⟨a, hla, _⟩ := compAt_of_some s ⟨aid2, key⟩ c2 h2
          refine ⟨le_of_eq (setComp_fields _ _ _).2.2.1.symm,
            (setComp_fields _ _ _).2.1,
            ⟨{ c2 with enabled := b }, ?_, rfl, rfl, rfl, rfl⟩, ?_⟩
          · rw [hck]
            exact compAt_setComp_self s ⟨aid2, key⟩ _ a hla
          · rw [(setComp_fields _ _ _).2.2.2.1]
            exact fun h => h
        · exact stepPres_setComp_ne ck ⟨aid2, key⟩ _ hck s c h1 h2
  | dontDestroy aid2 =>
    intro s c h1 h2
    unfold execCmd
    dsimp only
    rcases hla : lookupActor s aid2 with _ | a0 <;> dsimp only
    · exact ⟨le_refl _, rfl, ⟨c, h2, sameBk_refl c⟩, fun h => h⟩
    · refine ⟨le_refl _, rfl, ⟨c, ?_, sameBk_refl c⟩, fun h => h⟩
      rw [compAt_setActor_sameComponents s aid2 a0 { a0 with dont_destroy := true } hla rfl]
      exact h2
  | sceneLoad name =>
    exact fun s c h1 h2 => ⟨le_refl _, rfl, ⟨c, h2, sameBk_refl c⟩, fun h => h⟩
  | nop =>
    exact fun s c h1 h2 => ⟨le_refl _, rfl, ⟨c, h2, sameBk_refl c⟩, fun h => h⟩

theorem stepPres_invoke (ck : CompKey) (env : Env) (kd : CbKind) (aid2 : Nat)
    (key an : String) : StepPres ck (fun s => invoke env kd s aid2 key an) := by
  intro s c h1 h2
  unfold invoke
  dsimp only
  rcases hr : env.raisesOf kd aid2 key with _ | n <;> dsimp only
  · exact stepPres_foldl (fun cmd => stepPres_execCmd ck env cmd)
      (env.cmdsOf kd aid2 key) (emitEv s _) c h1 h2
  · obtain ⟨b1, b2, b3, b4⟩ := stepPres_foldl (fun cmd => stepPres_execCmd ck env cmd)
      ((env.cmdsOf kd aid2 key).take n) (emitEv s _) c h1 h2
    exact ⟨b1, b2, b3, fun h => b4 h⟩

theorem luaFrameAdded_eq (c : Comp) (h : c.isRigidbody = false) :
    c.luaFrameAdded = c.frame_added := by
  unfold Comp.luaFrameAdded
  rw [h]
  rfl

theorem luaNewAddition_eq (c : Comp) (h : c.isRigidbody = false)
    (h2 : c.new_addition = true) : c.luaNewAddition = true := by
  unfold Comp.luaNewAddition
  rw [h, h2]
  rfl

theorem stepPres_updateEntryStep (ck : CompKey) (env : Env) (e : CompKey) :
    StepPres ck (fun s => updateEntryStep env s e) := by
  intro s c h1 h2
  unfold updateEntryStep
  dsimp only
  by_cases hcont : (!(s.on_update_cache.contains e)) = true
  · rw [if_pos hcont]
    exact ⟨le_refl _, rfl, ⟨c, h2, sameBk_refl c⟩, fun h => h⟩
  · rw [if_neg hcont]
    rcases hla : lookupActor s e.actorId with _ | actor <;> dsimp only
    · exact ⟨le_refl _, rfl, ⟨c, h2, sameBk_refl c⟩, fun h => h⟩
    · by_cases hd : actor.destroyed = true
      · rw [if_pos hd]
        exact ⟨le_refl _, rfl, ⟨c, h2, sameBk_refl c⟩, fun h => h⟩
      · rw [if_neg hd]
        rcases hcc : actor.components.lookup e.key with _ | ce <;> dsimp only
        · exact ⟨le_refl _, rfl, ⟨c, h2, sameBk_refl c⟩, fun h => h⟩
        · by_cases h0 : ce.isRigidbody = true
          · rw [if_pos h0]
            exact ⟨le_refl _, rfl, ⟨c, h2, sameBk_refl c⟩, fun h => h⟩
          · rw [if_neg h0]
            by_cases h4 : (!ce.luaEnabled) = true
            · rw [if_pos h4]
              exact ⟨le_refl _, rfl, ⟨c, h2, sameBk_refl c⟩, fun h => h⟩
            · rw [if_neg h4]
              by_cases h5 : ((ce.luaFrameAdded == some s.frameNumber) && ce.luaNewAddition) = true
              · rw [if_pos h5]
                exact ⟨le_refl _, rfl, ⟨c, h2, sameBk_refl c⟩, fun h => h⟩
              · rw [if_neg h5]
                exact stepPres_invoke ck env CbKind.update e.actorId e.key actor.name s c h1 h2

theorem stepPres_lateEntryStep (ck : CompKey) (env : Env) (e : CompKey) :
    StepPres ck (fun s => lateEntryStep env s e) := by
  intro s c h1 h2
  unfold lateEntryStep
  dsimp only
  by_cases hcont : (!(s.on_late_update_cache.contains e)) = true
  · rw [if_pos hcont]
    exact ⟨le_refl _, rfl, ⟨c, h2, sameBk_refl c⟩, fun h => h⟩
  · rw [if_neg hcont]
    rcases hla : lookupActor s e.actorId with _ | actor <;> dsimp only
    · exact ⟨le_refl _, rfl, ⟨c, h2, sameBk_refl c⟩, fun h => h⟩
    · by_cases hd : actor.destroyed = true
      · rw [if_pos hd]
        exact ⟨le_refl _, rfl, ⟨c, h2, sameBk_refl c⟩, fun h => h⟩
      · rw [if_neg hd]
        rcases hcc : actor.components.lookup e.key with _ | ce <;> dsimp only
        · exact ⟨le_refl _, rfl, ⟨c, h2, sameBk_refl c⟩, fun h => h⟩
        · by_cases h4 : (!ce.luaEnabled) = true
          · rw [if_pos h4]
            exact ⟨le_refl _, rfl, ⟨c, h2, sameBk_refl c⟩, fun h => h⟩
          · rw [if_neg h4]
            by_cases h5 : ((ce.luaFrameAdded == some s.frameNumber) && ce.luaNewAddition) = true
            · rw [if_pos h5]
              exact ⟨le_refl _, rfl, ⟨c, h2, sameBk_refl c⟩, fun h => h⟩
            · rw [if_neg h5]
              exact stepPres_invoke ck env CbKind.lateUpdate e.actorId e.key actor.name s c h1 h2

theorem stepPres_startEntryStep_ne (ck : CompKey) (env : Env) (e : CompKey)
    (hne : e ≠ ck) : StepPres ck (fun s => startEntryStep env s e) := by
  intro s c h1 h2
  unfold startEntryStep
  dsimp only
  rcases hla : lookupActor s e.actorId with _ | actor <;> dsimp only
  · exact ⟨le_refl _, rfl, ⟨c, h2, sameBk_refl c⟩, fun h => h⟩
  · by_cases hd : actor.destroyed = true
    · rw [if_pos hd]
      exact ⟨le_refl _, rfl, ⟨c, h2, sameBk_refl c⟩, fun h => h⟩
    · rw [if_neg hd]
      rcases hcc : actor.components.lookup e.key with _ | ce <;> dsimp only
      · exact ⟨le_refl _, rfl, ⟨c, h2, sameBk_refl c⟩, fun h => h⟩
      · by_cases h4 : (!ce.luaEnabled || ce.luaOnStart) = true
        · rw [if_pos h4]
          exact ⟨le_refl _, rfl, ⟨c, h2, sameBk_refl c⟩, fun h => h⟩
        · rw [if_neg h4]
          by_cases h5 : ((ce.luaFrameAdded == some s.frameNumber) && ce.luaNewAddition) = true
          · rw [if_pos h5]
            exact ⟨le_refl _, rfl, ⟨c, h2, sameBk_refl c⟩, fun h => h⟩
          · rw [if_neg h5]
            obtain ⟨b1, b2, b3, b4⟩ :=
              stepPres_invoke ck env CbKind.start e.actorId e.key actor.name s c h1 h2
            rcases hc1 : compAt (invoke env CbKind.start s e.actorId e.key actor.name) e
              with _ | c2 <;> dsimp only
            · exact ⟨b1, b2, b3, b4⟩
            · obtain ⟨c3, hc3, hbk3⟩ := b3
              refine ⟨?_, ?_, ⟨c3, ?_, hbk3⟩, ?_⟩
              · rw [(setComp_fields _ _ _).2.2.1]
                exact b1
              · rw [(setComp_fields _ _ _).2.1]
                exact b2
              · rw [compAt_setComp_ne _ e ck _ (Ne.symm hne)]
                exact hc3
              · intro h
                rw [(setComp_fields _ _ _).2.2.2.1]
                exact b4 h

theorem update_fold_suppressed (env : Env) (ck : CompKey) :
    ∀ (l : List CompKey) (t : EngineState) (c : Comp),
      ck.actorId < t.id_ctr → compAt t ck = some c →
      c.isRigidbody = false → c.frame_added = some t.frameNumber →
      c.new_addition = true →
      ∃ δ, (l.foldl (updateEntryStep env) t).trace = t.trace ++ δ ∧
        ∀ n, Ev.callback CbKind.update ck.actorId ck.key n ∉ δ := by
  intro l
  induction l with
  | nil =>
    intro t c _ _ _ _ _
    exact ⟨[], by simp, by simp⟩
  | cons e rest ih =>
    intro t c h1 h2 hrg hfa hna
    rw [List.foldl_cons]
    by_cases he : e = ck
    · subst he
      have hstep : updateEntryStep env t e = t := by
        apply updateEntryStep_suppressed env t e c h2
        · rw [luaFrameAdded_eq c hrg]
          exact hfa
        · exact luaNewAddition_eq c hrg hna
      rw [hstep]
      exact ih t c h1 h2 hrg hfa hna
    · obtain ⟨δ1, ht1, hf1, hp1⟩ := evSpec_updateEntryStep env e t
      obtain ⟨b1, b2, ⟨c2, hc2, hbk⟩, _⟩ := stepPres_updateEntryStep ck env e t c h1 h2
      obtain ⟨δ2, ht2, hp2⟩ := ih (updateEntryStep env t e) c2 (lt_of_lt_of_le h1 b1) hc2
        (hbk.1.trans hrg) (by rw [hbk.2.1, b2]; exact hfa) (hbk.2.2.1.trans hna)
      refine ⟨δ1 ++ δ2, by rw [ht2, ht1, List.append_assoc], ?_⟩
      intro n hmem
      rcases List.mem_append.mp hmem with hm | hm
      · rcases hp1 _ hm with hcb | hdd
        · simp only [Ev.callback.injEq] at hcb
          exact he (show e = ck by
            cases e
            cases ck
            simp_all)
        · rcases hdd with ⟨a3, k3, hEq⟩ | ⟨nm, hEq⟩
          · simp at hEq
          · exact Ev.noConfusion hEq
      · exact hp2 n hm

theorem late_fold_suppressed (env : Env) (ck : CompKey) :
    ∀ (l : List CompKey) (t : EngineState) (c : Comp),
      ck.actorId < t.id_ctr → compAt t ck = some c →
      c.isRigidbody = false → c.frame_added = some t.frameNumber →
      c.new_addition = true →
      ∃ δ, (l.foldl (lateEntryStep env) t).trace = t.trace ++ δ ∧
        ∀ n, Ev.callback CbKind.lateUpdate ck.actorId ck.key n ∉ δ := by
  intro l
  induction l with
  | nil =>
    intro t c _ _ _ _ _
    exact ⟨[], by simp, by simp⟩
  | cons e rest ih =>
    intro t c h1 h2 hrg hfa hna
    rw [List.foldl_cons]
    by_cases he : e = ck
    · subst he
      have hstep : lateEntryStep env t e = t := by
        apply lateEntryStep_suppressed env t e c h2
        · rw [luaFrameAdded_eq c hrg]
          exact hfa
        · exact luaNewAddition_eq c hrg hna
      rw [hstep]
      exact ih t c h1 h2 hrg hfa hna
    · obtain ⟨δ1, ht1, hf1, hp1⟩ := evSpec_lateEntryStep env e t
      obtain ⟨b1, b2, ⟨c2, hc2, hbk⟩, _⟩ := stepPres_lateEntryStep ck env e t c h1 h2
      obtain ⟨δ2, ht2, hp2⟩ := ih (lateEntryStep env t e) c2 (lt_of_lt_of_le h1 b1) hc2
        (hbk.1.trans hrg) (by rw [hbk.2.1, b2]; exact hfa) (hbk.2.2.1.trans hna)
      refine ⟨δ1 ++ δ2, by rw [ht2, ht1, List.append_assoc], ?_⟩
      intro n hmem
      rcases List.mem_append.mp hmem with hm | hm
      · rcases hp1 _ hm with hcb | hdd
        · simp only [Ev.callback.injEq] at hcb
          exact he (show e = ck by
            cases e
            cases ck
            simp_all)
        · rcases hdd with ⟨a3, k3, hEq⟩ | ⟨nm, hEq⟩
          · simp at hEq
          · exact Ev.noConfusion hEq
      · exact hp2 n hm

theorem start_fold_drop (env : Env) (ck : CompKey) :
    ∀ (l : List CompKey) (t : EngineState) (c : Comp),
      ck.actorId < t.id_ctr → compAt t ck = some c →
      c.isRigidbody = false → c.frame_added = some t.frameNumber →
      c.new_addition = true → c.on_start = false → ck ∉ t.on_start_cache →
      (∃ δ, (l.foldl (startEntryStep env) t).trace = t.trace ++ δ ∧
        ∀ n, Ev.callback CbKind.start ck.actorId ck.key n ∉ δ) ∧
      (∃ c', compAt (l.foldl (startEntryStep env) t) ck = some c' ∧
        c'.on_start = false) ∧
      ck ∉ (l.foldl (startEntryStep env) t).on_start_cache := by
  intro l
  induction l with
  | nil =>
    intro t c _ h2 _ _ _ hos hnm
    exact ⟨⟨[], by simp, by simp⟩, ⟨c, h2, hos⟩, hnm⟩
  | cons e rest ih =>
    intro t c h1 h2 hrg hfa hna hos hnm
    rw [List.foldl_cons]
    by_cases he : e = ck
    · subst he
      have hstep : startEntryStep env t e = t := by
        apply startEntryStep_suppressed env t e c h2
        · rw [luaFrameAdded_eq c hrg]
          exact hfa
        · exact luaNewAddition_eq c hrg hna
      rw [hstep]
      exact ih t c h1 h2 hrg hfa hna hos hnm
    · obtain ⟨δ1, ht1, hf1, hp1⟩ := evSpec_startEntryStep env e t
      obtain ⟨b1, b2, ⟨c2, hc2, hbk⟩, b4⟩ := stepPres_startEntryStep_ne ck env e he t c h1 h2
      obtain ⟨⟨δ2, ht2, hp2⟩, hfin, hnm2⟩ := ih (startEntryStep env t e) c2
        (lt_of_lt_of_le h1 b1) hc2 (hbk.1.trans hrg)
        (by rw [hbk.2.1, b2]; exact hfa) (hbk.2.2.1.trans hna)
        (hbk.2.2.2.trans hos) (b4 hnm)
      refine ⟨⟨δ1 ++ δ2, by rw [ht2, ht1, List.append_assoc], ?_⟩, hfin, hnm2⟩
      intro n hmem
      rcases List.mem_append.mp hmem with hm | hm
      · rcases hp1 _ hm with hcb | hdd
        · simp only [Ev.callback.injEq] at hcb
          exact he (show e = ck by
            cases e
            cases ck
            simp_all)
        · rcases hdd with ⟨a3, k3, hEq⟩ | ⟨nm, hEq⟩
          · simp at hEq
          · exact Ev.noConfusion hEq
      · exact hp2 n hm

theorem lookup_map_snd {κ β γ : Type} [BEq κ] (l : List (κ × β)) (f : β → γ)
    (k : κ) : (l.map (fun p => (p.1, f p.2))).lookup k = (l.lookup k).map f := by
  induction l with
  | nil => rfl
  | cons p t ih =>
    rw [List.map_cons, List.lookup, List.lookup]
    rcases h : (k == p.1) with _ | _ <;> simp only [h] <;>
      first
      | rfl
      | exact ih

theorem InstantiateActor_stamps (env : Env) (s : EngineState) (tmpl key : String)
    (c : Comp) (hc : (env.templates tmpl).comps.lookup key = some c)
    (hrg : c.isRigidbody = false) :
    compAt (InstantiateActor env s tmpl) ⟨s.id_ctr, key⟩ =
      some { c with frame_added := some s.frameNumber, new_addition := true } := by
  unfold InstantiateActor
  dsimp only
  obtain ⟨hacts, _, _⟩ := foldl_pure3
    (fun t p => ⟨(addComponentToCaches_fields t s.id_ctr p.1 p.2).2.2.2.1,
      (addComponentToCaches_fields t s.id_ctr p.1 p.2).2.2.1,
      (addComponentToCaches_fields t s.id_ctr p.1 p.2).2.2.2.2⟩)
    ((env.templates tmpl).comps.map (fun p => (p.1, instComp s.frameNumber p.2))) _
  show ((_ : EngineState).actors.lookup s.id_ctr).bind _ = _
  rw [hacts]
  show ((assocSet s.actors s.id_ctr _).lookup s.id_ctr).bind _ = _
  rw [lookup_assocSet_self]
  show ((env.templates tmpl).comps.map (fun p => (p.1, instComp s.frameNumber p.2))).lookup key = _
  rw [lookup_map_snd, hc]
  show some (instComp s.frameNumber c) = _
  unfold instComp
  rw [if_neg (by simp [hrg])]

/-!  ### C2 witness scenario -/

/-- A component instance as a mid-frame runtime instantiation leaves it at
    frame 0: enabled, not started, stamped frame_added = 0 / new_addition. -/
def cSupp : Comp := ⟨false, true, false, some 0, true, true, true, true, false⟩

def c2actor : ActorSt := ⟨"A", false, false, [("C_0", cSupp)], ["C_0"], []⟩

/-- Frame-0 state right after that instantiation registered all three
    dispatch caches. -/
def c2state : EngineState :=
  ⟨0, [(0, c2actor)], [0], [], [], [], [⟨0, "C_0"⟩], [⟨0, "C_0"⟩],
    [⟨0, "C_0"⟩], false, 1, "", "main", [0], []⟩

/-- C2 (amended): (1) InstantiateActor stamps every scripted component of the
    new actor with frame_added = current frame and new_addition; (2)/(3) the
    update and late-update passes add no invocation of a component so stamped
    (creation-frame suppression holds); (4) but a so-stamped not-yet-started
    component is NOT retried: the start pass adds no OnStart for it, leaves
    on_start false, and its entry is gone from the start cache — the skipped
    entry was moved out with the snapshot and dropped. -/
theorem creation_frame_suppression_amended :
    (∀ (env : Env) (s : EngineState) (tmpl key : String) (c : Comp),
        (env.templates tmpl).comps.lookup key = some c → c.isRigidbody = false →
        compAt (InstantiateActor env s tmpl) ⟨s.id_ctr, key⟩ =
          some { c with frame_added := some s.frameNumber, new_addition := true }) ∧
    (∀ (env : Env) (s : EngineState) (ck : CompKey) (c : Comp),
        ck.actorId < s.id_ctr → compAt s ck = some c → c.isRigidbody = false →
        c.frame_added = some s.frameNumber → c.new_addition = true →
        ∀ n, Ev.callback CbKind.update ck.actorId ck.key n ∈
            (ProcessSceneUpdate env s).trace →
          Ev.callback CbKind.update ck.actorId ck.key n ∈ s.trace) ∧
    (∀ (env : Env) (s : EngineState) (ck : CompKey) (c : Comp),
        ck.actorId < s.id_ctr → compAt s ck = some c → c.isRigidbody = false →
        c.frame_added = some s.frameNumber → c.new_addition = true →
        ∀ n, Ev.callback CbKind.lateUpdate ck.actorId ck.key n ∈
            (ProcessSceneLateUpdate env s).trace →
          Ev.callback CbKind.lateUpdate ck.actorId ck.key n ∈ s.trace) ∧
    (∀ (env : Env) (s : EngineState) (ck : CompKey) (c : Comp),
        ck.actorId < s.id_ctr → compAt s ck = some c → c.isRigidbody = false →
        c.frame_added = some s.frameNumber → c.new_addition = true →
        c.on_start = false →
        (∀ n, Ev.callback CbKind.start ck.actorId ck.key n ∈
            (ProcessSceneOnStart env s).trace →
          Ev.callback CbKind.start ck.actorId ck.key n ∈ s.trace) ∧
        (∃ c', compAt (ProcessSceneOnStart env s) ck = some c' ∧
          c'.on_start = false) ∧
        ck ∉ (ProcessSceneOnStart env s).on_start_cache) := by
  refine ⟨fun env s tmpl key c hc hrg => InstantiateActor_stamps env s tmpl key c hc hrg,
    ?_, ?_, ?_⟩
  · intro env s ck c h1 h2 hrg hfa hna n hmem
    unfold ProcessSceneUpdate at hmem
    by_cases hie : s.on_update_cache.isEmpty = true
    · rw [if_pos hie] at hmem
      exact hmem
    · rw [if_neg hie] at hmem
      obtain ⟨δ, ht, hno⟩ := update_fold_suppressed env ck s.on_update_cache s c h1 h2 hrg hfa hna
      rw [ht] at hmem
      rcases List.mem_append.mp hmem with hm | hm
      · exact hm
      · exact absurd hm (hno n)
  · intro env s ck c h1 h2 hrg hfa hna n hmem
    unfold ProcessSceneLateUpdate at hmem
    by_cases hie : s.on_late_update_cache.isEmpty = true
    · rw [if_pos hie] at hmem
      exact hmem
    · rw [if_neg hie] at hmem
      obtain ⟨δ, ht, hno⟩ := late_fold_suppressed env ck s.on_late_update_cache s c h1 h2 hrg hfa hna
      rw [ht] at hmem
      rcases List.mem_append.mp hmem with hm | hm
      · exact hm
      · exact absurd hm (hno n)
  · intro env s ck c h1 h2 hrg hfa hna hos
    unfold ProcessSceneOnStart
    by_cases hie : s.on_start_cache.isEmpty = true
    · rw [if_pos hie]
      refine ⟨fun n hmem => hmem, ⟨c, h2, hos⟩, ?_⟩
      intro hm
      rw [List.isEmpty_iff] at hie
      rw [hie] at hm
      exact List.not_mem_nil ck hm
    · rw [if_neg hie]
      obtain ⟨⟨δ, ht, hno⟩, hfin, hnm⟩ := start_fold_drop env ck s.on_start_cache
        { s with on_start_cache := [] } c h1 h2 hrg hfa hna hos
        (List.not_mem_nil ck)
      refine ⟨?_, hfin, hnm⟩
      intro n hmem
      rw [ht] at hmem
      rcases List.mem_append.mp hmem with hm | hm
      · exact hm
      · exact absurd hm (hno n)

/-- C2 witness: the stamping of a template component instantiated at frame 0,
    and zero update / late-update / start events plus the dropped cache entry
    for the concrete suppressed component. -/
theorem creation_frame_suppression_amended_witness :
    compAt (InstantiateActor instThenIdleEnv c2state "T") ⟨c2state.id_ctr, "TC_0"⟩ =
      some { mkComp true true true false with
             frame_added := some c2state.frameNumber, new_addition := true } ∧
    (∀ n, Ev.callback CbKind.update 0 "C_0" n ∈
        (ProcessSceneUpdate singleActorEnv c2state).trace →
      Ev.callback CbKind.update 0 "C_0" n ∈ c2state.trace) ∧
    (∀ n, Ev.callback CbKind.lateUpdate 0 "C_0" n ∈
        (ProcessSceneLateUpdate singleActorEnv c2state).trace →
      Ev.callback CbKind.lateUpdate 0 "C_0" n ∈ c2state.trace) ∧
    ((∀ n, Ev.callback CbKind.start 0 "C_0" n ∈
        (ProcessSceneOnStart singleActorEnv c2state).trace →
      Ev.callback CbKind.start 0 "C_0" n ∈ c2state.trace) ∧
     (∃ c', compAt (ProcessSceneOnStart singleActorEnv c2state) ⟨0, "C_0"⟩ =
        some c' ∧ c'.on_start = false) ∧
     (⟨0, "C_0"⟩ : CompKey) ∉ (ProcessSceneOnStart singleActorEnv c2state).on_start_cache) :=
  ⟨creation_frame_suppression_amended.1 instThenIdleEnv c2state "T" "TC_0"
     (mkComp true true true false) (by decide) (by decide),
   creation_frame_suppression_amended.2.1 singleActorEnv c2state ⟨0, "C_0"⟩ cSupp
     (by decide) (by decide) (by decide) (by decide) (by decide),
   creation_frame_suppression_amended.2.2.1 singleActorEnv c2state ⟨0, "C_0"⟩ cSupp
     (by decide) (by decide) (by decide) (by decide) (by decide),
   creation_frame_suppression_amended.2.2.2 singleActorEnv c2state ⟨0, "C_0"⟩ cSupp
     (by decide) (by decide) (by decide) (by decide) (by decide) (by decide)⟩

/-!  ### C4: OnStart fires at most once per component instance, whole run

The invariant: the number of start events recorded for a component key is at
most one, and once it is one, the component either no longer exists or its
on_start flag is set (and its actor id is below the counter, so no later
creation can collide with it).  Every scheduler operation preserves this. -/

/-- How many OnStart invocations of instance ck a trace records. -/
def startEvts (ck : CompKey) (l : List Ev) : Nat :=
  l.countP (fun e => match e with
    | Ev.callback CbKind.start aid key _ => aid == ck.actorId && key == ck.key
    | _ => false)

/-- Registry well-formedness: duplicate-free actor keys, all below the
    monotone id counter. -/
def actorsWF (s : EngineState) : Prop :=
  (s.actors.map Prod.fst).Nodup ∧ ∀ p ∈ s.actors, p.1 < s.id_ctr

/-- The per-instance start-once invariant. -/
def okSt (ck : CompKey) (s : EngineState) : Prop :=
  startEvts ck s.trace ≤ 1 ∧
  (startEvts ck s.trace = 1 → ck.actorId < s.id_ctr ∧
    (compAt s ck = none ∨ ∃ c, compAt s ck = some c ∧ c.on_start = true))

def G4 (s : EngineState) : Prop := actorsWF s ∧ ∀ ck, okSt ck s

def GP (f : EngineState → EngineState) : Prop := ∀ s, G4 s → G4 (f s)

theorem GP_comp {f g : EngineState → EngineState} (hf : GP f) (hg : GP g) :
    GP (fun s => g (f s)) :=
  fun s h => hg (f s) (hf s h)

theorem GP_id : GP (fun s => s) := fun _ h => h

theorem GP_foldl {α : Type} {g : EngineState → α → EngineState}
    (h : ∀ x, GP (fun s => g s x)) (l : List α) :
    GP (fun s => l.foldl g s) := by
  induction l with
  | nil => exact GP_id
  | cons x t ih => exact GP_comp (h x) ih

theorem startEvts_append (ck : CompKey) (l1 l2 : List Ev) :
    startEvts ck (l1 ++ l2) = startEvts ck l1 + startEvts ck l2 :=
  List.countP_append _ _ _

theorem startEvts_zero_of_no_start (ck : CompKey) (δ : List Ev)
    (h : ∀ k aid key n, Ev.callback k aid key n ∈ δ → k ≠ CbKind.start) :
    startEvts ck δ = 0 := by
  unfold startEvts
  rw [List.countP_eq_zero]
  intro e he
  cases e with
  | callback k aid key n =>
    cases k with
    | start => exact absurd rfl (h _ aid key n he)
    | update => exact fun hc => Bool.noConfusion hc
    | lateUpdate => exact fun hc => Bool.noConfusion hc
    | destroy => exact fun hc => Bool.noConfusion hc
  | errorLogged nm n => exact fun hc => Bool.noConfusion hc
  | physicsStep n => exact fun hc => Bool.noConfusion hc
  | reconcile n => exact fun hc => Bool.noConfusion hc
  | renderFlush n => exact fun hc => Bool.noConfusion hc

theorem startEvts_zero_of_evD (ck : CompKey) (N : Nat) (δ : List Ev)
    (h : ∀ e ∈ δ, evD N e) : startEvts ck δ = 0 := by
  apply startEvts_zero_of_no_start
  intro k aid key n hmem hk
  rcases h _ hmem with ⟨a3, k3, hEq⟩ | ⟨nm, hEq⟩
  · rw [hk] at hEq
    simp at hEq
  · exact Ev.noConfusion hEq

/-- The harmless bundle: appends no start event, only grows the counter,
    keeps the registry well-formed, and any surviving component entry keeps
    its on_start flag from before. -/
def HML (f : EngineState → EngineState) : Prop :=
  (∀ s, ∃ δ, (f s).trace = s.trace ++ δ ∧
    ∀ k aid key n, Ev.callback k aid key n ∈ δ → k ≠ CbKind.start) ∧
  (∀ s, s.id_ctr ≤ (f s).id_ctr) ∧
  (∀ s, actorsWF s → actorsWF (f s)) ∧
  (∀ s ck c, actorsWF s → ck.actorId < s.id_ctr → compAt (f s) ck = some c →
    ∃ c0, compAt s ck = some c0 ∧ c.on_start = c0.on_start)

theorem HML_comp {f g : EngineState → EngineState} (hf : HML f) (hg : HML g) :
    HML (fun s => g (f s)) := by
  obtain ⟨f1, f2, f3, f4⟩ := hf
  obtain ⟨g1, g2, g3, g4⟩ := hg
  refine ⟨?_, ?_, ?_, ?_⟩
  · intro s
    obtain ⟨δ1, h1, hn1⟩ := f1 s
    obtain ⟨δ2, h2, hn2⟩ := g1 (f s)
    refine ⟨δ1 ++ δ2, by rw [h2, h1, List.append_assoc], ?_⟩
    intro k aid key n hmem
    rcases List.mem_append.mp hmem with hm | hm
    · exact hn1 k aid key n hm
    · exact hn2 k aid key n hm
  · exact fun s => le_trans (f2 s) (g2 (f s))
  · exact fun s h => g3 (f s) (f3 s h)
  · intro s ck c hwf hid hc
    obtain ⟨c1, hc1, ho1⟩ := g4 (f s) ck c (f3 s hwf) (lt_of_lt_of_le hid (f2 s)) hc
    obtain ⟨c0, hc0, ho0⟩ := f4 s ck c1 hwf hid hc1
    exact ⟨c0, hc0, ho1.trans ho0⟩

theorem HML_id : HML (fun s => s) :=
  ⟨fun s => ⟨[], by simp, by simp⟩, fun s => le_refl _, fun _ h => h,
   fun _ _ c _ _ hc => ⟨c, hc, rfl⟩⟩

theorem HML_foldl {α : Type} {g : EngineState → α → EngineState}
    (h : ∀ x, HML (fun s => g s x)) (l : List α) :
    HML (fun s => l.foldl g s) := by
  induction l with
  | nil => exact HML_id
  | cons x t ih => exact HML_comp (h x) ih

theorem HML_pure (f : EngineState → EngineState)
    (h : ∀ s, (f s).trace = s.trace ∧ (f s).id_ctr = s.id_ctr ∧
      (f s).actors = s.actors) : HML f := by
  refine ⟨fun s => ⟨[], by simp [(h s).1], by simp⟩,
    fun s => le_of_eq (h s).2.1.symm, ?_, ?_⟩
  · intro s hwf
    unfold actorsWF at hwf ⊢
    rw [(h s).2.2, (h s).2.1]
    exact hwf
  · intro s ck c _ _ hc
    refine ⟨c, ?_, rfl⟩
    show (s.actors.lookup ck.actorId).bind _ = some c
    rw [← (h s).2.2]
    exact hc

theorem GP_of_HML {f : EngineState → EngineState} (hf : HML f) : GP f := by
  obtain ⟨h1, h2, h3, h4⟩ := hf
  intro s hG
  refine ⟨h3 s hG.1, ?_⟩
  intro ck
  obtain ⟨δ, hδ, hnos⟩ := h1 s
  have hcnt : startEvts ck (f s).trace = startEvts ck s.trace := by
    rw [hδ, startEvts_append, startEvts_zero_of_no_start ck δ hnos]
    omega
  obtain ⟨o1, o2⟩ := hG.2 ck
  refine ⟨by rw [hcnt]; exact o1, ?_⟩
  intro hone
  rw [hcnt] at hone
  obtain ⟨hid, hcase⟩ := o2 hone
  refine ⟨lt_of_lt_of_le hid (h2 s), ?_⟩
  rcases hfc : compAt (f s) ck with _ | c
  · exact Or.inl rfl
  · obtain ⟨c0, hc0, hso⟩ := h4 s ck c hG.1 hid hfc
    rcases hcase with hnone | ⟨c1, hc1, hos1⟩
    · rw [hc0] at hnone
      exact Option.noConfusion hnone
    · right
      refine ⟨c, rfl, ?_⟩
      rw [hc1] at hc0
      have hc01 : c0 = c1 := ((Option.some.injEq _ _).mp hc0).symm
      rw [hso, hc01]
      exact hos1

theorem noStart_of_evD (N : Nat) (δ : List Ev) (h : ∀ e ∈ δ, evD N e) :
    ∀ k aid key n, Ev.callback k aid key n ∈ δ → k ≠ CbKind.start := by
  rintro k aid key n hmem rfl
  rcases h _ hmem with ⟨a3, k3, hEq⟩ | ⟨nm, hEq⟩
  · simp at hEq
  · exact Ev.noConfusion hEq

theorem any_beq_true_of_lookup {β : Type} (l : List (Nat × β)) (k : Nat)
    (v : β) (h : l.lookup k = some v) : (l.any (fun p => p.1 == k)) = true := by
  apply List.any_eq_true.mpr
  have := lookup_mem_keys l k v h
  rcases List.mem_map.mp this with ⟨p, hp, hpk⟩
  exact ⟨p, hp, by simp [hpk]⟩

theorem any_eq_false_of_not_mem_keys {β : Type} (l : List (Nat × β)) (k : Nat)
    (h : k ∉ l.map Prod.fst) : (l.any (fun p => p.1 == k)) = false := by
  rw [Bool.eq_false_iff]
  intro hc
  rcases List.any_eq_true.mp hc with ⟨p, hp, hpk⟩
  exact h (List.mem_map.mpr ⟨p, hp, by simpa using hpk⟩)

theorem fst_mem_assocSet {β : Type} (l : List (Nat × β)) (k : Nat) (v : β)
    (p : Nat × β) (hp : p ∈ assocSet l k v) :
    p.1 ∈ l.map Prod.fst ∨ p.1 = k := by
  unfold assocSet at hp
  split at hp
  · rcases List.mem_map.mp hp with ⟨q, hq, hqe⟩
    by_cases hqk : q.1 = k
    · right
      rw [← hqe]
      simp [hqk]
    · left
      rw [← hqe]
      rw [if_neg (by simp [hqk])]
      exact List.mem_map_of_mem _ hq
  · rcases List.mem_append.mp hp with hm | hm
    · exact Or.inl (List.mem_map_of_mem _ hm)
    · right
      rw [List.mem_singleton.mp hm]

theorem actorsWF_of_keys (s s2 : EngineState) (hid : s2.id_ctr = s.id_ctr)
    (hkeys : s2.actors.map Prod.fst = s.actors.map Prod.fst)
    (hwf : actorsWF s) : actorsWF s2 := by
  refine ⟨by rw [hkeys]; exact hwf.1, ?_⟩
  intro p hp
  have : p.1 ∈ s.actors.map Prod.fst := by
    rw [← hkeys]
    exact List.mem_map_of_mem _ hp
  rcases List.mem_map.mp this with ⟨q, hq, hqe⟩
  rw [hid, ← hqe]
  exact hwf.2 q hq

theorem setComp_keys (s : EngineState) (ck : CompKey) (c : Comp) :
    (setComp s ck c).actors.map Prod.fst = s.actors.map Prod.fst := by
  unfold setComp
  rcases hla : lookupActor s ck.actorId with _ | a
  · rfl
  · show (assocSet s.actors ck.actorId _).map Prod.fst = _
    rw [assocSet_keys, if_pos (any_beq_true_of_lookup s.actors ck.actorId a hla)]

theorem setActor_keys_present (s : EngineState) (aid : Nat) (a0 a : ActorSt)
    (hla : lookupActor s aid = some a0) :
    (setActor s aid a).actors.map Prod.fst = s.actors.map Prod.fst := by
  show (assocSet s.actors aid a).map Prod.fst = _
  rw [assocSet_keys, if_pos (any_beq_true_of_lookup s.actors aid a0 hla)]

theorem setComp_back (s : EngineState) (ck2 : CompKey) (cW cold : Comp)
    (hold : compAt s ck2 = some cold) (hWos : cW.on_start = cold.on_start) :
    ∀ ck c, compAt (setComp s ck2 cW) ck = some c →
      ∃ c0, compAt s ck = some c0 ∧ c.on_start = c0.on_start := by
  intro ck c hc
  by_cases hck : ck = ck2
  · subst hck
    obtain ⟨a, hla, _⟩ := compAt_of_some s ck cold hold
    rw [compAt_setComp_self s ck cW a hla] at hc
    have hcW : c = cW := ((Option.some.injEq _ _).mp hc).symm
    exact ⟨cold, hold, by rw [hcW]; exact hWos⟩
  · rw [compAt_setComp_ne s ck2 ck cW hck] at hc
    exact ⟨c, hc, rfl⟩

theorem destroyKeyStep_keys (env : Env) (aid2 : Nat) (an key : String)
    (t : EngineState) :
    (destroyKeyStep env aid2 an t key).actors.map Prod.fst =
      t.actors.map Prod.fst := by
  unfold destroyKeyStep
  rcases hc : compAt t ⟨aid2, key⟩ with _ | c
  · rfl
  · dsimp only
    show (setComp _ ⟨aid2, key⟩ _).actors.map Prod.fst = _
    rw [setComp_keys]
    split
    · split <;> rfl
    · rfl

theorem destroyKeyStep_back (env : Env) (aid2 : Nat) (an key : String)
    (t : EngineState) (ck : CompKey) (c : Comp)
    (hc : compAt (destroyKeyStep env aid2 an t key) ck = some c) :
    ∃ c0, compAt t ck = some c0 ∧ c.on_start = c0.on_start := by
  unfold destroyKeyStep at hc
  rcases hcD : compAt t ⟨aid2, key⟩ with _ | cD
  · rw [hcD] at hc
    exact ⟨c, hc, rfl⟩
  · rw [hcD] at hc
    dsimp only at hc
    rw [compAt_removeComponentFromCaches] at hc
    have hkeep : ∀ x, compAt
        (if (!cD.isRigidbody && cD.hasOnDestroy) = true then
          match env.raisesOf CbKind.destroy aid2 key with
          | some _ => emitEv (emitEv t (Ev.callback CbKind.destroy aid2 key t.frameNumber))
              (Ev.errorLogged an (emitEv t (Ev.callback CbKind.destroy aid2 key t.frameNumber)).frameNumber)
          | none => emitEv t (Ev.callback CbKind.destroy aid2 key t.frameNumber)
        else t) x = compAt t x := by
      intro x
      split
      · split <;> rfl
      · rfl
    obtain ⟨c0, hc0, hos⟩ := setComp_back _ ⟨aid2, key⟩ { cD with enabled := false } cD
      (by rw [hkeep]; exact hcD) rfl ck c hc
    rw [hkeep] at hc0
    exact ⟨c0, hc0, hos⟩

theorem HML_destroyKeyStep (env : Env) (aid2 : Nat) (an key : String) :
    HML (fun s => destroyKeyStep env aid2 an s key) := by
  refine ⟨?_, ?_, ?_, ?_⟩
  · intro s
    obtain ⟨δ, h1, _, h3⟩ := evSpec_destroyKeyStep env aid2 an key s
    exact ⟨δ, h1, noStart_of_evD _ δ h3⟩
  · intro s
    exact le_of_eq (destroyKeyStep_id_ctr env aid2 an key s).symm
  · intro s hwf
    exact actorsWF_of_keys s _ (destroyKeyStep_id_ctr env aid2 an key s)
      (destroyKeyStep_keys env aid2 an key s) hwf
  · intro s ck c _ _ hc
    exact destroyKeyStep_back env aid2 an key s ck c hc

theorem HML_DestroyActor (env : Env) (aid2 : Nat) :
    HML (fun s => DestroyActor env s aid2) := by
  refine ⟨?_, ?_, ?_, ?_⟩
  · intro s
    obtain ⟨δ, h1, _, h3⟩ := evSpec_DestroyActor env aid2 s
    exact ⟨δ, h1, noStart_of_evD _ δ h3⟩
  · intro s
    show s.id_ctr ≤ (DestroyActor env s aid2).id_ctr
    unfold DestroyActor
    rcases hla : lookupActor s aid2 with _ | actor
    · exact le_refl _
    · dsimp only
      exact (HML_foldl (fun k => HML_destroyKeyStep env aid2 actor.name k)
        (List.insertionSort (fun x y => strLe x y = true) actor.component_keys)).2.1
        { setActor s aid2 { actor with destroyed := true } with
          actors_to_destroy :=
            (setActor s aid2 { actor with destroyed := true }).actors_to_destroy ++ [aid2] }
  · intro s hwf
    show actorsWF (DestroyActor env s aid2)
    unfold DestroyActor
    rcases hla : lookupActor s aid2 with _ | actor
    · exact hwf
    · dsimp only
      apply (HML_foldl (fun k => HML_destroyKeyStep env aid2 actor.name k)
        (List.insertionSort (fun x y => strLe x y = true) actor.component_keys)).2.2.1
      exact actorsWF_of_keys s _ rfl
        (setActor_keys_present s aid2 actor { actor with destroyed := true } hla) hwf
  · intro s ck c hwf hid hc
    have hc2 : compAt (DestroyActor env s aid2) ck = some c := hc
    unfold DestroyActor at hc2
    rcases hla : lookupActor s aid2 with _ | actor
    · rw [hla] at hc2
      exact ⟨c, hc2, rfl⟩
    · rw [hla] at hc2
      obtain ⟨c1, hc1, ho1⟩ := (HML_foldl
        (fun k => HML_destroyKeyStep env aid2 actor.name k)
        (List.insertionSort (fun x y => strLe x y = true) actor.component_keys)).2.2.2
        { setActor s aid2 { actor with destroyed := true } with
          actors_to_destroy :=
            (setActor s aid2 { actor with destroyed := true }).actors_to_destroy ++ [aid2] }
        ck c
        (actorsWF_of_keys s _ rfl
          (setActor_keys_present s aid2 actor { actor with destroyed := true } hla) hwf)
        hid hc2
      refine ⟨c1, ?_, ho1⟩
      rw [← compAt_setActor_sameComponents s aid2 actor { actor with destroyed := true } hla rfl ck]
      exact hc1

theorem InstantiateActor_compAt_lt (env : Env) (tmpl : String) (s : EngineState)
    (ck : CompKey) (hid : ck.actorId < s.id_ctr) :
    compAt (InstantiateActor env s tmpl) ck = compAt s ck := by
  unfold InstantiateActor
  dsimp only
  show ((_ : EngineState).actors.lookup ck.actorId).bind _ = _
  rw [(foldl_pure3
    (fun t p => ⟨(addComponentToCaches_fields t s.id_ctr p.1 p.2).2.2.2.1,
      (addComponentToCaches_fields t s.id_ctr p.1 p.2).2.2.1,
      (addComponentToCaches_fields t s.id_ctr p.1 p.2).2.2.2.2⟩)
    ((env.templates tmpl).comps.map (fun p => (p.1, instComp s.frameNumber p.2))) _).1]
  show ((assocSet s.actors s.id_ctr _).lookup ck.actorId).bind _ = _
  rw [lookup_assocSet_ne s.actors s.id_ctr ck.actorId _ (Nat.ne_of_lt hid)]
  rfl

theorem HML_InstantiateActor (env : Env) (tmpl : String) :
    HML (fun s => InstantiateActor env s tmpl) := by
  refine ⟨?_, ?_, ?_, ?_⟩
  · intro s
    refine ⟨[], ?_, by simp⟩
    show (InstantiateActor env s tmpl).trace = s.trace ++ []
    unfold InstantiateActor
    dsimp only
    rw [(foldl_pure_tf
      (fun t p => ⟨(addComponentToCaches_fields t s.id_ctr p.1 p.2).1,
        (addComponentToCaches_fields t s.id_ctr p.1 p.2).2.1⟩)
      ((env.templates tmpl).comps.map (fun p => (p.1, instComp s.frameNumber p.2))) _).1]
    simp
  · intro s
    show s.id_ctr ≤ (InstantiateActor env s tmpl).id_ctr
    unfold InstantiateActor
    dsimp only
    rw [(foldl_pure3
      (fun t p => ⟨(addComponentToCaches_fields t s.id_ctr p.1 p.2).2.2.2.1,
        (addComponentToCaches_fields t s.id_ctr p.1 p.2).2.2.1,
        (addComponentToCaches_fields t s.id_ctr p.1 p.2).2.2.2.2⟩)
      ((env.templates tmpl).comps.map (fun p => (p.1, instComp s.frameNumber p.2))) _).2.1]
    show s.id_ctr ≤ s.id_ctr + 1
    omega
  · intro s hwf
    show actorsWF (InstantiateActor env s tmpl)
    have hfp := foldl_pure3
      (fun t p => ⟨(addComponentToCaches_fields t s.id_ctr p.1 p.2).2.2.2.1,
        (addComponentToCaches_fields t s.id_ctr p.1 p.2).2.2.1,
        (addComponentToCaches_fields t s.id_ctr p.1 p.2).2.2.2.2⟩)
      ((env.templates tmpl).comps.map (fun p => (p.1, instComp s.frameNumber p.2)))
    constructor
    · show ((InstantiateActor env s tmpl).actors.map Prod.fst).Nodup
      unfold InstantiateActor
      dsimp only
      rw [(hfp _).1]
      show ((assocSet s.actors s.id_ctr _).map Prod.fst).Nodup
      rw [assocSet_keys]
      split
      · exact hwf.1
      · rw [List.nodup_append]
        refine ⟨hwf.1, List.nodup_singleton _, ?_⟩
        intro a ha hb
        rw [List.mem_singleton.mp hb] at ha
        rcases List.mem_map.mp ha with ⟨q, hq, hqe⟩
        exact absurd (hqe ▸ hwf.2 q hq) (lt_irrefl _)
    · intro p hp
      have hpm : p ∈ assocSet s.actors s.id_ctr
          ⟨(env.templates tmpl).name, false, false,
            (env.templates tmpl).comps.map (fun p => (p.1, instComp s.frameNumber p.2)),
            (env.templates tmpl).comps.map (fun p => p.1), []⟩ := by
        have := hp
        unfold InstantiateActor at this
        dsimp only at this
        rw [(hfp _).1] at this
        exact this
      have hlt : (InstantiateActor env s tmpl).id_ctr = s.id_ctr + 1 := by
        unfold InstantiateActor
        dsimp only
        rw [(hfp _).2.1]
      rw [hlt]
      rcases fst_mem_assocSet _ _ _ p hpm with hm | hm
      · rcases List.mem_map.mp hm with ⟨q, hq, hqe⟩
        have := hwf.2 q hq
        omega
      · omega
  · intro s ck c hwf hid hc
    rw [InstantiateActor_compAt_lt env tmpl s ck hid] at hc
    exact ⟨c, hc, rfl⟩

theorem HML_execCmd (env : Env) (cmd : Cmd) :
    HML (fun s => execCmd env s cmd) := by
  cases cmd with
  | destroyActor aid2 => exact HML_DestroyActor env aid2
  | instantiateActor t => exact HML_InstantiateActor env t
  | setEnabled aid2 key b =>
    refine ⟨?_, ?_, ?_, ?_⟩
    · intro s
      refine ⟨[], ?_, by simp⟩
      show (execCmd env s (Cmd.setEnabled aid2 key b)).trace = s.trace ++ []
      unfold execCmd
      dsimp only
      rcases hc : compAt s ⟨aid2, key⟩ with _ | c2
      · simp
      · dsimp only
        split
        · simp
        · rw [(setComp_fields _ _ _).1]
          simp
    · intro s
      show s.id_ctr ≤ (execCmd env s (Cmd.setEnabled aid2 key b)).id_ctr
      unfold execCmd
      dsimp only
      rcases hc : compAt s ⟨aid2, key⟩ with _ | c2
      · exact le_refl _
      · dsimp only
        split
        · exact le_refl _
        · rw [(setComp_fields _ _ _).2.2.1]
    · intro s hwf
      show actorsWF (execCmd env s (Cmd.setEnabled aid2 key b))
      unfold execCmd
      dsimp only
      rcases hc : compAt s ⟨aid2, key⟩ with _ | c2
      · exact hwf
      · dsimp only
        split
        · exact hwf
        · exact actorsWF_of_keys s _ (setComp_fields _ _ _).2.2.1
            (setComp_keys _ _ _) hwf
    · intro s ck c hwf hid hcc
      have hc2 : compAt (execCmd env s (Cmd.setEnabled aid2 key b)) ck = some c := hcc
      unfold execCmd at hc2
      dsimp only at hc2
      rcases hc : compAt s ⟨aid2, key⟩ with _ | c2
      · rw [hc] at hc2
        exact ⟨c, hc2, rfl⟩
      · rw [hc] at hc2
        dsimp only at hc2
        split at hc2
        · exact ⟨c, hc2, rfl⟩
        · exact setComp_back s ⟨aid2, key⟩ { c2 with enabled := b } c2 hc rfl ck c hc2
  | dontDestroy aid2 =>
    refine ⟨?_, ?_, ?_, ?_⟩
    · intro s
      refine ⟨[], ?_, by simp⟩
      show (execCmd env s (Cmd.dontDestroy aid2)).trace = s.trace ++ []
      unfold execCmd
      dsimp only
      rcases hla : lookupActor s aid2 with _ | a0
      · simp
      · show (setActor s aid2 _).trace = _
        rw [(setActor_fields _ _ _).1]
        simp
    · intro s
      show s.id_ctr ≤ (execCmd env s (Cmd.dontDestroy aid2)).id_ctr
      unfold execCmd
      dsimp only
      rcases hla : lookupActor s aid2 with _ | a0
      · exact le_refl _
      · exact le_refl _
    · intro s hwf
      show actorsWF (execCmd env s (Cmd.dontDestroy aid2))
      unfold execCmd
      dsimp only
      rcases hla : lookupActor s aid2 with _ | a0
      · exact hwf
      · exact actorsWF_of_keys s _ rfl
          (setActor_keys_present s aid2 a0 { a0 with dont_destroy := true } hla) hwf
    · intro s ck c hwf hid hcc
      have hc2 : compAt (execCmd env s (Cmd.dontDestroy aid2)) ck = some c := hcc
      unfold execCmd at hc2
      dsimp only at hc2
      rcases hla : lookupActor s aid2 with _ | a0
      · rw [hla] at hc2
        exact ⟨c, hc2, rfl⟩
      · rw [hla] at hc2
        rw [compAt_setActor_sameComponents s aid2 a0 { a0 with dont_destroy := true } hla rfl ck] at hc2
        exact ⟨c, hc2, rfl⟩
  | sceneLoad name =>
    exact HML_pure _ (fun s => ⟨rfl, rfl, rfl⟩)
  | nop =>
    exact HML_pure _ (fun s => ⟨rfl, rfl, rfl⟩)

theorem HML_cmds (env : Env) (cmds : List Cmd) :
    HML (fun s => cmds.foldl (execCmd env) s) :=
  HML_foldl (fun c => HML_execCmd env c) cmds

theorem HML_invoke (env : Env) (kd : CbKind) (aid2 : Nat) (key an : String)
    (hkd : kd ≠ CbKind.start) :
    HML (fun s => invoke env kd s aid2 key an) := by
  refine ⟨?_, ?_, ?_, ?_⟩
  · intro s
    obtain ⟨δ, h1, _, h3⟩ := evSpec_invoke env kd aid2 key an s
    refine ⟨δ, h1, ?_⟩
    intro k aid key2 n hmem
    rcases h3 _ hmem with hcb | hdd
    · intro hk
      rw [hk] at hcb
      simp only [Ev.callback.injEq] at hcb
      exact hkd (hcb.1.symm)
    · exact noStart_of_evD _ [Ev.callback k aid key2 n]
        (fun e he => by rw [List.mem_singleton.mp he]; exact hdd) k aid key2 n
        (List.mem_singleton.mpr rfl)
  · intro s
    show s.id_ctr ≤ (invoke env kd s aid2 key an).id_ctr
    unfold invoke
    rcases hr : env.raisesOf kd aid2 key with _ | n
    · exact (HML_cmds env (env.cmdsOf kd aid2 key)).2.1
        (emitEv s (Ev.callback kd aid2 key s.frameNumber))
    · exact (HML_cmds env ((env.cmdsOf kd aid2 key).take n)).2.1
        (emitEv s (Ev.callback kd aid2 key s.frameNumber))
  · intro s hwf
    show actorsWF (invoke env kd s aid2 key an)
    unfold invoke
    rcases hr : env.raisesOf kd aid2 key with _ | n
    · exact (HML_cmds env (env.cmdsOf kd aid2 key)).2.2.1
        (emitEv s (Ev.callback kd aid2 key s.frameNumber)) hwf
    · exact (HML_cmds env ((env.cmdsOf kd aid2 key).take n)).2.2.1
        (emitEv s (Ev.callback kd aid2 key s.frameNumber)) hwf
  · intro s ck c hwf hid hcc
    have hc2 : compAt (invoke env kd s aid2 key an) ck = some c := hcc
    unfold invoke at hc2
    rcases hr : env.raisesOf kd aid2 key with _ | n
    · rw [hr] at hc2
      exact (HML_cmds env (env.cmdsOf kd aid2 key)).2.2.2
        (emitEv s (Ev.callback kd aid2 key s.frameNumber)) ck c hwf hid hc2
    · rw [hr] at hc2
      exact (HML_cmds env ((env.cmdsOf kd aid2 key).take n)).2.2.2
        (emitEv s (Ev.callback kd aid2 key s.frameNumber)) ck c hwf hid hc2

theorem updateEntryStep_cases (env : Env) (s : EngineState) (e : CompKey) :
    updateEntryStep env s e = s ∨ ∃ actor, lookupActor s e.actorId = some actor ∧
      updateEntryStep env s e = invoke env CbKind.update s e.actorId e.key actor.name := by
  unfold updateEntryStep
  by_cases hcont : (!(s.on_update_cache.contains e)) = true
  · rw [if_pos hcont]
    exact Or.inl rfl
  · rw [if_neg hcont]
    rcases hla : lookupActor s e.actorId with _ | actor
    · exact Or.inl rfl
    · dsimp only
      by_cases hd : actor.destroyed = true
      · rw [if_pos hd]
        exact Or.inl rfl
      · rw [if_neg hd]
        rcases hcc : actor.components.lookup e.key with _ | c <;> dsimp only
        · exact Or.inl rfl
        · by_cases h0 : c.isRigidbody = true
          · rw [if_pos h0]
            exact Or.inl rfl
          · rw [if_neg h0]
            by_cases h4 : (!c.luaEnabled) = true
            · rw [if_pos h4]
              exact Or.inl rfl
            · rw [if_neg h4]
              by_cases h5 : ((c.luaFrameAdded == some s.frameNumber) && c.luaNewAddition) = true
              · rw [if_pos h5]
                exact Or.inl rfl
              · rw [if_neg h5]
                exact Or.inr ⟨actor, rfl, rfl⟩

theorem lateEntryStep_cases (env : Env) (s : EngineState) (e : CompKey) :
    lateEntryStep env s e = s ∨ ∃ actor, lookupActor s e.actorId = some actor ∧
      lateEntryStep env s e = invoke env CbKind.lateUpdate s e.actorId e.key actor.name := by
  unfold lateEntryStep
  by_cases hcont : (!(s.on_late_update_cache.contains e)) = true
  · rw [if_pos hcont]
    exact Or.inl rfl
  · rw [if_neg hcont]
    rcases hla : lookupActor s e.actorId with _ | actor
    · exact Or.inl rfl
    · dsimp only
      by_cases hd : actor.destroyed = true
      · rw [if_pos hd]
        exact Or.inl rfl
      · rw [if_neg hd]
        rcases hcc : actor.components.lookup e.key with _ | c <;> dsimp only
        · exact Or.inl rfl
        · by_cases h4 : (!c.luaEnabled) = true
          · rw [if_pos h4]
            exact Or.inl rfl
          · rw [if_neg h4]
            by_cases h5 : ((c.luaFrameAdded == some s.frameNumber) && c.luaNewAddition) = true
            · rw [if_pos h5]
              exact Or.inl rfl
            · rw [if_neg h5]
              exact Or.inr ⟨actor, rfl, rfl⟩

theorem startEntryStep_cases (env : Env) (s : EngineState) (e : CompKey) :
    startEntryStep env s e = s ∨
    ∃ actor c, lookupActor s e.actorId = some actor ∧
      actor.components.lookup e.key = some c ∧
      (!c.luaEnabled || c.luaOnStart) = false ∧
      startEntryStep env s e =
        (match compAt (invoke env CbKind.start s e.actorId e.key actor.name) e with
         | none => invoke env CbKind.start s e.actorId e.key actor.name
         | some c2 => setComp (invoke env CbKind.start s e.actorId e.key actor.name) e
             { c2 with on_start := true }) := by
  unfold startEntryStep
  rcases hla : lookupActor s e.actorId with _ | actor
  · exact Or.inl rfl
  · dsimp only
    by_cases hd : actor.destroyed = true
    · rw [if_pos hd]
      exact Or.inl rfl
    · rw [if_neg hd]
      rcases hcc : actor.components.lookup e.key with _ | c <;> dsimp only
      · exact Or.inl rfl
      · by_cases h4 : (!c.luaEnabled || c.luaOnStart) = true
        · rw [if_pos h4]
          exact Or.inl rfl
        · rw [if_neg h4]
          by_cases h5 : ((c.luaFrameAdded == some s.frameNumber) && c.luaNewAddition) = true
          · rw [if_pos h5]
            exact Or.inl rfl
          · rw [if_neg h5]
            exact Or.inr ⟨actor, c, rfl, hcc, Bool.eq_false_iff.mpr h4, rfl⟩

theorem invoke_id_mono (env : Env) (kd : CbKind) (aid2 : Nat) (key an : String)
    (s : EngineState) : s.id_ctr ≤ (invoke env kd s aid2 key an).id_ctr := by
  unfold invoke
  rcases hr : env.raisesOf kd aid2 key with _ | n
  · exact (HML_cmds env (env.cmdsOf kd aid2 key)).2.1
      (emitEv s (Ev.callback kd aid2 key s.frameNumber))
  · exact (HML_cmds env ((env.cmdsOf kd aid2 key).take n)).2.1
      (emitEv s (Ev.callback kd aid2 key s.frameNumber))

theorem invoke_wf (env : Env) (kd : CbKind) (aid2 : Nat) (key an : String)
    (s : EngineState) (hwf : actorsWF s) :
    actorsWF (invoke env kd s aid2 key an) := by
  unfold invoke
  rcases hr : env.raisesOf kd aid2 key with _ | n
  · exact (HML_cmds env (env.cmdsOf kd aid2 key)).2.2.1
      (emitEv s (Ev.callback kd aid2 key s.frameNumber)) hwf
  · exact (HML_cmds env ((env.cmdsOf kd aid2 key).take n)).2.2.1
      (emitEv s (Ev.callback kd aid2 key s.frameNumber)) hwf

theorem invoke_back (env : Env) (kd : CbKind) (aid2 : Nat) (key an : String)
    (s : EngineState) (ck : CompKey) (c : Comp) (hwf : actorsWF s)
    (hid : ck.actorId < s.id_ctr)
    (hc : compAt (invoke env kd s aid2 key an) ck = some c) :
    ∃ c0, compAt s ck = some c0 ∧ c.on_start = c0.on_start := by
  unfold invoke at hc
  rcases hr : env.raisesOf kd aid2 key with _ | n
  · rw [hr] at hc
    exact (HML_cmds env (env.cmdsOf kd aid2 key)).2.2.2
      (emitEv s (Ev.callback kd aid2 key s.frameNumber)) ck c hwf hid hc
  · rw [hr] at hc
    exact (HML_cmds env ((env.cmdsOf kd aid2 key).take n)).2.2.2
      (emitEv s (Ev.callback kd aid2 key s.frameNumber)) ck c hwf hid hc

theorem invoke_start_trace (env : Env) (s : EngineState) (aid2 : Nat)
    (key an : String) :
    ∃ δr, (invoke env CbKind.start s aid2 key an).trace =
        s.trace ++ Ev.callback CbKind.start aid2 key s.frameNumber :: δr ∧
      ∀ k a2 k2 n, Ev.callback k a2 k2 n ∈ δr → k ≠ CbKind.start := by
  unfold invoke
  rcases hr : env.raisesOf CbKind.start aid2 key with _ | n <;> dsimp only
  · obtain ⟨δ, h1, hn⟩ := (HML_cmds env (env.cmdsOf CbKind.start aid2 key)).1
      (emitEv s (Ev.callback CbKind.start aid2 key s.frameNumber))
    refine ⟨δ, ?_, hn⟩
    rw [h1]
    show (s.trace ++ [_]) ++ δ = _
    rw [List.append_assoc]
    rfl
  · obtain ⟨δ, h1, hn⟩ := (HML_cmds env ((env.cmdsOf CbKind.start aid2 key).take n)).1
      (emitEv s (Ev.callback CbKind.start aid2 key s.frameNumber))
    refine ⟨δ ++ [Ev.errorLogged an s.frameNumber], ?_, ?_⟩
    · show _ ++ [Ev.errorLogged an s.frameNumber] = _
      rw [h1]
      show ((s.trace ++ [_]) ++ δ) ++ _ = _
      rw [List.append_assoc, List.append_assoc]
      rfl
    · intro k a2 k2 n2 hmem
      rcases List.mem_append.mp hmem with hm | hm
      · exact hn k a2 k2 n2 hm
      · simp only [List.mem_singleton] at hm
        exact absurd hm (by intro h; exact Ev.noConfusion h)

theorem HML_updateEntryStep (env : Env) (e : CompKey) :
    HML (fun s => updateEntryStep env s e) := by
  refine ⟨?_, ?_, ?_, ?_⟩
  · intro s
    dsimp only
    rcases updateEntryStep_cases env s e with he | ⟨actor, hla, he⟩
    · exact ⟨[], by rw [he]; simp, by simp⟩
    · rw [he]
      exact (HML_invoke env CbKind.update e.actorId e.key actor.name (by decide)).1 s
  · intro s
    dsimp only
    rcases updateEntryStep_cases env s e with he | ⟨actor, hla, he⟩
    · rw [he]
    · rw [he]
      exact invoke_id_mono env CbKind.update e.actorId e.key actor.name s
  · intro s hwf
    dsimp only
    rcases updateEntryStep_cases env s e with he | ⟨actor, hla, he⟩
    · rw [he]
      exact hwf
    · rw [he]
      exact invoke_wf env CbKind.update e.actorId e.key actor.name s hwf
  · intro s ck c hwf hid hc
    dsimp only at hc
    rcases updateEntryStep_cases env s e with he | ⟨actor, hla, he⟩
    · rw [he] at hc
      exact ⟨c, hc, rfl⟩
    · rw [he] at hc
      exact invoke_back env CbKind.update e.actorId e.key actor.name s ck c hwf hid hc

theorem HML_lateEntryStep (env : Env) (e : CompKey) :
    HML (fun s => lateEntryStep env s e) := by
  refine ⟨?_, ?_, ?_, ?_⟩
  · intro s
    dsimp only
    rcases lateEntryStep_cases env s e with he | ⟨actor, hla, he⟩
    · exact ⟨[], by rw [he]; simp, by simp⟩
    · rw [he]
      exact (HML_invoke env CbKind.lateUpdate e.actorId e.key actor.name (by decide)).1 s
  · intro s
    dsimp only
    rcases lateEntryStep_cases env s e with he | ⟨actor, hla, he⟩
    · rw [he]
    · rw [he]
      exact invoke_id_mono env CbKind.lateUpdate e.actorId e.key actor.name s
  · intro s hwf
    dsimp only
    rcases lateEntryStep_cases env s e with he | ⟨actor, hla, he⟩
    · rw [he]
      exact hwf
    · rw [he]
      exact invoke_wf env CbKind.lateUpdate e.actorId e.key actor.name s hwf
  · intro s ck c hwf hid hc
    dsimp only at hc
    rcases lateEntryStep_cases env s e with he | ⟨actor, hla, he⟩
    · rw [he] at hc
      exact ⟨c, hc, rfl⟩
    · rw [he] at hc
      exact invoke_back env CbKind.lateUpdate e.actorId e.key actor.name s ck c hwf hid hc

theorem HML_ProcessSceneUpdate (env : Env) :
    HML (fun s => ProcessSceneUpdate env s) := by
  have hfold := fun (l : List CompKey) => HML_foldl (fun e => HML_updateEntryStep env e) l
  refine ⟨?_, ?_, ?_, ?_⟩
  · intro s
    dsimp only
    unfold ProcessSceneUpdate
    split
    · exact ⟨[], by simp, by simp⟩
    · exact (hfold s.on_update_cache).1 s
  · intro s
    dsimp only
    unfold ProcessSceneUpdate
    split
    · exact le_refl _
    · exact (hfold s.on_update_cache).2.1 s
  · intro s hwf
    dsimp only
    unfold ProcessSceneUpdate
    split
    · exact hwf
    · exact (hfold s.on_update_cache).2.2.1 s hwf
  · intro s ck c hwf hid hc
    dsimp only at hc
    have hc2 : compAt (ProcessSceneUpdate env s) ck = some c := hc
    unfold ProcessSceneUpdate at hc2
    split at hc2
    · exact ⟨c, hc2, rfl⟩
    · exact (hfold s.on_update_cache).2.2.2 s ck c hwf hid hc2

theorem HML_ProcessSceneLateUpdate (env : Env) :
    HML (fun s => ProcessSceneLateUpdate env s) := by
  have hfold := fun (l : List CompKey) => HML_foldl (fun e => HML_lateEntryStep env e) l
  refine ⟨?_, ?_, ?_, ?_⟩
  · intro s
    dsimp only
    unfold ProcessSceneLateUpdate
    split
    · exact ⟨[], by simp, by simp⟩
    · exact (hfold s.on_late_update_cache).1 s
  · intro s
    dsimp only
    unfold ProcessSceneLateUpdate
    split
    · exact le_refl _
    · exact (hfold s.on_late_update_cache).2.1 s
  · intro s hwf
    dsimp only
    unfold ProcessSceneLateUpdate
    split
    · exact hwf
    · exact (hfold s.on_late_update_cache).2.2.1 s hwf
  · intro s ck c hwf hid hc
    dsimp only at hc
    have hc2 : compAt (ProcessSceneLateUpdate env s) ck = some c := hc
    unfold ProcessSceneLateUpdate at hc2
    split at hc2
    · exact ⟨c, hc2, rfl⟩
    · exact (hfold s.on_late_update_cache).2.2.2 s ck c hwf hid hc2

theorem setComp_trace (s : EngineState) (ck : CompKey) (c : Comp) :
    (setComp s ck c).trace = s.trace := by
  unfold setComp
  rcases lookupActor s ck.actorId with _ | a <;> rfl

theorem setComp_id_ctr (s : EngineState) (ck : CompKey) (c : Comp) :
    (setComp s ck c).id_ctr = s.id_ctr := by
  unfold setComp
  rcases lookupActor s ck.actorId with _ | a <;> rfl

theorem startEvts_single_start (ck : CompKey) (aid2 : Nat) (key : String)
    (n : Nat) :
    startEvts ck [Ev.callback CbKind.start aid2 key n] =
      if (aid2 == ck.actorId && key == ck.key) = true then 1 else 0 := by
  unfold startEvts
  rw [List.countP_singleton]

theorem invoke_start_startEvts (env : Env) (s : EngineState) (aid2 : Nat)
    (key an : String) (ck : CompKey) :
    startEvts ck (invoke env CbKind.start s aid2 key an).trace =
      startEvts ck s.trace +
        (if (aid2 == ck.actorId && key == ck.key) = true then 1 else 0) := by
  obtain ⟨δr, htr, hδr⟩ := invoke_start_trace env s aid2 key an
  rw [htr]
  rw [show (s.trace ++ Ev.callback CbKind.start aid2 key s.frameNumber :: δr) =
      (s.trace ++ [Ev.callback CbKind.start aid2 key s.frameNumber]) ++ δr by simp]
  rw [startEvts_append, startEvts_append,
    startEvts_zero_of_no_start ck δr hδr, startEvts_single_start, Nat.add_zero]

/-- The one place a start event is appended: a ProcessSceneOnStart entry whose
    component was eligible (enabled, not yet started, not suppressed) fires
    once and then records on_start — this preserves the start-once
    invariant. -/
theorem GP_startEntryStep (env : Env) (e : CompKey) :
    GP (fun s => startEntryStep env s e) := by
  intro s hG
  dsimp only
  rcases startEntryStep_cases env s e with he | ⟨actor, c, hla, hcc, hen, he⟩
  · rw [he]
    exact hG
  · rw [he]
    have hle : c.luaEnabled = true := by
      cases hv : c.luaEnabled
      · rw [hv] at hen
        simp at hen
      · rfl
    have hlos : c.luaOnStart = false := by
      cases hv : c.luaOnStart
      · rfl
      · rw [hv] at hen
        simp at hen
    have hrig : c.isRigidbody = false := by
      unfold Comp.luaEnabled at hle
      cases hr : c.isRigidbody
      · rfl
      · rw [hr] at hle
        simp at hle
    have hos : c.on_start = false := by
      unfold Comp.luaOnStart at hlos
      rw [hrig] at hlos
      simpa using hlos
    have hcE : compAt s e = some c := by
      show (lookupActor s e.actorId).bind _ = some c
      rw [hla]
      exact hcc
    have heid : e.actorId < s.id_ctr := by
      have hmem := lookup_mem_keys s.actors e.actorId actor hla
      rcases List.mem_map.mp hmem with ⟨p, hp, hpe⟩
      rw [← hpe]
      exact hG.1.2 p hp
    have hcnt0 : startEvts e s.trace = 0 := by
      rcases Nat.lt_or_ge (startEvts e s.trace) 1 with h | h
      · omega
      · exfalso
        have h1' : startEvts e s.trace = 1 := le_antisymm (hG.2 e).1 h
        rcases ((hG.2 e).2 h1').2 with hnone | ⟨c1, hc1, hos1⟩
        · rw [hcE] at hnone
          exact Option.noConfusion hnone
        · rw [hcE] at hc1
          have hcc1 : c = c1 := (Option.some.injEq _ _).mp hc1
          rw [← hcc1, hos] at hos1
          exact Bool.noConfusion hos1
    have hid1 := invoke_id_mono env CbKind.start e.actorId e.key actor.name s
    have hwf1 := invoke_wf env CbKind.start e.actorId e.key actor.name s hG.1
    have hcnteq := fun ck =>
      invoke_start_startEvts env s e.actorId e.key actor.name ck
    have hindE : (e.actorId == e.actorId && e.key == e.key) = true := by simp
    have hindNE : ∀ ck : CompKey, ck ≠ e →
        (e.actorId == ck.actorId && e.key == ck.key) = false := by
      intro ck hne
      by_cases hb : (e.actorId == ck.actorId && e.key == ck.key) = true
      · exfalso
        rw [Bool.and_eq_true] at hb
        rcases hb with ⟨hb1, hb2⟩
        have he1 : e.actorId = ck.actorId := eq_of_beq hb1
        have he2 : e.key = ck.key := eq_of_beq hb2
        apply hne
        cases e
        cases ck
        dsimp only at he1 he2
        subst he1
        subst he2
        rfl
      · exact Bool.eq_false_iff.mpr hb
    rcases hc1 : compAt (invoke env CbKind.start s e.actorId e.key actor.name) e
      with _ | c2
    · show G4 (invoke env CbKind.start s e.actorId e.key actor.name)
      refine ⟨hwf1, ?_⟩
      intro ck
      by_cases hckE : ck = e
      · rw [hckE]
        refine ⟨?_, ?_⟩
        · rw [hcnteq e, hcnt0, hindE]
          simp
        · intro _
          exact ⟨lt_of_lt_of_le heid hid1, Or.inl hc1⟩
      · refine ⟨?_, ?_⟩
        · rw [hcnteq ck, hindNE ck hckE]
          simpa using (hG.2 ck).1
        · intro hone
          rw [hcnteq ck, hindNE ck hckE] at hone
          simp at hone
          obtain ⟨hid2, hcase⟩ := (hG.2 ck).2 hone
          refine ⟨lt_of_lt_of_le hid2 hid1, ?_⟩
          rcases hf : compAt (invoke env CbKind.start s e.actorId e.key actor.name) ck
            with _ | cF
          · exact Or.inl rfl
          · obtain ⟨c0, hc0, hso⟩ := invoke_back env CbKind.start e.actorId e.key
              actor.name s ck cF hG.1 hid2 hf
            rcases hcase with hnone | ⟨cc, hccq, hosq⟩
            · rw [hc0] at hnone
              exact Option.noConfusion hnone
            · right
              refine ⟨cF, rfl, ?_⟩
              rw [hc0] at hccq
              have hc0cc : c0 = cc := (Option.some.injEq _ _).mp hccq
              rw [hso, hc0cc]
              exact hosq
    · show G4 (setComp (invoke env CbKind.start s e.actorId e.key actor.name) e
        { c2 with on_start := true })
      obtain ⟨a1, hla1, _⟩ := compAt_of_some _ e c2 hc1
      refine ⟨actorsWF_of_keys _ _ (setComp_id_ctr _ e _) (setComp_keys _ e _) hwf1, ?_⟩
      intro ck
      have htrF := setComp_trace (invoke env CbKind.start s e.actorId e.key actor.name)
        e { c2 with on_start := true }
      have hidF := setComp_id_ctr (invoke env CbKind.start s e.actorId e.key actor.name)
        e { c2 with on_start := true }
      by_cases hckE : ck = e
      · rw [hckE]
        refine ⟨?_, ?_⟩
        · rw [htrF, hcnteq e, hcnt0, hindE]
          simp
        · intro _
          refine ⟨?_, ?_⟩
          · rw [hidF]
            exact lt_of_lt_of_le heid hid1
          · right
            exact ⟨{ c2 with on_start := true },
              compAt_setComp_self _ e _ a1 hla1, rfl⟩
      · refine ⟨?_, ?_⟩
        · rw [htrF, hcnteq ck, hindNE ck hckE]
          simpa using (hG.2 ck).1
        · intro hone
          rw [htrF, hcnteq ck, hindNE ck hckE] at hone
          simp at hone
          obtain ⟨hid2, hcase⟩ := (hG.2 ck).2 hone
          refine ⟨?_, ?_⟩
          · rw [hidF]
            exact lt_of_lt_of_le hid2 hid1
          · rw [compAt_setComp_ne _ e ck _ hckE]
            rcases hf : compAt (invoke env CbKind.start s e.actorId e.key actor.name) ck
              with _ | cF
            · exact Or.inl rfl
            · obtain ⟨c0, hc0, hso⟩ := invoke_back env CbKind.start e.actorId e.key
                actor.name s ck cF hG.1 hid2 hf
              rcases hcase with hnone | ⟨cc, hccq, hosq⟩
              · rw [hc0] at hnone
                exact Option.noConfusion hnone
              · right
                refine ⟨cF, rfl, ?_⟩
                rw [hc0] at hccq
                have hc0cc : c0 = cc := (Option.some.injEq _ _).mp hccq
                rw [hso, hc0cc]
                exact hosq

/-- ProcessSceneOnStart preserves the start-once invariant: the cache move-out
    touches no G4-relevant field and every snapshot entry preserves it. -/
theorem GP_ProcessSceneOnStart (env : Env) :
    GP (fun s => ProcessSceneOnStart env s) := by
  intro s hG
  dsimp only
  unfold ProcessSceneOnStart
  split
  · exact hG
  · exact GP_foldl (fun e => GP_startEntryStep env e) s.on_start_cache
      { s with on_start_cache := [] } hG

/-!  ### The rest of the frame is harmless for the start-once invariant -/

theorem HML_UpdateRigidbodyInits : HML (fun s => UpdateRigidbodyInits s) :=
  HML_pure _ (fun s => ⟨rfl, rfl, rfl⟩)

theorem HML_emit (mk : EngineState → Ev)
    (hmk : ∀ s k aid key n, mk s ≠ Ev.callback k aid key n) :
    HML (fun s => emitEv s (mk s)) := by
  refine ⟨?_, fun s => le_refl _, fun _ h => h, fun _ _ c _ _ hc => ⟨c, hc, rfl⟩⟩
  intro s
  refine ⟨[mk s], rfl, ?_⟩
  intro k aid key n hmem
  exact absurd (List.mem_singleton.mp hmem).symm (hmk s k aid key n)

theorem compAt_setActor_filter_back (S : EngineState) (aid2 : Nat) (a : ActorSt)
    (key : String) (hla : lookupActor S aid2 = some a) (ck : CompKey) (c : Comp)
    (hc : compAt (setActor S aid2
      { a with
        component_keys := a.component_keys.filter (fun k => !(k == key)),
        components := a.components.filter (fun p => !(p.1 == key)) }) ck = some c) :
    compAt S ck = some c := by
  by_cases hak : ck.actorId = aid2
  · have hcl : compAt (setActor S aid2
        { a with
          component_keys := a.component_keys.filter (fun k => !(k == key)),
          components := a.components.filter (fun p => !(p.1 == key)) }) ck =
        (a.components.filter (fun p => !(p.1 == key))).lookup ck.key := by
      show (lookupActor (setActor S aid2 _) ck.actorId).bind _ = _
      rw [hak, lookupActor_setActor_self]
      rfl
    rw [hcl] at hc
    by_cases hkk : ck.key = key
    · rw [hkk, lookup_filter_none] at hc
      · exact Option.noConfusion hc
      · intro v
        simp
    · rw [lookup_filter_keep] at hc
      · show (lookupActor S ck.actorId).bind _ = some c
        rw [hak, hla]
        exact hc
      · intro v
        simp [hkk]
  · show (lookupActor S ck.actorId).bind _ = some c
    rw [← lookupActor_setActor_ne S aid2 ck.actorId
      { a with
        component_keys := a.component_keys.filter (fun k => !(k == key)),
        components := a.components.filter (fun p => !(p.1 == key)) } hak]
    exact hc

theorem removeCompKeyStep_id_ctr (env : Env) (aid2 : Nat) (an key : String)
    (s : EngineState) : (removeCompKeyStep env aid2 an s key).id_ctr = s.id_ctr := by
  unfold removeCompKeyStep
  dsimp only
  rcases hcD : compAt s ⟨aid2, key⟩ with _ | cD <;> dsimp only
  · rcases hla : lookupActor s aid2 with _ | a
    · rfl
    · dsimp only
      exact (setActor_fields _ _ _).2.2.1
  · by_cases hrg : (!cD.isRigidbody && cD.hasOnDestroy) = true
    · rw [if_pos hrg]
      rcases hr : env.raisesOf CbKind.destroy aid2 key with _ | n <;> dsimp only
      · rcases hla : lookupActor
            (emitEv s (Ev.callback CbKind.destroy aid2 key s.frameNumber)) aid2
          with _ | a
        · rfl
        · dsimp only
          exact (setActor_fields _ _ _).2.2.1
      · rcases hla : lookupActor
            (emitEv (emitEv s (Ev.callback CbKind.destroy aid2 key s.frameNumber))
              (Ev.errorLogged an
                (emitEv s (Ev.callback CbKind.destroy aid2 key s.frameNumber)).frameNumber)) aid2
          with _ | a
        · rfl
        · dsimp only
          exact (setActor_fields _ _ _).2.2.1
    · rw [if_neg hrg]
      rcases hla : lookupActor s aid2 with _ | a
      · rfl
      · dsimp only
        exact (setActor_fields _ _ _).2.2.1

theorem removeCompKeyStep_keys (env : Env) (aid2 : Nat) (an key : String)
    (s : EngineState) :
    (removeCompKeyStep env aid2 an s key).actors.map Prod.fst =
      s.actors.map Prod.fst := by
  unfold removeCompKeyStep
  dsimp only
  rcases hcD : compAt s ⟨aid2, key⟩ with _ | cD <;> dsimp only
  · rcases hla : lookupActor s aid2 with _ | a
    · rfl
    · dsimp only
      exact setActor_keys_present _ aid2 a
        { a with
          component_keys := a.component_keys.filter (fun k => !(k == key)),
          components := a.components.filter (fun p => !(p.1 == key)) } hla
  · by_cases hrg : (!cD.isRigidbody && cD.hasOnDestroy) = true
    · rw [if_pos hrg]
      rcases hr : env.raisesOf CbKind.destroy aid2 key with _ | n <;> dsimp only
      · rcases hla : lookupActor
            (emitEv s (Ev.callback CbKind.destroy aid2 key s.frameNumber)) aid2
          with _ | a
        · rfl
        · dsimp only
          exact setActor_keys_present _ aid2 a
            { a with
              component_keys := a.component_keys.filter (fun k => !(k == key)),
              components := a.components.filter (fun p => !(p.1 == key)) } hla
      · rcases hla : lookupActor
            (emitEv (emitEv s (Ev.callback CbKind.destroy aid2 key s.frameNumber))
              (Ev.errorLogged an
                (emitEv s (Ev.callback CbKind.destroy aid2 key s.frameNumber)).frameNumber)) aid2
          with _ | a
        · rfl
        · dsimp only
          exact setActor_keys_present _ aid2 a
            { a with
              component_keys := a.component_keys.filter (fun k => !(k == key)),
              components := a.components.filter (fun p => !(p.1 == key)) } hla
    · rw [if_neg hrg]
      rcases hla : lookupActor s aid2 with _ | a
      · rfl
      · dsimp only
        exact setActor_keys_present _ aid2 a
          { a with
            component_keys := a.component_keys.filter (fun k => !(k == key)),
            components := a.components.filter (fun p => !(p.1 == key)) } hla

theorem removeCompKeyStep_back (env : Env) (aid2 : Nat) (an key : String)
    (s : EngineState) (ck : CompKey) (c : Comp)
    (hc : compAt (removeCompKeyStep env aid2 an s key) ck = some c) :
    compAt s ck = some c := by
  unfold removeCompKeyStep at hc
  dsimp only at hc
  rcases hcD : compAt s ⟨aid2, key⟩ with _ | cD
  · rw [hcD] at hc
    dsimp only at hc
    rcases hla : lookupActor s aid2 with _ | a
    · rw [hla] at hc
      exact hc
    · rw [hla] at hc
      dsimp only at hc
      exact compAt_setActor_filter_back s aid2 a key hla ck c hc
  · rw [hcD] at hc
    dsimp only at hc
    by_cases hrg : (!cD.isRigidbody && cD.hasOnDestroy) = true
    · rw [if_pos hrg] at hc
      rcases hr : env.raisesOf CbKind.destroy aid2 key with _ | n
      · rw [hr] at hc
        dsimp only at hc
        rcases hla : lookupActor
            (emitEv s (Ev.callback CbKind.destroy aid2 key s.frameNumber)) aid2
          with _ | a
        · rw [hla] at hc
          exact hc
        · rw [hla] at hc
          dsimp only at hc
          exact compAt_setActor_filter_back _ aid2 a key hla ck c hc
      · rw [hr] at hc
        dsimp only at hc
        rcases hla : lookupActor
            (emitEv (emitEv s (Ev.callback CbKind.destroy aid2 key s.frameNumber))
              (Ev.errorLogged an
                (emitEv s (Ev.callback CbKind.destroy aid2 key s.frameNumber)).frameNumber)) aid2
          with _ | a
        · rw [hla] at hc
          exact hc
        · rw [hla] at hc
          dsimp only at hc
          exact compAt_setActor_filter_back _ aid2 a key hla ck c hc
    · rw [if_neg hrg] at hc
      rcases hla : lookupActor s aid2 with _ | a
      · rw [hla] at hc
        exact hc
      · rw [hla] at hc
        dsimp only at hc
        exact compAt_setActor_filter_back s aid2 a key hla ck c hc

theorem HML_removeCompKeyStep (env : Env) (aid2 : Nat) (an key : String) :
    HML (fun s => removeCompKeyStep env aid2 an s key) := by
  refine ⟨?_, ?_, ?_, ?_⟩
  · intro s
    obtain ⟨δ, h1, _, h3⟩ := evSpec_removeCompKeyStep env aid2 an key s
    exact ⟨δ, h1, noStart_of_evD _ δ h3⟩
  · intro s
    exact le_of_eq (removeCompKeyStep_id_ctr env aid2 an key s).symm
  · intro s hwf
    exact actorsWF_of_keys s _ (removeCompKeyStep_id_ctr env aid2 an key s)
      (removeCompKeyStep_keys env aid2 an key s) hwf
  · intro s ck c _ _ hc
    exact ⟨c, removeCompKeyStep_back env aid2 an key s ck c hc, rfl⟩

theorem compAt_setActor_clearRm (t1 : EngineState) (aid2 : Nat) (a1 : ActorSt)
    (hla1 : lookupActor t1 aid2 = some a1) (ck : CompKey) :
    compAt (setActor t1 aid2 { a1 with components_to_remove := [] }) ck =
      compAt t1 ck := by
  unfold compAt
  by_cases hak : ck.actorId = aid2
  · rw [hak, lookupActor_setActor_self, hla1]
    rfl
  · rw [lookupActor_setActor_ne t1 aid2 ck.actorId _ hak]

theorem HML_removeActorStep (env : Env) (aid2 : Nat) :
    HML (fun t =>
      match lookupActor t aid2 with
      | none => t
      | some a =>
        if a.components_to_remove.isEmpty then t
        else
          let keys := List.insertionSort (fun x y => strLe x y = true) a.components_to_remove
          let t1 := keys.foldl (removeCompKeyStep env aid2 a.name) t
          match lookupActor t1 aid2 with
          | none => t1
          | some a1 => setActor t1 aid2 { a1 with components_to_remove := [] }) := by
  refine ⟨?_, ?_, ?_, ?_⟩
  · intro t
    dsimp only
    rcases hla : lookupActor t aid2 with _ | a <;> dsimp only
    · exact ⟨[], by simp, by simp⟩
    · by_cases hie : a.components_to_remove.isEmpty = true
      · rw [if_pos hie]
        exact ⟨[], by simp, by simp⟩
      · rw [if_neg hie]
        obtain ⟨δ, h1, hn⟩ := (HML_foldl
          (fun k => HML_removeCompKeyStep env aid2 a.name k)
          (List.insertionSort (fun x y => strLe x y = true) a.components_to_remove)).1 t
        rcases hla1 : lookupActor
            ((List.insertionSort (fun x y => strLe x y = true)
              a.components_to_remove).foldl (removeCompKeyStep env aid2 a.name) t) aid2
          with _ | a1 <;> dsimp only
        · exact ⟨δ, h1, hn⟩
        · exact ⟨δ, by rw [(setActor_fields _ _ _).1]; exact h1, hn⟩
  · intro t
    dsimp only
    rcases hla : lookupActor t aid2 with _ | a <;> dsimp only
    · exact le_refl _
    · by_cases hie : a.components_to_remove.isEmpty = true
      · rw [if_pos hie]
      · rw [if_neg hie]
        have hf := (HML_foldl
          (fun k => HML_removeCompKeyStep env aid2 a.name k)
          (List.insertionSort (fun x y => strLe x y = true) a.components_to_remove)).2.1 t
        rcases hla1 : lookupActor
            ((List.insertionSort (fun x y => strLe x y = true)
              a.components_to_remove).foldl (removeCompKeyStep env aid2 a.name) t) aid2
          with _ | a1 <;> dsimp only
        · exact hf
        · exact le_trans hf (le_of_eq (setActor_fields _ _ _).2.2.1.symm)
  · intro t hwf
    dsimp only
    rcases hla : lookupActor t aid2 with _ | a <;> dsimp only
    · exact hwf
    · by_cases hie : a.components_to_remove.isEmpty = true
      · rw [if_pos hie]
        exact hwf
      · rw [if_neg hie]
        have hf := (HML_foldl
          (fun k => HML_removeCompKeyStep env aid2 a.name k)
          (List.insertionSort (fun x y => strLe x y = true) a.components_to_remove)).2.2.1
          t hwf
        rcases hla1 : lookupActor
            ((List.insertionSort (fun x y => strLe x y = true)
              a.components_to_remove).foldl (removeCompKeyStep env aid2 a.name) t) aid2
          with _ | a1 <;> dsimp only
        · exact hf
        · refine actorsWF_of_keys _ _ (setActor_fields _ _ _).2.2.1 ?_ hf
          exact setActor_keys_present _ aid2 a1 { a1 with components_to_remove := [] } hla1
  · intro t ck c hwf hid hc
    dsimp only at hc
    rcases hla : lookupActor t aid2 with _ | a
    · rw [hla] at hc
      exact ⟨c, hc, rfl⟩
    · rw [hla] at hc
      dsimp only at hc
      by_cases hie : a.components_to_remove.isEmpty = true
      · rw [if_pos hie] at hc
        exact ⟨c, hc, rfl⟩
      · rw [if_neg hie] at hc
        rcases hla1 : lookupActor
            ((List.insertionSort (fun x y => strLe x y = true)
              a.components_to_remove).foldl (removeCompKeyStep env aid2 a.name) t) aid2
          with _ | a1
        · rw [hla1] at hc
          exact (HML_foldl (fun k => HML_removeCompKeyStep env aid2 a.name k)
            (List.insertionSort (fun x y => strLe x y = true)
              a.components_to_remove)).2.2.2 t ck c hwf hid hc
        · rw [hla1] at hc
          dsimp only at hc
          rw [compAt_setActor_clearRm _ aid2 a1 hla1 ck] at hc
          exact (HML_foldl (fun k => HML_removeCompKeyStep env aid2 a.name k)
            (List.insertionSort (fun x y => strLe x y = true)
              a.components_to_remove)).2.2.2 t ck c hwf hid hc

theorem HML_RemoveActorComponents (env : Env) :
    HML (fun s => RemoveActorComponents env s) := by
  refine ⟨?_, ?_, ?_, ?_⟩
  · intro s
    dsimp only
    unfold RemoveActorComponents
    exact (HML_foldl (fun a2 => HML_removeActorStep env a2)
      (s.actors.map (fun p => p.1))).1 s
  · intro s
    dsimp only
    unfold RemoveActorComponents
    exact (HML_foldl (fun a2 => HML_removeActorStep env a2)
      (s.actors.map (fun p => p.1))).2.1 s
  · intro s hwf
    dsimp only
    unfold RemoveActorComponents
    exact (HML_foldl (fun a2 => HML_removeActorStep env a2)
      (s.actors.map (fun p => p.1))).2.2.1 s hwf
  · intro s ck c hwf hid hc
    dsimp only at hc
    unfold RemoveActorComponents at hc
    exact (HML_foldl (fun a2 => HML_removeActorStep env a2)
      (s.actors.map (fun p => p.1))).2.2.2 s ck c hwf hid hc

theorem HML_ActorsPendingDestruction : HML (fun s => ActorsPendingDestruction s) := by
  refine ⟨?_, ?_, ?_, ?_⟩
  · intro s
    dsimp only
    refine ⟨[], ?_, by simp⟩
    unfold ActorsPendingDestruction
    split <;> simp
  · intro s
    dsimp only
    unfold ActorsPendingDestruction
    split <;> exact le_refl _
  · intro s hwf
    dsimp only
    unfold ActorsPendingDestruction
    split
    · exact hwf
    · constructor
      · show ((s.actors.filter
            (fun p => !(s.actors_to_destroy.contains p.1))).map Prod.fst).Nodup
        exact hwf.1.sublist ((List.filter_sublist _).map Prod.fst)
      · intro p hp
        show p.1 < s.id_ctr
        exact hwf.2 p (List.mem_of_mem_filter hp)
  · intro s ck c hwf hid hc
    dsimp only at hc
    unfold ActorsPendingDestruction at hc
    split at hc
    · exact ⟨c, hc, rfl⟩
    · have hc3 : (List.lookup ck.actorId
          (s.actors.filter (fun p => !(s.actors_to_destroy.contains p.1)))).bind
          (fun a => a.components.lookup ck.key) = some c := hc
      rcases hla : List.lookup ck.actorId
          (s.actors.filter (fun p => !(s.actors_to_destroy.contains p.1))) with _ | a
      · rw [hla] at hc3
        exact Option.noConfusion hc3
      · rw [hla] at hc3
        have horig : List.lookup ck.actorId s.actors = some a :=
          lookup_filter_nodup_some s.actors _ ck.actorId a hwf.1 hla
        refine ⟨c, ?_, rfl⟩
        show (lookupActor s ck.actorId).bind _ = some c
        rw [show lookupActor s ck.actorId = some a from horig]
        exact hc3

/-!  ### The loadScene pipeline is harmless for the start-once invariant -/

theorem sceneDestroy_inner_evSpec (env : Env) (aid2 : Nat) (an k : String) :
    EvSpec evD (fun t =>
      match compAt t ⟨aid2, k⟩ with
      | none => t
      | some c =>
        if !c.isRigidbody && c.hasOnDestroy then
          let t0 := emitEv t (Ev.callback CbKind.destroy aid2 k t.frameNumber)
          match env.raisesOf CbKind.destroy aid2 k with
          | some _ => emitEv t0 (Ev.errorLogged an t0.frameNumber)
          | none => t0
        else t) := by
  intro t
  dsimp only
  rcases hc : compAt t ⟨aid2, k⟩ with _ | c <;> dsimp only
  · exact ⟨[], by simp, rfl, by simp⟩
  · by_cases hrg : (!c.isRigidbody && c.hasOnDestroy) = true
    · rw [if_pos hrg]
      rcases hr : env.raisesOf CbKind.destroy aid2 k with _ | n <;> dsimp only
      · refine ⟨[Ev.callback CbKind.destroy aid2 k t.frameNumber], rfl, rfl, ?_⟩
        intro e he
        simp only [List.mem_singleton] at he
        subst he
        exact Or.inl ⟨aid2, k, rfl⟩
      · refine ⟨[Ev.callback CbKind.destroy aid2 k t.frameNumber,
          Ev.errorLogged an t.frameNumber], ?_, rfl, ?_⟩
        · show (t.trace ++ [Ev.callback CbKind.destroy aid2 k t.frameNumber]) ++
              [Ev.errorLogged an t.frameNumber] = _
          rw [List.append_assoc]
          rfl
        · intro e he
          simp only [List.mem_cons, List.mem_singleton, List.not_mem_nil, or_false] at he
          rcases he with rfl | rfl
          · exact Or.inl ⟨aid2, k, rfl⟩
          · exact Or.inr ⟨an, rfl⟩
    · rw [if_neg hrg]
      exact ⟨[], by simp, rfl, by simp⟩

theorem evSpec_sceneDestroyActorStep (env : Env) (aid2 : Nat) :
    EvSpec evD (fun s => sceneDestroyActorStep env s aid2) := by
  intro s
  unfold sceneDestroyActorStep
  dsimp only
  rcases hla : lookupActor s aid2 with _ | a <;> dsimp only
  · exact ⟨[], by simp, rfl, by simp⟩
  · exact evSpec_foldl (fun k => sceneDestroy_inner_evSpec env aid2 a.name k)
      (List.insertionSort (fun x y => strLe x y = true) a.component_keys) s

theorem sceneDestroyActorStep_fields (env : Env) (aid2 : Nat) (s : EngineState) :
    (sceneDestroyActorStep env s aid2).actors = s.actors ∧
    (sceneDestroyActorStep env s aid2).id_ctr = s.id_ctr := by
  unfold sceneDestroyActorStep
  dsimp only
  rcases hla : lookupActor s aid2 with _ | a <;> dsimp only
  · exact ⟨rfl, rfl⟩
  · have h := foldl_pure3 (g := fun t k =>
      match compAt t ⟨aid2, k⟩ with
      | none => t
      | some c =>
        if !c.isRigidbody && c.hasOnDestroy then
          let t0 := emitEv t (Ev.callback CbKind.destroy aid2 k t.frameNumber)
          match env.raisesOf CbKind.destroy aid2 k with
          | some _ => emitEv t0 (Ev.errorLogged a.name t0.frameNumber)
          | none => t0
        else t)
      (fun t k => by
        dsimp only
        rcases hc : compAt t ⟨aid2, k⟩ with _ | c <;> dsimp only
        · exact ⟨rfl, rfl, rfl⟩
        · by_cases hrg : (!c.isRigidbody && c.hasOnDestroy) = true
          · rw [if_pos hrg]
            rcases hr : env.raisesOf CbKind.destroy aid2 k with _ | n <;> dsimp only
            · exact ⟨rfl, rfl, rfl⟩
            · exact ⟨rfl, rfl, rfl⟩
          · rw [if_neg hrg]
            exact ⟨rfl, rfl, rfl⟩)
      (List.insertionSort (fun x y => strLe x y = true) a.component_keys) s
    exact ⟨h.1, h.2.1⟩

theorem HML_sceneDestroyActorStep (env : Env) (aid2 : Nat) :
    HML (fun s => sceneDestroyActorStep env s aid2) := by
  refine ⟨?_, ?_, ?_, ?_⟩
  · intro s
    obtain ⟨δ, h1, _, h3⟩ := evSpec_sceneDestroyActorStep env aid2 s
    exact ⟨δ, h1, noStart_of_evD _ δ h3⟩
  · intro s
    exact le_of_eq (sceneDestroyActorStep_fields env aid2 s).2.symm
  · intro s hwf
    exact actorsWF_of_keys s _ (sceneDestroyActorStep_fields env aid2 s).2
      (by rw [(sceneDestroyActorStep_fields env aid2 s).1]) hwf
  · intro s ck c _ _ hc
    refine ⟨c, ?_, rfl⟩
    show (List.lookup ck.actorId s.actors).bind
      (fun a => a.components.lookup ck.key) = some c
    rw [← (sceneDestroyActorStep_fields env aid2 s).1]
    exact hc

theorem rebuildComponentCaches_fields (s : EngineState) :
    (rebuildComponentCaches s).trace = s.trace ∧
    (rebuildComponentCaches s).frameNumber = s.frameNumber ∧
    (rebuildComponentCaches s).id_ctr = s.id_ctr ∧
    (rebuildComponentCaches s).actors = s.actors := by
  unfold rebuildComponentCaches
  dsimp only
  have hstep : ∀ (t : EngineState) (p : Nat × ActorSt),
      ((if p.2.destroyed then t
        else p.2.component_keys.foldl (fun u k =>
          match p.2.components.lookup k with
          | none => u
          | some c => addComponentToCaches u p.1 k c) t)).trace = t.trace ∧
      ((if p.2.destroyed then t
        else p.2.component_keys.foldl (fun u k =>
          match p.2.components.lookup k with
          | none => u
          | some c => addComponentToCaches u p.1 k c) t)).frameNumber = t.frameNumber ∧
      ((if p.2.destroyed then t
        else p.2.component_keys.foldl (fun u k =>
          match p.2.components.lookup k with
          | none => u
          | some c => addComponentToCaches u p.1 k c) t)).id_ctr = t.id_ctr ∧
      ((if p.2.destroyed then t
        else p.2.component_keys.foldl (fun u k =>
          match p.2.components.lookup k with
          | none => u
          | some c => addComponentToCaches u p.1 k c) t)).actors = t.actors ∧
      ((if p.2.destroyed then t
        else p.2.component_keys.foldl (fun u k =>
          match p.2.components.lookup k with
          | none => u
          | some c => addComponentToCaches u p.1 k c) t)).actors_to_destroy =
        t.actors_to_destroy := by
    intro t p
    have hin : ∀ (u : EngineState) (k : String),
        ((match p.2.components.lookup k with
          | none => u
          | some c => addComponentToCaches u p.1 k c)).trace = u.trace ∧
        ((match p.2.components.lookup k with
          | none => u
          | some c => addComponentToCaches u p.1 k c)).frameNumber = u.frameNumber ∧
        ((match p.2.components.lookup k with
          | none => u
          | some c => addComponentToCaches u p.1 k c)).id_ctr = u.id_ctr ∧
        ((match p.2.components.lookup k with
          | none => u
          | some c => addComponentToCaches u p.1 k c)).actors = u.actors ∧
        ((match p.2.components.lookup k with
          | none => u
          | some c => addComponentToCaches u p.1 k c)).actors_to_destroy =
          u.actors_to_destroy := by
      intro u k
      rcases hc : p.2.components.lookup k with _ | c <;> dsimp only
      · exact ⟨rfl, rfl, rfl, rfl, rfl⟩
      · exact ⟨(addComponentToCaches_fields u p.1 k c).1,
          (addComponentToCaches_fields u p.1 k c).2.1,
          (addComponentToCaches_fields u p.1 k c).2.2.1,
          (addComponentToCaches_fields u p.1 k c).2.2.2.1,
          (addComponentToCaches_fields u p.1 k c).2.2.2.2⟩
    by_cases hd : p.2.destroyed = true
    · rw [if_pos hd]
      exact ⟨rfl, rfl, rfl, rfl, rfl⟩
    · rw [if_neg hd]
      have htf := foldl_pure_tf (g := fun u k =>
          match p.2.components.lookup k with
          | none => u
          | some c => addComponentToCaches u p.1 k c)
        (fun u k => ⟨(hin u k).1, (hin u k).2.1⟩) p.2.component_keys t
      have h3 := foldl_pure3 (g := fun u k =>
          match p.2.components.lookup k with
          | none => u
          | some c => addComponentToCaches u p.1 k c)
        (fun u k => ⟨(hin u k).2.2.2.1, (hin u k).2.2.1, (hin u k).2.2.2.2⟩)
        p.2.component_keys t
      exact ⟨htf.1, htf.2, h3.2.1, h3.1, h3.2.2⟩
  have htf := foldl_pure_tf (g := fun t (p : Nat × ActorSt) =>
      if p.2.destroyed then t
      else p.2.component_keys.foldl (fun u k =>
        match p.2.components.lookup k with
        | none => u
        | some c => addComponentToCaches u p.1 k c) t)
    (fun t p => ⟨(hstep t p).1, (hstep t p).2.1⟩) s.actors
    { s with on_start_cache := [], on_update_cache := [], on_late_update_cache := [] }
  have h3 := foldl_pure3 (g := fun t (p : Nat × ActorSt) =>
      if p.2.destroyed then t
      else p.2.component_keys.foldl (fun u k =>
        match p.2.components.lookup k with
        | none => u
        | some c => addComponentToCaches u p.1 k c) t)
    (fun t p => ⟨(hstep t p).2.2.2.1, (hstep t p).2.2.1, (hstep t p).2.2.2.2⟩) s.actors
    { s with on_start_cache := [], on_update_cache := [], on_late_update_cache := [] }
  exact ⟨htf.1, htf.2, h3.2.1, h3.1⟩

theorem HML_sceneCreate (sd : SceneDef) :
    HML (fun t => sd.actors.foldl (fun t ad =>
      { t with
        actors := assocSet t.actors t.id_ctr
          ⟨ad.name, false, false, ad.comps, ad.comps.map (fun p => p.1), []⟩,
        actor_id_vec := t.actor_id_vec ++ [t.id_ctr],
        id_ctr := t.id_ctr + 1,
        assignedIds := t.assignedIds ++ [t.id_ctr] }) t) := by
  apply HML_foldl
  intro ad
  refine ⟨fun t => ⟨[], by simp, by simp⟩, fun t => Nat.le_succ _, ?_, ?_⟩
  · intro t hwf
    constructor
    · show ((assocSet t.actors t.id_ctr
        ⟨ad.name, false, false, ad.comps, ad.comps.map (fun p => p.1), []⟩).map
          Prod.fst).Nodup
      rw [assocSet_keys]
      split
      · exact hwf.1
      · rw [List.nodup_append]
        refine ⟨hwf.1, List.nodup_singleton _, ?_⟩
        intro a ha hb
        rw [List.mem_singleton.mp hb] at ha
        rcases List.mem_map.mp ha with ⟨q, hq, hqe⟩
        exact absurd (hqe ▸ hwf.2 q hq) (lt_irrefl _)
    · intro p hp
      have hpm : p ∈ assocSet t.actors t.id_ctr
          ⟨ad.name, false, false, ad.comps, ad.comps.map (fun p => p.1), []⟩ := hp
      show p.1 < t.id_ctr + 1
      rcases fst_mem_assocSet _ _ _ p hpm with hm | hm
      · rcases List.mem_map.mp hm with ⟨q, hq, hqe⟩
        have := hwf.2 q hq
        omega
      · omega
  · intro t ck c hwf hid hc
    refine ⟨c, ?_, rfl⟩
    have hne : ck.actorId ≠ t.id_ctr := by omega
    have hc2 : (List.lookup ck.actorId (assocSet t.actors t.id_ctr
        ⟨ad.name, false, false, ad.comps, ad.comps.map (fun p => p.1), []⟩)).bind
        (fun a => a.components.lookup ck.key) = some c := hc
    rw [lookup_assocSet_ne t.actors t.id_ctr ck.actorId _ hne] at hc2
    exact hc2

theorem HML_loadTail (env : Env) (sd : SceneDef) :
    HML (fun t =>
      { rebuildComponentCaches
          (sd.actors.foldl (fun t ad =>
            { t with
              actors := assocSet t.actors t.id_ctr
                ⟨ad.name, false, false, ad.comps, ad.comps.map (fun p => p.1), []⟩,
              actor_id_vec := t.actor_id_vec ++ [t.id_ctr],
              id_ctr := t.id_ctr + 1,
              assignedIds := t.assignedIds ++ [t.id_ctr] }) t)
        with onstart_new := true }) := by
  refine ⟨?_, ?_, ?_, ?_⟩
  · intro t
    obtain ⟨δ, h1, hn⟩ := (HML_sceneCreate sd).1 t
    refine ⟨δ, ?_, hn⟩
    show (rebuildComponentCaches _).trace = _
    rw [(rebuildComponentCaches_fields _).1]
    exact h1
  · intro t
    exact le_trans ((HML_sceneCreate sd).2.1 t)
      (le_of_eq (rebuildComponentCaches_fields _).2.2.1.symm)
  · intro t hwf
    have hwfF := (HML_sceneCreate sd).2.2.1 t hwf
    refine actorsWF_of_keys _ _ ?_ ?_ hwfF
    · exact (rebuildComponentCaches_fields _).2.2.1
    · exact congrArg (List.map Prod.fst) (rebuildComponentCaches_fields _).2.2.2
  · intro t ck c hwf hid hc
    refine (HML_sceneCreate sd).2.2.2 t ck c hwf hid ?_
    show (List.lookup ck.actorId (sd.actors.foldl (fun t ad =>
      { t with
        actors := assocSet t.actors t.id_ctr
          ⟨ad.name, false, false, ad.comps, ad.comps.map (fun p => p.1), []⟩,
        actor_id_vec := t.actor_id_vec ++ [t.id_ctr],
        id_ctr := t.id_ctr + 1,
        assignedIds := t.assignedIds ++ [t.id_ctr] }) t).actors).bind
      (fun a => a.components.lookup ck.key) = some c
    rw [← (rebuildComponentCaches_fields _).2.2.2]
    exact hc

theorem HML_loadPre (env : Env) : HML (fun s =>
    let s0 : EngineState := { s with
                              next_scene_to_load := "",
                              current_scene_name :=
                                (if s.next_scene_to_load ≠ "" then
                                  s.next_scene_to_load
                                 else env.initialScene) }
    let s1 := ((s0.actors.filter
      (fun p => !(p.2.dont_destroy && !p.2.destroyed))).map (fun p => p.1)).foldl
      (sceneDestroyActorStep env) s0
    { s1 with
      actors := s1.actors.filter (fun p => p.2.dont_destroy && !p.2.destroyed),
      actor_id_vec := (s1.actors.filter
        (fun p => p.2.dont_destroy && !p.2.destroyed)).map (fun p => p.1) }) := by
  have hD : ∀ l : List Nat, HML (fun t => l.foldl (sceneDestroyActorStep env) t) :=
    fun l => HML_foldl (fun a2 => HML_sceneDestroyActorStep env a2) l
  refine ⟨?_, ?_, ?_, ?_⟩
  · intro s
    dsimp only
    obtain ⟨δ, h1, hn⟩ := (hD ((({ s with
      next_scene_to_load := "",
      current_scene_name := (if s.next_scene_to_load ≠ "" then s.next_scene_to_load
        else env.initialScene) } : EngineState).actors.filter
      (fun p => !(p.2.dont_destroy && !p.2.destroyed))).map (fun p => p.1))).1 { s with
      next_scene_to_load := "",
      current_scene_name := (if s.next_scene_to_load ≠ "" then s.next_scene_to_load
        else env.initialScene) }
    exact ⟨δ, h1, hn⟩
  · intro s
    dsimp only
    exact (hD ((({ s with
      next_scene_to_load := "",
      current_scene_name := (if s.next_scene_to_load ≠ "" then s.next_scene_to_load
        else env.initialScene) } : EngineState).actors.filter
      (fun p => !(p.2.dont_destroy && !p.2.destroyed))).map (fun p => p.1))).2.1 { s with
      next_scene_to_load := "",
      current_scene_name := (if s.next_scene_to_load ≠ "" then s.next_scene_to_load
        else env.initialScene) }
  · intro s hwf
    dsimp only
    have hwfF := (hD ((({ s with
      next_scene_to_load := "",
      current_scene_name := (if s.next_scene_to_load ≠ "" then s.next_scene_to_load
        else env.initialScene) } : EngineState).actors.filter
      (fun p => !(p.2.dont_destroy && !p.2.destroyed))).map (fun p => p.1))).2.2.1 { s with
      next_scene_to_load := "",
      current_scene_name := (if s.next_scene_to_load ≠ "" then s.next_scene_to_load
        else env.initialScene) } hwf
    constructor
    · exact hwfF.1.sublist ((List.filter_sublist _).map Prod.fst)
    · intro p hp
      exact hwfF.2 p (List.mem_of_mem_filter hp)
  · intro s ck c hwf hid hc
    dsimp only at hc
    have hwfF := (hD ((({ s with
      next_scene_to_load := "",
      current_scene_name := (if s.next_scene_to_load ≠ "" then s.next_scene_to_load
        else env.initialScene) } : EngineState).actors.filter
      (fun p => !(p.2.dont_destroy && !p.2.destroyed))).map (fun p => p.1))).2.2.1 { s with
      next_scene_to_load := "",
      current_scene_name := (if s.next_scene_to_load ≠ "" then s.next_scene_to_load
        else env.initialScene) } hwf
    have key : ∀ (X : EngineState), actorsWF X →
        compAt { X with
          actors := X.actors.filter (fun p => p.2.dont_destroy && !p.2.destroyed),
          actor_id_vec := (X.actors.filter
            (fun p => p.2.dont_destroy && !p.2.destroyed)).map (fun p => p.1) } ck =
          some c →
        compAt X ck = some c := by
      intro X hX hcc
      have hc3 : (List.lookup ck.actorId (X.actors.filter
          (fun p => p.2.dont_destroy && !p.2.destroyed))).bind
          (fun a => a.components.lookup ck.key) = some c := hcc
      rcases hla : List.lookup ck.actorId (X.actors.filter
          (fun p => p.2.dont_destroy && !p.2.destroyed)) with _ | a
      · rw [hla] at hc3
        exact Option.noConfusion hc3
      · rw [hla] at hc3
        have horig := lookup_filter_nodup_some X.actors _ ck.actorId a hX.1 hla
        show (List.lookup ck.actorId X.actors).bind _ = some c
        rw [horig]
        exact hc3
    exact (hD ((({ s with
      next_scene_to_load := "",
      current_scene_name := (if s.next_scene_to_load ≠ "" then s.next_scene_to_load
        else env.initialScene) } : EngineState).actors.filter
      (fun p => !(p.2.dont_destroy && !p.2.destroyed))).map (fun p => p.1))).2.2.2 { s with
      next_scene_to_load := "",
      current_scene_name := (if s.next_scene_to_load ≠ "" then s.next_scene_to_load
        else env.initialScene) } ck c hwf hid (key _ hwfF hc)

theorem HML_loadScene (env : Env) : HML (fun s => loadScene env s) := by
  refine ⟨?_, ?_, ?_, ?_⟩
  · intro s
    exact (HML_comp (HML_loadPre env) (HML_loadTail env (env.scenes
      (if s.next_scene_to_load ≠ "" then s.next_scene_to_load
       else env.initialScene)))).1 s
  · intro s
    exact (HML_comp (HML_loadPre env) (HML_loadTail env (env.scenes
      (if s.next_scene_to_load ≠ "" then s.next_scene_to_load
       else env.initialScene)))).2.1 s
  · intro s hwf
    exact (HML_comp (HML_loadPre env) (HML_loadTail env (env.scenes
      (if s.next_scene_to_load ≠ "" then s.next_scene_to_load
       else env.initialScene)))).2.2.1 s hwf
  · intro s ck c hwf hid hc
    exact (HML_comp (HML_loadPre env) (HML_loadTail env (env.scenes
      (if s.next_scene_to_load ≠ "" then s.next_scene_to_load
       else env.initialScene)))).2.2.2 s ck c hwf hid hc

/-!  ### Composition over the whole run -/

theorem GP_UpdateScene (env : Env) : GP (fun s => UpdateScene env s) := by
  have hstart : GP (fun s => if s.onstart_new then
      ProcessSceneOnStart env { s with onstart_new := false } else s) := by
    intro s hG
    dsimp only
    by_cases h : s.onstart_new
    · rw [if_pos h]
      exact GP_ProcessSceneOnStart env { s with onstart_new := false } hG
    · rw [if_neg h]
      exact hG
  have hemitR : GP (fun s => emitEv s (Ev.reconcile s.frameNumber)) :=
    GP_of_HML (HML_emit (fun s => Ev.reconcile s.frameNumber)
      (fun s k aid key n h => Ev.noConfusion h))
  have hemitP : GP (fun s => emitEv s (Ev.physicsStep s.frameNumber)) :=
    GP_of_HML (HML_emit (fun s => Ev.physicsStep s.frameNumber)
      (fun s k aid key n h => Ev.noConfusion h))
  have hvec : GP (fun s => ({ s with
      actor_id_vec := s.actor_id_vec ++ s.actors_to_add,
      actors_to_add := [] } : EngineState)) := fun s hG => hG
  have hc1 := GP_comp hstart (GP_of_HML HML_UpdateRigidbodyInits)
  have hc2 := GP_comp hc1 (GP_of_HML (HML_ProcessSceneUpdate env))
  have hc3 := GP_comp hc2 (GP_of_HML (HML_ProcessSceneLateUpdate env))
  have hc4 := GP_comp hc3 (GP_of_HML (HML_RemoveActorComponents env))
  have hc5 := GP_comp hc4 hemitR
  have hc6 := GP_comp hc5 (GP_of_HML HML_ActorsPendingDestruction)
  have hc7 := GP_comp hc6 hvec
  have hc8 := GP_comp hc7 hemitP
  intro s hG
  exact hc8 s hG

theorem GP_EngineUpdate (env : Env) (pre : List Cmd) :
    GP (fun s => EngineUpdate env pre s) := by
  have hload : GP (fun s => if s.next_scene_to_load ≠ "" then loadScene env s else s) := by
    intro s hG
    dsimp only
    by_cases h : s.next_scene_to_load ≠ ""
    · rw [if_pos h]
      exact GP_of_HML (HML_loadScene env) s hG
    · rw [if_neg h]
      exact hG
  have h1 := GP_comp hload (GP_of_HML (HML_cmds env pre))
  have h2 := GP_comp h1 (GP_UpdateScene env)
  intro s hG
  exact h2 s hG

theorem GP_engineFrame (env : Env) (pre : List Cmd) :
    GP (fun s => engineFrame env pre s) := by
  have hrender : GP (fun s => EngineRender s) :=
    GP_of_HML (HML_emit (fun s => Ev.renderFlush s.frameNumber)
      (fun s k aid key n h => Ev.noConfusion h))
  have hbump : GP (fun s => ({ s with frameNumber := s.frameNumber + 1 } :
      EngineState)) := fun s hG => hG
  have h1 := GP_comp (GP_EngineUpdate env pre) hrender
  have h2 := GP_comp h1 hbump
  intro s hG
  exact h2 s hG

theorem G4_initState : G4 initState := by
  constructor
  · exact ⟨List.nodup_nil, fun p hp => absurd hp (List.not_mem_nil p)⟩
  · intro ck
    constructor
    · have h0 : startEvts ck initState.trace = 0 := rfl
      omega
    · intro h1
      exfalso
      have h0 : startEvts ck initState.trace = 0 := rfl
      omega

/-- C4 (amended): over a whole run — any environment, any scripted behavior,
    any frame count — every component instance (actor id, component key)
    receives at most one OnStart invocation in the recorded trace. -/
theorem start_at_most_once_amended :
    ∀ (env : Env) (frames : List (List Cmd)) (ck : CompKey),
      startEvts ck (engineRun env frames).trace ≤ 1 := by
  intro env frames ck
  have hG : G4 (engineRun env frames) := by
    have hinit : G4 (engineInit env) :=
      GP_of_HML (HML_loadScene env) initState G4_initState
    exact GP_foldl (fun pre => GP_engineFrame env pre) frames (engineInit env) hinit
  exact (hG.2 ck).1

/-- C7 witness: on the concrete mid-frame state (actor 0 destroyed and
    queued, late entry still cached) the rest of the frame records no
    OnLateUpdate for actor 0 and erases it. -/
theorem destroy_mid_update_no_late_update_witness :
    ((∀ key n, Ev.callback CbKind.lateUpdate 0 key n ∈
        (updateSceneTail singleActorEnv c7state).trace →
      Ev.callback CbKind.lateUpdate 0 key n ∈ c7state.trace) ∧
     lookupActor (updateSceneTail singleActorEnv c7state) 0 = none) ∧
    (∃ a2, lookupActor (execCmd singleActorEnv c7state (Cmd.destroyActor 0)) 0 =
        some a2 ∧ a2.destroyed = true) :=
  ⟨destroy_mid_update_no_late_update.2.2 singleActorEnv c7state 0 (by decide)
     ⟨c7actor, by decide, by decide⟩ (by decide),
   (destroy_mid_update_no_late_update.2.1 singleActorEnv c7state 0 c7actor
     (by decide) (by decide)).1⟩

end FrOcean
